import Mathlib

/-!
# makecdncia: a shallow embedding of `main.go`

The program repackages a title metadata file (TMD), a ticket (CETK) and the
content payloads of a title into one CIA archive.  Every function of `main.go`
is translated below under its own name.

Conventions of the embedding:

* a Go `byte` is a `Fin 256`, a `[]byte` is a `List Byte` whose capacity equals
  its length (a `GoSlice` where the capacity may exceed the length), and a
  `[n]byte` is a list of length exactly `n`;
* Go's unsigned machine integers are natural numbers, reduced modulo `2 ^ w`
  wherever the Go operation can wrap or truncate;
* a Go function returning `(value, error)` that cannot panic returns a pair
  `value × Option GoError` (`none` is Go's `nil`); a function that can panic
  returns `Except Fault value`, where `Fault.panic` is a run-time panic;
* the file system is a parameter (`FS`); the bytes written to the created
  output file are returned next to the function's result.
-/

namespace MakeCdnCia

/-! ## Data model -/

/-- A Go `byte`. -/
abbrev Byte := Fin 256

/-- Go's `[n]byte`: a byte array of fixed length `n`. -/
abbrev ByteArr (n : Nat) := { l : List Byte // l.length = n }

/-- The all-zero array, the zero value of `[n]byte`. -/
def ByteArr.zero (n : Nat) : ByteArr n := ⟨List.replicate n 0, by simp⟩

/-- Non-nil `error` values the program can see. -/
inductive GoError where
  /-- Go's `strconv.ErrSyntax`: the digit string is empty or has a digit outside the base. -/
  | parseInvalid
  /-- Go's `strconv.ErrRange`: the value does not fit the requested bit size. -/
  | parseRange
  /-- Error of `strconv` for a base outside `2..36`. -/
  | parseBase
  /-- Error of `strconv` for a bit size outside `1..64`. -/
  | parseBitSize
  /-- The error `errors.New("Bad Signature Type")` of `getSigSize`. -/
  | badSignatureType
  /-- The error `io.ErrUnexpectedEOF` or `io.EOF` of `binary.Read`. -/
  | unexpectedEOF
  /-- Error of `encoding/hex`: odd length or a character that is no hex digit. -/
  | hexInvalid
  /-- Failure of `ioutil.ReadFile` on the given path. -/
  | readFile (path : List Char)
  /-- Failure of `os.Create` on the given path. -/
  | createFile (path : List Char)
  deriving DecidableEq, Repr

/-- How a call that does not return normally ends. -/
inductive Fault where
  /-- The function returned this non-nil error. -/
  | err (e : GoError)
  /-- The goroutine panicked (slice bounds or index out of range). -/
  | panic
  deriving DecidableEq, Repr

/-- Turns Go's `(value, err)` followed by `if err != nil { return ..., err }`
into an `Except`. -/
def liftErr {α : Type} : α × Option GoError → Except Fault α
  | (_, some e) => .error (.err e)
  | (v, none) => .ok v

/-- The slice expression `s[lo:hi]` of Go on a slice whose capacity is its
length: it panics unless `lo ≤ hi ≤ len(s)`. -/
def goSlice (s : List Byte) (lo hi : Nat) : Except Fault (List Byte) :=
  if lo ≤ hi ∧ hi ≤ s.length then .ok ((s.drop lo).take (hi - lo)) else .error .panic

/-- The index expression `xs[i]` of Go on a slice of `int`, with a signed index:
it panics unless `0 ≤ i < len(xs)`. -/
def goIndex (xs : List Nat) (i : Int) : Except Fault Nat :=
  if 0 ≤ i then
    match xs[i.toNat]? with
    | some v => .ok v
    | none => .error .panic
  else .error .panic

def sigTypeRSA4096SHA1 : Nat := 10000
def sigTypeRSA2048SHA1 : Nat := 10001
def sigTypeECDSASHA1 : Nat := 10002
def sigTypeRSA4096SHA256 : Nat := 10003
def sigTypeRSA2048SHA256 : Nat := 10004
def sigTypeECDSASHA256 : Nat := 10005

/-- Go struct `contentChunkRec`. -/
structure contentChunkRec where
  ContentID : ByteArr 0x4
  ContentIndex : ByteArr 0x2
  ContentType : ByteArr 0x2
  ContentSize : ByteArr 0x8
  SHA256Hash : ByteArr 0x20
  deriving DecidableEq

/-- Go struct `tmd`. -/
structure tmd where
  TitleID : List Byte
  HeaderChunk : List Byte
  contentChunkRecs : List contentChunkRec
  CertCP : List Byte
  deriving DecidableEq

/-- Go struct `tk`. -/
structure tk where
  TitleID : List Byte
  HeaderChunk : List Byte
  CertCA : List Byte
  CertXS : List Byte
  deriving DecidableEq

/-- Go struct `ciaHdr`; the numeric fields are `uint32`, `uint16` and `uint64`
values held as natural numbers (see `ciaHdr.InRange`); `Type_` is the field `Type`. -/
structure ciaHdr where
  HdrSize : Nat
  Type_ : Nat
  Ver : Nat
  CertSize : Nat
  TikSize : Nat
  TmdSize : Nat
  MetaSize : Nat
  ContentSize : Nat
  ContentIndex : ByteArr 8192
  deriving DecidableEq

/-- The numeric fields of a header fit their Go types. -/
def ciaHdr.InRange (h : ciaHdr) : Prop :=
  h.HdrSize < 2 ^ 32 ∧ h.Type_ < 2 ^ 16 ∧ h.Ver < 2 ^ 16 ∧ h.CertSize < 2 ^ 32 ∧
    h.TikSize < 2 ^ 32 ∧ h.TmdSize < 2 ^ 32 ∧ h.MetaSize < 2 ^ 32 ∧ h.ContentSize < 2 ^ 64

instance (h : ciaHdr) : Decidable h.InRange := by
  unfold ciaHdr.InRange; infer_instance

/-! ## The Go library calls the program makes -/

/-- The digit table `hextable` of `encoding/hex`. -/
def hextable : List Char := ("0123456789abcdef" : String).data

/-- Go's `hex.EncodeToString`: two lower-case hex digits per byte, high nibble first. -/
def hexEncodeToString : List Byte → List Char
  | [] => []
  | v :: rest =>
    hextable.getD (v.val >>> 4) '0' :: hextable.getD (v.val &&& 0x0f) '0' ::
      hexEncodeToString rest

/-- The value `strconv.ParseUint` gives one character of its input, if any:
`'0'..'9'`, then letters of either case counting from 10. -/
def digitVal (c : Char) : Option Nat :=
  if '0' ≤ c ∧ c ≤ '9' then some (c.toNat - '0'.toNat)
  else if 'a' ≤ c ∧ c ≤ 'z' then some (c.toNat - 'a'.toNat + 10)
  else if 'A' ≤ c ∧ c ≤ 'Z' then some (c.toNat - 'A'.toNat + 10)
  else none

def maxUint64 : Nat := 2 ^ 64 - 1

/-- The digit loop of `strconv.ParseUint`, with `n` the `uint64` accumulator. -/
def parseUintLoop (base maxVal : Nat) : List Char → Nat → Nat × Option GoError
  | [], n => (n, none)
  | c :: cs, n =>
    match digitVal c with
    | none => (0, some .parseInvalid)
    | some d =>
      if d ≥ base then (0, some .parseInvalid)
      else if n ≥ maxUint64 / base + 1 then (maxVal, some .parseRange)
      else
        let n' := n * base
        let n1 := (n' + d) % 2 ^ 64
        if n1 < n' ∨ n1 > maxVal then (maxVal, some .parseRange)
        else parseUintLoop base maxVal cs n1

/-- Go's `strconv.ParseUint(s, base, bitSize)` for an explicit base `2..36` and
an explicit bit size `1..64`, the only way the program calls it (bases 10 and
16, bit sizes 4, 16, 32 and 64).  Base 0 and bit size 0, which Go treats
specially, are outside this embedding and are reported as errors here. -/
def strconvParseUint (s : List Char) (base bitSize : Nat) : Nat × Option GoError :=
  if s = [] then (0, some .parseInvalid)
  else if ¬ (2 ≤ base ∧ base ≤ 36) then (0, some .parseBase)
  else if ¬ (1 ≤ bitSize ∧ bitSize ≤ 64) then (0, some .parseBitSize)
  else parseUintLoop base (2 ^ bitSize - 1) s 0

/-- The value of one hex digit for `hex.DecodeString`. -/
def fromHexChar (c : Char) : Option Nat :=
  if '0' ≤ c ∧ c ≤ '9' then some (c.toNat - '0'.toNat)
  else if 'a' ≤ c ∧ c ≤ 'f' then some (c.toNat - 'a'.toNat + 10)
  else if 'A' ≤ c ∧ c ≤ 'F' then some (c.toNat - 'A'.toNat + 10)
  else none

/-- Go's `hex.DecodeString`: one byte per pair of hex digits; on a malformed
input the bytes decoded so far come with an error. -/
def hexDecodeString : List Char → List Byte × Option GoError
  | [] => ([], none)
  | [_] => ([], some .hexInvalid)
  | p :: q :: rest =>
    match fromHexChar p, fromHexChar q with
    | some a, some b =>
      (⟨(a * 16 + b) % 256, Nat.mod_lt _ (by decide)⟩ :: (hexDecodeString rest).1,
        (hexDecodeString rest).2)
    | _, _ => ([], some .hexInvalid)

/-- Go's `strings.Repeat(s, count)` for a count that is not negative. -/
def stringsRepeat (s : List Char) : Nat → List Char
  | 0 => []
  | n + 1 => s ++ stringsRepeat s n

/-- The `width` bytes of `v` in little-endian order, as `binary.LittleEndian`
writes an unsigned integer of that width. -/
def leBytes : Nat → Nat → List Byte
  | 0, _ => []
  | w + 1, v => ⟨v % 256, Nat.mod_lt _ (by decide)⟩ :: leBytes w (v / 256)

/-- Go's `binary.Write(w, binary.LittleEndian, dat)` for `dat []byte`: every
element is written as a one-byte integer. -/
def binaryWriteBytes : List Byte → List Byte
  | [] => []
  | b :: rest => leBytes 1 b.val ++ binaryWriteBytes rest

/-- Go's `binary.Write(w, binary.LittleEndian, h)` for `h ciaHdr`: the fields
in declaration order, no padding between them. -/
def binaryWriteHdr (h : ciaHdr) : List Byte :=
  leBytes 4 h.HdrSize ++ leBytes 2 h.Type_ ++ leBytes 2 h.Ver ++ leBytes 4 h.CertSize ++
    leBytes 4 h.TikSize ++ leBytes 4 h.TmdSize ++ leBytes 4 h.MetaSize ++
    leBytes 8 h.ContentSize ++ h.ContentIndex.val

/-- Go's `binary.Read(r, binary.LittleEndian, &cnt)` for `cnt contentChunkRec`:
the five byte arrays are filled in declaration order from the next `0x30`
bytes of the reader, and a shorter reader is an error. -/
def binaryReadRec (data : List Byte) : Except Fault contentChunkRec :=
  if h : 0x30 ≤ data.length then
    .ok
      { ContentID := ⟨data.take 4, by simp only [List.length_take]; omega⟩
        ContentIndex := ⟨(data.drop 4).take 2, by
          simp only [List.length_take, List.length_drop]; omega⟩
        ContentType := ⟨(data.drop 6).take 2, by
          simp only [List.length_take, List.length_drop]; omega⟩
        ContentSize := ⟨(data.drop 8).take 8, by
          simp only [List.length_take, List.length_drop]; omega⟩
        SHA256Hash := ⟨(data.drop 16).take 32, by
          simp only [List.length_take, List.length_drop]; omega⟩ }
  else .error (.err .unexpectedEOF)

/-- The file system the program runs against. -/
structure FS where
  /-- The outcome of `ioutil.ReadFile(path)`: the file's bytes, or `none` on an error. -/
  readFile : List Char → Option (List Byte)
  /-- Whether `os.Create(path)` succeeds. -/
  create : List Char → Bool

/-! ## The functions of `main.go` -/

/-- Go: `hexToInt(dat, base, size)`. -/
def hexToInt (dat : List Byte) (base size : Nat) : Nat × Option GoError :=
  match strconvParseUint (hexEncodeToString dat) base size with
  | (_, some e) => (0, some e)
  | (i, none) => (i, none)

/-- Go: `getSigSize(sigType)`.  A Go `switch` does not fall through: the three
`case` clauses with an empty body leave `size` at its zero value. -/
def getSigSize (sigType : Nat) : Nat × Option GoError :=
  if sigType = sigTypeRSA4096SHA1 then (0, none)
  else if sigType = sigTypeRSA4096SHA256 then (576, none)
  else if sigType = sigTypeRSA2048SHA1 then (0, none)
  else if sigType = sigTypeRSA2048SHA256 then (320, none)
  else if sigType = sigTypeECDSASHA1 then (0, none)
  else if sigType = sigTypeECDSASHA256 then (128, none)
  else (0, some .badSignatureType)

/-- The loop of `getCOffsets`: `todo` iterations are left, `i` is the loop
counter and `cOffsets` the slice built so far. -/
def getCOffsets_loop : Nat → Nat → List Nat → List Nat
  | 0, _, cOffsets => cOffsets
  | todo + 1, i, cOffsets => getCOffsets_loop todo (i + 1) (cOffsets ++ [0xB04 + 0x30 * i])

/-- Go: `getCOffsets(tmd)`. -/
def getCOffsets (TMD : List Byte) : Except Fault (List Nat) :=
  match goSlice TMD 0x1DE 0x1E0 with
  | .error f => .error f
  | .ok field =>
    match hexToInt field 10 4 with
    | (_, some e) => .error (.err e)
    | (contentCount, none) => .ok (getCOffsets_loop contentCount 0 [])

/-- The descriptor loop of `processTMD` over the offsets still to visit, with
`recs` the value of `t.contentChunkRecs` so far. -/
def processTMD_loop (TMD : List Byte) :
    List Nat → List contentChunkRec → Except Fault (List contentChunkRec)
  | [], recs => .ok recs
  | off :: rest, recs =>
    match goSlice TMD off (off + 0x30) with
    | .error f => .error f
    | .ok data =>
      match binaryReadRec data with
      | .error f => .error f
      | .ok cnt => processTMD_loop TMD rest (recs ++ [cnt])

/-- Go: `processTMD(TMD)`. -/
def processTMD (TMD : List Byte) : Except Fault tmd :=
  match goSlice TMD 0 4 with
  | .error f => .error f
  | .ok sigBytes =>
  match hexToInt sigBytes 10 32 with
  | (_, some e) => .error (.err e)
  | (sigType, none) =>
  match getSigSize sigType with
  | (_, some e) => .error (.err e)
  | (sigSize, none) =>
  match getCOffsets TMD with
  | .error f => .error f
  | .ok offsets =>
  match processTMD_loop TMD offsets [] with
  | .error f => .error f
  | .ok recs =>
  match goIndex offsets ((offsets.length : Int) - 1) with
  | .error f => .error f
  | .ok last =>
  let certOffset := last + 0x30
  match goSlice TMD (sigSize + 76) (sigSize + 84) with
  | .error f => .error f
  | .ok titleID =>
  match goSlice TMD 0 certOffset with
  | .error f => .error f
  | .ok headerChunk =>
  match goSlice TMD certOffset (certOffset + 768) with
  | .error f => .error f
  | .ok certCP =>
    .ok { TitleID := titleID, HeaderChunk := headerChunk, contentChunkRecs := recs,
          CertCP := certCP }

/-- Go: `processTk(CETK)`. -/
def processTk (CETK : List Byte) : Except Fault tk :=
  match goSlice CETK 0 4 with
  | .error f => .error f
  | .ok sigBytes =>
  match hexToInt sigBytes 10 32 with
  | (_, some e) => .error (.err e)
  | (sigType, none) =>
  match getSigSize sigType with
  | (_, some e) => .error (.err e)
  | (sigSize, none) =>
  match goSlice CETK (sigSize + 528) (sigSize + 1296) with
  | .error f => .error f
  | .ok certXS =>
  match goSlice CETK (sigSize + 1296) (sigSize + 2320) with
  | .error f => .error f
  | .ok certCA =>
  match goSlice CETK 0 (sigSize + 528) with
  | .error f => .error f
  | .ok headerChunk =>
  match goSlice headerChunk (sigSize + 156) (sigSize + 164) with
  | .error f => .error f
  | .ok titleID =>
    .ok { TitleID := titleID, HeaderChunk := headerChunk, CertCA := certCA, CertXS := certXS }

/-- The first loop of `genCiaHDR`: `size` is the `uint64` running total. -/
def genCiaHDR_sizeLoop : List contentChunkRec → Nat → Except Fault Nat
  | [], size => .ok size
  | r :: rest, size =>
    match hexToInt r.ContentSize.val 16 64 with
    | (_, some e) => .error (.err e)
    | (parse, none) => genCiaHDR_sizeLoop rest ((size + parse) % 2 ^ 64)

/-- The statement `b |= 0x80 >> k` on a byte `b`, for a `uint64` shift count `k`. -/
def orShiftedBit (b : Byte) (k : Nat) : Byte :=
  ⟨(b.val ||| (0x80 >>> k) % 256) % 256, Nat.mod_lt _ (by decide)⟩

/-- The second loop of `genCiaHDR`: `bitmap` is `CiaHdr.ContentIndex` so far.
An index outside the array is a run-time panic. -/
def genCiaHDR_indexLoop : List contentChunkRec → ByteArr 8192 → Except Fault (ByteArr 8192)
  | [], bitmap => .ok bitmap
  | r :: rest, bitmap =>
    match hexToInt r.ContentIndex.val 16 16 with
    | (_, some e) => .error (.err e)
    | (index, none) =>
      if index >>> 3 < 8192 then
        genCiaHDR_indexLoop rest
          ⟨bitmap.val.set (index >>> 3)
              (orShiftedBit (bitmap.val.getD (index >>> 3) 0) (index &&& 7)),
            by rw [List.length_set]; exact bitmap.property⟩
      else .error .panic

/-- Go: `genCiaHDR(TMD, CETK)`. -/
def genCiaHDR (TMD : tmd) (CETK : tk) : Except Fault ciaHdr :=
  match genCiaHDR_sizeLoop TMD.contentChunkRecs 0 with
  | .error f => .error f
  | .ok size =>
    match genCiaHDR_indexLoop TMD.contentChunkRecs (ByteArr.zero 8192) with
    | .error f => .error f
    | .ok bitmap =>
      .ok { HdrSize := 0x2020
            Type_ := 0x00
            Ver := 0x00
            CertSize := (CETK.CertCA.length + CETK.CertXS.length + TMD.CertCP.length) % 2 ^ 32
            TikSize := CETK.HeaderChunk.length % 2 ^ 32
            TmdSize := TMD.HeaderChunk.length % 2 ^ 32
            MetaSize := 0x00
            ContentSize := size
            ContentIndex := bitmap }

/-- Go: `getPadding(length)`, with Go's truncated remainder on the signed
`length`.  The error of `hex.DecodeString` is dropped, as in the source. -/
def getPadding (length : Int) : List Byte :=
  if length.tmod 64 ≠ 0 then
    let size := 64 - length.tmod 64
    (hexDecodeString (stringsRepeat ['0', '0'] size.toNat)).1
  else []

/-- Go: `toLE(dat)`. -/
def toLE (dat : List Byte) : List Byte :=
  binaryWriteBytes dat

/-- The name of the source of a descriptor's payload in `genCia`. -/
def contentPath (cdnDir : List Char) (r : contentChunkRec) : List Char :=
  cdnDir ++ ['/'] ++ hexEncodeToString r.ContentID.val

/-- The payload loop of `genCia`: `out` is what has been written to the file. -/
def genCia_loop (fs : FS) (cdnDir : List Char) :
    List contentChunkRec → List Byte → List Byte × Option Fault
  | [], out => (out, none)
  | r :: rest, out =>
    match fs.readFile (contentPath cdnDir r) with
    | none => (out, some (.err (.readFile (contentPath cdnDir r))))
    | some cnt => genCia_loop fs cdnDir rest (out ++ cnt)

/-- Go: `genCia(CETK, TMD, cdnDir, dir, file)`.  The result is the content of
the created file together with the returned error (`none` is `nil`).  The
error of `binary.Write`, which the final `if err != nil` looks at, is always
`nil` for the fixed-size `ciaHdr`. -/
def genCia (fs : FS) (CETK : tk) (TMD : tmd) (cdnDir dir file : List Char) :
    List Byte × Option Fault :=
  if fs.create (dir ++ file ++ ['.', 'c', 'i', 'a']) = false then
    ([], some (.err (.createFile (dir ++ file ++ ['.', 'c', 'i', 'a']))))
  else
    match genCiaHDR TMD CETK with
    | .error f => ([], some f)
    | .ok ciahdr =>
      let bCia := binaryWriteHdr ciahdr
      let out := bCia
      let out := out ++ getPadding (bCia.length : Int)
      let out := out ++ toLE CETK.CertCA
      let out := out ++ toLE CETK.CertXS
      let out := out ++ toLE TMD.CertCP
      let out := out ++ getPadding
        ((CETK.CertCA.length : Int) + (CETK.CertXS.length : Int) + (TMD.CertCP.length : Int))
      let out := out ++ toLE CETK.HeaderChunk
      let out := out ++ getPadding (CETK.HeaderChunk.length : Int)
      let out := out ++ toLE TMD.HeaderChunk
      let out := out ++ getPadding (TMD.HeaderChunk.length : Int)
      genCia_loop fs cdnDir TMD.contentChunkRecs out

/-- Go: `BuildCia(CDNDir, CiaDir, CiaName)`.  The result is the content of the
output file (empty when `genCia` was not reached) and the returned error.  The
error of `genCia` is assigned to `err`, and then `nil` is returned. -/
def BuildCia (fs : FS) (CDNDir CiaDir CiaName : List Char) : List Byte × Option Fault :=
  match fs.readFile (CDNDir ++ ['/', 'T', 'M', 'D']) with
  | none => ([], some (.err (.readFile (CDNDir ++ ['/', 'T', 'M', 'D']))))
  | some tmdBuf =>
    match fs.readFile (CDNDir ++ ['/', 'C', 'E', 'T', 'K']) with
    | none => ([], some (.err (.readFile (CDNDir ++ ['/', 'C', 'E', 'T', 'K']))))
    | some cetk =>
      match processTMD tmdBuf with
      | .error f => ([], some f)
      | .ok strcTmd =>
        match processTk cetk with
        | .error f => ([], some f)
        | .ok strcCetk =>
          ((genCia fs strcCetk strcTmd CDNDir CiaDir CiaName).1, none)

/-! ## The parsers on a buffer with spare capacity

The buffers `ioutil.ReadFile` returns have a capacity above their length.
The parsers below are `processTMD` and `processTk` again, on a slice value
that keeps its length and its capacity apart; `processTMDCap_eq` and
`processTkCap_eq` show that they do what the list versions do on the bytes of
the backing array. -/

/-- A Go `[]byte` value whose capacity may exceed its length, seen from its
first element: `backing` lists the bytes of the underlying array up to the
capacity and `len` is the length, so `cap = backing.length`. -/
structure GoSlice where
  backing : List Byte
  len : Nat
  len_le : len ≤ backing.length

/-- The bytes a slice value holds: the first `len` bytes of its backing array. -/
def GoSlice.bytes (b : GoSlice) : List Byte := b.backing.take b.len

/-- Go's slice expression `b[lo:hi]` on a slice value: it panics unless
`lo ≤ hi ≤ cap(b)`; the result starts at element `lo`, has length `hi - lo`
and keeps the capacity behind it. -/
def goSliceCap (b : GoSlice) (lo hi : Nat) : Except Fault GoSlice :=
  if h : lo ≤ hi ∧ hi ≤ b.backing.length then
    .ok ⟨b.backing.drop lo, hi - lo, by rw [List.length_drop]; omega⟩
  else .error .panic

/-- Go: `getCOffsets(tmd)` on a slice value with spare capacity. -/
def getCOffsetsCap (TMD : GoSlice) : Except Fault (List Nat) :=
  match goSliceCap TMD 0x1DE 0x1E0 with
  | .error f => .error f
  | .ok field =>
    match hexToInt field.bytes 10 4 with
    | (_, some e) => .error (.err e)
    | (contentCount, none) => .ok (getCOffsets_loop contentCount 0 [])

/-- The descriptor loop of `processTMD` on a slice value with spare capacity. -/
def processTMDCap_loop (TMD : GoSlice) :
    List Nat → List contentChunkRec → Except Fault (List contentChunkRec)
  | [], recs => .ok recs
  | off :: rest, recs =>
    match goSliceCap TMD off (off + 0x30) with
    | .error f => .error f
    | .ok data =>
      match binaryReadRec data.bytes with
      | .error f => .error f
      | .ok cnt => processTMDCap_loop TMD rest (recs ++ [cnt])

/-- Go: `processTMD(TMD)` on a slice value with spare capacity.  The function
never reads `len(TMD)`; every slice expression is bounded by the capacity. -/
def processTMDCap (TMD : GoSlice) : Except Fault tmd :=
  match goSliceCap TMD 0 4 with
  | .error f => .error f
  | .ok sigBytes =>
  match hexToInt sigBytes.bytes 10 32 with
  | (_, some e) => .error (.err e)
  | (sigType, none) =>
  match getSigSize sigType with
  | (_, some e) => .error (.err e)
  | (sigSize, none) =>
  match getCOffsetsCap TMD with
  | .error f => .error f
  | .ok offsets =>
  match processTMDCap_loop TMD offsets [] with
  | .error f => .error f
  | .ok recs =>
  match goIndex offsets ((offsets.length : Int) - 1) with
  | .error f => .error f
  | .ok last =>
  let certOffset := last + 0x30
  match goSliceCap TMD (sigSize + 76) (sigSize + 84) with
  | .error f => .error f
  | .ok titleID =>
  match goSliceCap TMD 0 certOffset with
  | .error f => .error f
  | .ok headerChunk =>
  match goSliceCap TMD certOffset (certOffset + 768) with
  | .error f => .error f
  | .ok certCP =>
    .ok { TitleID := titleID.bytes, HeaderChunk := headerChunk.bytes,
          contentChunkRecs := recs, CertCP := certCP.bytes }

/-- Go: `processTk(CETK)` on a slice value with spare capacity.  The function
never reads `len(CETK)`; every slice expression is bounded by the capacity. -/
def processTkCap (CETK : GoSlice) : Except Fault tk :=
  match goSliceCap CETK 0 4 with
  | .error f => .error f
  | .ok sigBytes =>
  match hexToInt sigBytes.bytes 10 32 with
  | (_, some e) => .error (.err e)
  | (sigType, none) =>
  match getSigSize sigType with
  | (_, some e) => .error (.err e)
  | (sigSize, none) =>
  match goSliceCap CETK (sigSize + 528) (sigSize + 1296) with
  | .error f => .error f
  | .ok certXS =>
  match goSliceCap CETK (sigSize + 1296) (sigSize + 2320) with
  | .error f => .error f
  | .ok certCA =>
  match goSliceCap CETK 0 (sigSize + 528) with
  | .error f => .error f
  | .ok headerChunk =>
  match goSliceCap headerChunk (sigSize + 156) (sigSize + 164) with
  | .error f => .error f
  | .ok titleID =>
    .ok { TitleID := titleID.bytes, HeaderChunk := headerChunk.bytes,
          CertCA := certCA.bytes, CertXS := certXS.bytes }

/-! ## Readings and example inputs used to state the properties -/

/-- The unsigned big-endian reading of a byte string, continuing from `n`. -/
def beAcc (n : Nat) (dat : List Byte) : Nat :=
  dat.foldl (fun acc b => acc * 256 + b.val) n

/-- The unsigned big-endian integer a byte string denotes. -/
def beVal (dat : List Byte) : Nat := beAcc 0 dat

/-- The six signature-type codes the program names. -/
def supportedSigTypes : List Nat :=
  [sigTypeRSA4096SHA1, sigTypeRSA2048SHA1, sigTypeECDSASHA1,
   sigTypeRSA4096SHA256, sigTypeRSA2048SHA256, sigTypeECDSASHA256]

/-- A metadata buffer with the given signature-type bytes at offset 0, the
given bytes from offset `0x1DE` on, the given descriptor table at `0xB04` and
768 certificate bytes behind it; every other byte is zero. -/
def exampleTMD (sig count recs : List Byte) : List Byte :=
  (sig ++ List.replicate (0x1DE - 4) 0) ++
    (count ++ (List.replicate (0xB04 - 0x1DE - count.length) 0 ++
      (recs ++ List.replicate 768 0)))

/-- A descriptor record: id, index, size (low byte only) and a zero type and hash. -/
def exampleRec (id : List Byte) (index : List Byte) (size : Byte) : List Byte :=
  id ++ (index ++ ([0, 0] ++ ([0, 0, 0, 0, 0, 0, 0, size] ++ List.replicate 32 0)))

/-- Two descriptors, ids `0000000a` and `0000000b`, sizes 100 and 200. -/
def exampleRecs : List Byte :=
  exampleRec [0, 0, 0, 0x0a] [0, 0] 100 ++ exampleRec [0, 0, 0, 0x0b] [0, 1] 200

/-- Whether bit `7 - idx mod 8` (most significant bit first) of byte `idx / 8`
of a bitmap is set. -/
def bitmapHas (bitmap : List Byte) (idx : Nat) : Bool :=
  (bitmap.getD (idx / 8) 0).val.testBit (7 - idx % 8)

/-- The sum of the `ContentSize` fields of a descriptor list, each read as an
unsigned big-endian integer. -/
def contentSizeSum (recs : List contentChunkRec) : Nat :=
  (recs.map (fun r => beVal r.ContentSize.val)).sum

/-- The payloads of a descriptor list, in descriptor order: for each descriptor
the content of the source named after its `ContentID` (empty if it is absent). -/
def payloads (fs : FS) (cdnDir : List Char) (recs : List contentChunkRec) : List (List Byte) :=
  recs.map (fun r => (fs.readFile (contentPath cdnDir r)).getD [])

/-- The name of the file `genCia` creates. -/
def ciaPath (dir file : List Char) : List Char := dir ++ file ++ ['.', 'c', 'i', 'a']

/-- The bytes `genCia` writes behind the header and its padding when every
payload is present: certificates, ticket header and metadata header, each
followed by its padding, then the payloads back to back. -/
def archiveBody (fs : FS) (CETK : tk) (TMD : tmd) (cdnDir : List Char) : List Byte :=
  CETK.CertCA ++ CETK.CertXS ++ TMD.CertCP ++
    getPadding ((CETK.CertCA.length : Int) + (CETK.CertXS.length : Int) +
      (TMD.CertCP.length : Int)) ++
    CETK.HeaderChunk ++ getPadding (CETK.HeaderChunk.length : Int) ++
    TMD.HeaderChunk ++ getPadding (TMD.HeaderChunk.length : Int) ++
    (payloads fs cdnDir TMD.contentChunkRecs).flatten

/-- The length `L` of a section together with its padding to the next multiple of 64. -/
def padded (L : Nat) : Nat := L + (64 - L % 64) % 64

/-- The unsigned little-endian integer a byte string denotes. -/
def leVal : List Byte → Nat
  | [] => 0
  | b :: rest => b.val + 256 * leVal rest

/-- Bytes `lo .. lo + k - 1` of a byte string. -/
def bytesAt (s : List Byte) (lo k : Nat) : List Byte := (s.drop lo).take k

/-- A descriptor value with the given id, index and size, type 0 and a zero hash. -/
def exampleRecVal (id : ByteArr 4) (index : ByteArr 2) (size : ByteArr 8) : contentChunkRec :=
  { ContentID := id, ContentIndex := index, ContentType := ByteArr.zero 2,
    ContentSize := size, SHA256Hash := ByteArr.zero 32 }

/-- A ticket value with an 848-byte header and certificates of 1024 and 768 bytes. -/
def exampleTkVal : tk :=
  { TitleID := List.replicate 8 0, HeaderChunk := List.replicate 848 1,
    CertCA := List.replicate 1024 2, CertXS := List.replicate 768 3 }

/-- A metadata value with a 2916-byte header, a 768-byte certificate and two
descriptors: ids `0000000a` and `0000000b`, indices 0 and 1, sizes 100 and 200. -/
def exampleTmdVal : tmd :=
  { TitleID := List.replicate 8 0, HeaderChunk := List.replicate 2916 4,
    contentChunkRecs :=
      [exampleRecVal ⟨[0, 0, 0, 0x0a], rfl⟩ ⟨[0, 0], rfl⟩ ⟨[0, 0, 0, 0, 0, 0, 0, 100], rfl⟩,
       exampleRecVal ⟨[0, 0, 0, 0x0b], rfl⟩ ⟨[0, 1], rfl⟩ ⟨[0, 0, 0, 0, 0, 0, 0, 200], rfl⟩],
    CertCP := List.replicate 768 5 }

/-- The source directory `cdn`. -/
def cdn : List Char := ['c', 'd', 'n']

/-- The output name `out`. -/
def outName : List Char := ['o', 'u', 't']

/-- A file system in which `cdn/0000000a` has 100 bytes, `cdn/0000000b` has 200
bytes, no other file can be read and every file can be created. -/
def exampleFS : FS :=
  { readFile := fun path =>
      if path = ['c', 'd', 'n', '/', '0', '0', '0', '0', '0', '0', '0', 'a'] then
        some (List.replicate 100 0xAA)
      else if path = ['c', 'd', 'n', '/', '0', '0', '0', '0', '0', '0', '0', 'b'] then
        some (List.replicate 200 0xBB)
      else none
    create := fun _ => true }

/-- A header value with the sizes of the example ticket and metadata. -/
def exampleHdr : ciaHdr :=
  { HdrSize := 0x2020, Type_ := 0, Ver := 0, CertSize := 2560, TikSize := 848,
    TmdSize := 2916, MetaSize := 0, ContentSize := 300, ContentIndex := ByteArr.zero 8192 }

/-- A ticket buffer of signature type `00 01 00 04` (size 320) and length
`320 + 2320`; every other byte is zero. -/
def exampleCETK : List Byte := [0, 1, 0, 4] ++ List.replicate (320 + 2320 - 4) 0

/-- A metadata buffer with one descriptor, whose id is `0000000c`. -/
def missingTMD : List Byte :=
  exampleTMD [0, 1, 0, 4] [0, 1] (exampleRec [0, 0, 0, 0x0c] [0, 0] 100)

/-- A source directory `cdn` holding `TMD` (one descriptor, id `0000000c`) and
`CETK` but no payload. -/
def missingFS : FS :=
  { readFile := fun path =>
      if path = ['c', 'd', 'n', '/', 'T', 'M', 'D'] then some missingTMD
      else if path = ['c', 'd', 'n', '/', 'C', 'E', 'T', 'K'] then some exampleCETK
      else none
    create := fun _ => true }

/-- A metadata value with a single descriptor of the given `ContentIndex`. -/
def singleIndexTmd (index : ByteArr 2) : tmd :=
  { TitleID := [], HeaderChunk := [],
    contentChunkRecs :=
      [exampleRecVal ⟨[0, 0, 0, 0], rfl⟩ index ⟨[0, 0, 0, 0, 0, 0, 0, 0], rfl⟩],
    CertCP := [] }

/-- The hex digits of a byte string as numbers `0 .. 15`, high nibble first. -/
def nibbles : List Byte → List Nat
  | [] => []
  | b :: rest => b.val / 16 :: b.val % 16 :: nibbles rest

/-- The number obtained by reading a list of digits in base ten, continuing from `n`. -/
def decAcc (n : Nat) (ds : List Nat) : Nat :=
  ds.foldl (fun acc d => acc * 10 + d) n

/-- The hex digits of a byte string read as a decimal number (meaningful when
every digit is below ten). -/
def decReading (dat : List Byte) : Nat := decAcc 0 (nibbles dat)

/-- The 0x30 bytes of a descriptor: its five fields in declaration order. -/
def recBytes (r : contentChunkRec) : List Byte :=
  r.ContentID.val ++ r.ContentIndex.val ++ r.ContentType.val ++ r.ContentSize.val ++
    r.SHA256Hash.val

/-- A ticket value whose header range has `2 ^ 32` bytes. -/
def hugeTk : tk :=
  { TitleID := [], HeaderChunk := List.replicate (2 ^ 32) 0, CertCA := [], CertXS := [] }

/-- A ticket buffer of signature type `00 01 00 04` cut off after 2004 bytes. -/
def shortCETK : List Byte := [0, 1, 0, 4] ++ List.replicate 2000 0

/-- A metadata buffer of signature type `00 01 00 04` with count bytes `00 02`
that ends 100 bytes behind the count field. -/
def shortTMD : List Byte :=
  ([0, 1, 0, 4] ++ List.replicate (0x1DE - 4) 0) ++ ([0, 2] ++ List.replicate 100 0)

/-- The example ticket buffer read one byte short: 2639 bytes, with the last
byte of the file's 2640 left in the spare capacity. -/
def oneShortCETK : GoSlice :=
  ⟨exampleCETK, 2639, by
    simp only [exampleCETK, List.length_append, List.length_replicate, List.length_cons,
      List.length_nil]
    decide⟩

/-- The ticket buffer of 2004 bytes with no spare capacity. -/
def cutCETK : GoSlice :=
  ⟨shortCETK, 2004, by
    simp only [shortCETK, List.length_append, List.length_replicate, List.length_cons,
      List.length_nil]
    decide⟩

/-- The example metadata buffer with two descriptors read one byte short: 3683
bytes, with one more byte of capacity. -/
def oneShortTMD : GoSlice :=
  ⟨exampleTMD [0, 1, 0, 4] [0, 2] exampleRecs, 3683, by
    simp only [exampleTMD, exampleRecs, exampleRec, List.length_append, List.length_replicate,
      List.length_cons, List.length_nil]
    decide⟩

/-- The metadata buffer of 580 bytes with no spare capacity. -/
def cutTMD : GoSlice :=
  ⟨shortTMD, 580, by
    simp only [shortTMD, List.length_append, List.length_replicate, List.length_cons,
      List.length_nil]
    decide⟩

/-! ## Signature sizes -/

/-- C1: what `getSigSize` returns on the six supported codes.  The three
SHA-256 codes give the documented lengths 576, 320 and 128; the three SHA-1
codes (10000, 10001, 10002) hit a `case` with an empty body and give size 0
with a nil error, not 576, 320 and 128. -/
theorem getSigSize_supported_codes :
    getSigSize sigTypeRSA4096SHA256 = (576, none) ∧
    getSigSize sigTypeRSA2048SHA256 = (320, none) ∧
    getSigSize sigTypeECDSASHA256 = (128, none) ∧
    getSigSize sigTypeRSA4096SHA1 = (0, none) ∧
    getSigSize sigTypeRSA2048SHA1 = (0, none) ∧
    getSigSize sigTypeECDSASHA1 = (0, none) := by
  decide

/-! ## Hex digits read back as numbers -/

theorem digitVal_hextable (d : Nat) (h : d < 16) : digitVal (hextable.getD d '0') = some d := by
  interval_cases d <;> decide

theorem digitVal_hi (b : Byte) : digitVal (hextable.getD (b.val >>> 4) '0') = some (b.val / 16) := by
  have h : b.val >>> 4 = b.val / 16 := by rw [Nat.shiftRight_eq_div_pow]
  rw [h]; exact digitVal_hextable _ (by have := b.isLt; omega)

theorem digitVal_lo (b : Byte) : digitVal (hextable.getD (b.val &&& 0x0f) '0') = some (b.val % 16) := by
  have h : b.val &&& 0x0f = b.val % 16 := Nat.and_pow_two_sub_one_eq_mod b.val 4
  rw [h]; exact digitVal_hextable _ (Nat.mod_lt _ (by decide))

theorem beAcc_cons (n : Nat) (b : Byte) (rest : List Byte) :
    beAcc n (b :: rest) = beAcc (n * 256 + b.val) rest := rfl

theorem le_beAcc (dat : List Byte) : ∀ n, n ≤ beAcc n dat := by
  induction dat with
  | nil => intro n; exact Nat.le_refl _
  | cons b rest ih =>
    intro n
    rw [beAcc_cons]
    have := ih (n * 256 + b.val)
    omega

theorem beAcc_lt (dat : List Byte) : ∀ n, beAcc n dat < (n + 1) * 256 ^ dat.length := by
  induction dat with
  | nil => intro n; simp [beAcc]
  | cons b rest ih =>
    intro n
    rw [beAcc_cons, List.length_cons, pow_succ]
    have h1 := ih (n * 256 + b.val)
    have hb := b.isLt
    have h2 : (n * 256 + b.val + 1) * 256 ^ rest.length ≤ ((n + 1) * 256) * 256 ^ rest.length :=
      Nat.mul_le_mul_right _ (by omega)
    calc beAcc (n * 256 + b.val) rest < (n * 256 + b.val + 1) * 256 ^ rest.length := h1
      _ ≤ ((n + 1) * 256) * 256 ^ rest.length := h2
      _ = (n + 1) * (256 ^ rest.length * 256) := by ring

theorem beVal_lt (dat : List Byte) : beVal dat < 256 ^ dat.length := by
  have := beAcc_lt dat 0
  simpa [beVal] using this

theorem parseUintLoop_hex (maxVal : Nat) (hmax : maxVal < 2 ^ 64) (dat : List Byte) :
    ∀ n, beAcc n dat ≤ maxVal →
      parseUintLoop 16 maxVal (hexEncodeToString dat) n = (beAcc n dat, none) := by
  induction dat with
  | nil => intro n _; rfl
  | cons b rest ih =>
    intro n hn
    rw [beAcc_cons] at hn ⊢
    have hle := le_beAcc rest (n * 256 + b.val)
    have hb := b.isLt
    have hcut : maxUint64 / 16 + 1 = 2 ^ 60 := by decide
    have h64 : (2 : Nat) ^ 64 = 18446744073709551616 := by norm_num
    have h60 : (2 : Nat) ^ 60 = 1152921504606846976 := by norm_num
    have e1 : (n * 16 + b.val / 16) % 2 ^ 64 = n * 16 + b.val / 16 := Nat.mod_eq_of_lt (by omega)
    have e2 : ((n * 16 + b.val / 16) * 16 + b.val % 16) % 2 ^ 64 = n * 256 + b.val := by
      rw [Nat.mod_eq_of_lt (by omega)]; omega
    simp only [hexEncodeToString, parseUintLoop, digitVal_hi, digitVal_lo, hcut, e1, e2]
    iterate 6 rw [if_neg (by omega)]
    exact ih _ hn

theorem hexToInt_hex (dat : List Byte) (size : Nat) (hne : dat ≠ []) (h1 : 1 ≤ size)
    (h64 : size ≤ 64) (hfit : 256 ^ dat.length ≤ 2 ^ size) :
    hexToInt dat 16 size = (beVal dat, none) := by
  have hpos : 0 < 2 ^ size := Nat.two_pow_pos size
  have hmax : 2 ^ size - 1 < 2 ^ 64 := by
    have : 2 ^ size ≤ 2 ^ 64 := Nat.pow_le_pow_right (by decide) h64
    omega
  have hv := beVal_lt dat
  have hloop := parseUintLoop_hex (2 ^ size - 1) hmax dat 0 (by unfold beVal at hv; omega)
  have hs : hexEncodeToString dat ≠ [] := by
    cases dat with
    | nil => exact absurd rfl hne
    | cons b rest => simp [hexEncodeToString]
  unfold hexToInt strconvParseUint
  rw [if_neg hs, if_neg (by omega), if_neg (by omega), hloop]
  rfl

theorem hexToInt_sig (b : Byte) (h : b.val ≤ 5) : hexToInt [0, 1, 0, b] 10 32 = (10000 + b.val, none) := by
  obtain ⟨k, hk⟩ := b
  simp only at h
  interval_cases k <;> (revert hk; decide)

theorem hexToInt_count (b : Byte) (h1 : 1 ≤ b.val) (h : b.val ≤ 9) : hexToInt [0, b] 10 4 = (b.val, none) := by
  obtain ⟨k, hk⟩ := b
  simp only at h h1
  interval_cases k <;> (revert hk; decide)

/-! ## Parsing the metadata -/

theorem goSlice_ok (s : List Byte) (lo hi : Nat) (h1 : lo ≤ hi) (h2 : hi ≤ s.length) :
    goSlice s lo hi = .ok ((s.drop lo).take (hi - lo)) := by
  unfold goSlice
  rw [if_pos ⟨h1, h2⟩]

theorem length_drop_take (s : List Byte) (lo k : Nat) (h : lo + k ≤ s.length) :
    ((s.drop lo).take k).length = k := by
  rw [List.length_take, List.length_drop]
  omega

theorem getCOffsets_loop_eq (todo : Nat) :
    ∀ i acc, getCOffsets_loop todo i acc =
      acc ++ (List.range todo).map (fun j => 0xB04 + 0x30 * (i + j)) := by
  induction todo with
  | zero => intro i acc; simp [getCOffsets_loop]
  | succ n ih =>
    intro i acc
    rw [getCOffsets_loop, ih, List.range_succ_eq_map, List.map_cons, List.map_map,
      List.append_assoc]
    congr 1
    rw [List.singleton_append, Nat.add_zero]
    congr 1
    apply List.map_congr_left
    intro j _
    simp only [Function.comp, Nat.succ_eq_add_one]
    omega

theorem getCOffsets_loop_zero (C : Nat) :
    getCOffsets_loop C 0 [] = (List.range C).map (fun i => 0xB04 + 0x30 * i) := by
  rw [getCOffsets_loop_eq]
  simp

theorem getSigSize_supported (code : Nat) (h : code ∈ supportedSigTypes) :
    ∃ size, getSigSize code = (size, none) ∧ size ≤ 576 := by
  simp only [supportedSigTypes, List.mem_cons, List.mem_singleton, List.not_mem_nil,
    or_false] at h
  rcases h with h | h | h | h | h | h <;> subst h
  · exact ⟨0, by decide, by decide⟩
  · exact ⟨0, by decide, by decide⟩
  · exact ⟨0, by decide, by decide⟩
  · exact ⟨576, by decide, by decide⟩
  · exact ⟨320, by decide, by decide⟩
  · exact ⟨128, by decide, by decide⟩

theorem binaryReadRec_ok (data : List Byte) (h : 0x30 ≤ data.length) :
    ∃ r, binaryReadRec data = .ok r := by
  unfold binaryReadRec
  rw [dif_pos h]
  exact ⟨_, rfl⟩

theorem processTMD_loop_ok (TMD : List Byte) (offs : List Nat) :
    ∀ recs, (∀ off ∈ offs, off + 0x30 ≤ TMD.length) →
      ∃ more, processTMD_loop TMD offs recs = .ok (recs ++ more) ∧
        List.Forall₂ (fun off r => binaryReadRec ((TMD.drop off).take 0x30) = .ok r)
          offs more := by
  induction offs with
  | nil => intro recs _; exact ⟨[], by simp [processTMD_loop], List.Forall₂.nil⟩
  | cons off rest ih =>
    intro recs h
    have hoff : off + 0x30 ≤ TMD.length := h off (List.mem_cons_self _ _)
    have hs := goSlice_ok TMD off (off + 0x30) (by omega) hoff
    rw [Nat.add_sub_cancel_left] at hs
    obtain ⟨r, hr⟩ := binaryReadRec_ok ((TMD.drop off).take 0x30)
      (by rw [length_drop_take TMD off 0x30 hoff])
    obtain ⟨more, hmore, hall⟩ := ih (recs ++ [r])
      (fun o ho => h o (List.mem_cons_of_mem _ ho))
    refine ⟨r :: more, ?_, List.Forall₂.cons hr hall⟩
    rw [processTMD_loop]
    simp only [hs, hr]
    rw [hmore, List.append_assoc]
    rfl

theorem goIndex_last_offset (C : Nat) (hC : 1 ≤ C) :
    goIndex ((List.range C).map (fun i => 0xB04 + 0x30 * i))
        ((((List.range C).map (fun i => 0xB04 + 0x30 * i)).length : Int) - 1) =
      .ok (0xB04 + 0x30 * (C - 1)) := by
  have hl : ((List.range C).map (fun i => 0xB04 + 0x30 * i)).length = C := by simp
  rw [hl]
  unfold goIndex
  rw [if_pos (by omega)]
  have ht : ((C : Int) - 1).toNat = C - 1 := by omega
  rw [ht]
  have : ((List.range C).map (fun i => 0xB04 + 0x30 * i))[C - 1]? = some (0xB04 + 0x30 * (C - 1)) := by
    rw [List.getElem?_map, List.getElem?_range (by omega)]
    rfl
  rw [this]

theorem beVal_pair (b0 b1 : Byte) : beVal [b0, b1] = b0.val * 256 + b1.val := by
  simp only [beVal, beAcc, List.foldl_cons, List.foldl_nil, Nat.zero_mul, Nat.zero_add]

theorem getCOffsets_of_count (TMD : List Byte) (C : Nat) (hlen : 0x1E0 ≤ TMD.length)
    (hcount : hexToInt ((TMD.drop 0x1DE).take 2) 10 4 = (C, none)) :
    getCOffsets TMD = .ok ((List.range C).map (fun i => 0xB04 + 0x30 * i)) := by
  have hs := goSlice_ok TMD 0x1DE 0x1E0 (by decide) hlen
  unfold getCOffsets
  simp only [hs, hcount, getCOffsets_loop_zero]

theorem processTMD_ok (TMD : List Byte) (code sigSize C : Nat)
    (hsig : hexToInt (TMD.take 4) 10 32 = (code, none))
    (hsize : getSigSize code = (sigSize, none))
    (hcount : hexToInt ((TMD.drop 0x1DE).take 2) 10 4 = (C, none))
    (hC : 1 ≤ C) (hlen : 0xB04 + 0x30 * C + 768 ≤ TMD.length)
    (htitle : sigSize + 84 ≤ TMD.length) :
    ∃ recs, processTMD TMD = .ok
        { TitleID := (TMD.drop (sigSize + 76)).take 8
          HeaderChunk := TMD.take (0xB04 + 0x30 * C)
          contentChunkRecs := recs
          CertCP := (TMD.drop (0xB04 + 0x30 * C)).take 768 } ∧
      List.Forall₂ (fun off r => binaryReadRec ((TMD.drop off).take 0x30) = .ok r)
        ((List.range C).map (fun i => 0xB04 + 0x30 * i)) recs := by
  have hs0 : goSlice TMD 0 4 = .ok (TMD.take 4) := by
    rw [goSlice_ok TMD 0 4 (by decide) (by omega)]; rfl
  have hoffs := getCOffsets_of_count TMD C (by omega) hcount
  obtain ⟨recs, hloop, hall⟩ := processTMD_loop_ok TMD
    ((List.range C).map (fun i => 0xB04 + 0x30 * i)) [] (by
      intro off hoff
      rw [List.mem_map] at hoff
      obtain ⟨i, hi, rfl⟩ := hoff
      rw [List.mem_range] at hi
      omega)
  rw [List.nil_append] at hloop
  have hidx := goIndex_last_offset C hC
  have hcert : 0xB04 + 0x30 * (C - 1) + 0x30 = 0xB04 + 0x30 * C := by omega
  have ht := goSlice_ok TMD (sigSize + 76) (sigSize + 84) (by omega) htitle
  have hh := goSlice_ok TMD 0 (0xB04 + 0x30 * C) (by omega) (by omega)
  have hc := goSlice_ok TMD (0xB04 + 0x30 * C) (0xB04 + 0x30 * C + 768) (by omega) hlen
  have e8 : sigSize + 84 - (sigSize + 76) = 8 := by omega
  rw [e8] at ht
  rw [Nat.add_sub_cancel_left] at hc
  rw [Nat.sub_zero, List.drop_zero] at hh
  refine ⟨recs, ?_, hall⟩
  unfold processTMD
  simp only [hs0, hsig, hsize, hoffs, hloop, hidx, hcert, ht, hh, hc]

/-- C2 (amended): when the first four bytes read as a supported signature
type, the two bytes at `0x1DE` hold the count `C` big-endian with
`1 ≤ C ≤ 9`, and the buffer reaches to the end of the certificate behind the
descriptor table, `getCOffsets` returns the offsets `0xB04 + 0x30 * i` for
`i = 0 .. C - 1` in increasing order and `processTMD` succeeds with exactly
`C` content descriptors. -/
theorem processTMD_descriptor_count (TMD : List Byte) (code C : Nat)
    (hsig : hexToInt (TMD.take 4) 10 32 = (code, none))
    (hcode : code ∈ supportedSigTypes)
    (hcount : beVal ((TMD.drop 0x1DE).take 2) = C)
    (hC : 1 ≤ C ∧ C ≤ 9)
    (hlen : 0xB04 + 0x30 * C + 768 ≤ TMD.length) :
    getCOffsets TMD = .ok ((List.range C).map (fun i => 0xB04 + 0x30 * i)) ∧
      ∃ t, processTMD TMD = .ok t ∧ t.contentChunkRecs.length = C := by
  obtain ⟨sigSize, hsize, hle⟩ := getSigSize_supported code hcode
  have hl2 := length_drop_take TMD 0x1DE 2 (by omega)
  have hcnt : hexToInt ((TMD.drop 0x1DE).take 2) 10 4 = (C, none) := by
    match hf : (TMD.drop 0x1DE).take 2, hl2 with
    | [b0, b1], _ =>
      rw [hf] at hcount
      have h0 := b0.isLt
      have h1 := b1.isLt
      have hv : b0.val * 256 + b1.val = C := by rw [← hcount, beVal_pair]
      have hb0 : b0 = 0 := Fin.ext (by simp only [Fin.val_zero]; omega)
      have hb1 : b1.val = C := by omega
      rw [hb0, ← hb1]
      exact hexToInt_count b1 (by omega) (by omega)
  obtain ⟨recs, hok, hall⟩ := processTMD_ok TMD code sigSize C hsig hsize hcnt hC.1 hlen
    (by omega)
  refine ⟨getCOffsets_of_count TMD C (by omega) hcnt, _, hok, ?_⟩
  have := hall.length_eq
  simp only [List.length_map, List.length_range] at this
  exact this.symm

theorem exampleRecs_length : exampleRecs.length = 0x60 := by
  simp only [exampleRecs, exampleRec, List.length_append, List.length_replicate,
    List.length_cons, List.length_nil]

theorem exampleTMD_length (sig count recs : List Byte) (hs : sig.length = 4)
    (hc : count.length ≤ 4) :
    (exampleTMD sig count recs).length = 0xB04 + recs.length + 768 := by
  simp only [exampleTMD, List.length_append, List.length_replicate]
  omega

theorem exampleTMD_take_sig (sig count recs : List Byte) (hs : sig.length = 4) :
    (exampleTMD sig count recs).take 4 = sig := by
  unfold exampleTMD
  rw [List.append_assoc]
  exact List.take_left' hs

theorem exampleTMD_count (sig count recs : List Byte) (n : Nat) (hs : sig.length = 4)
    (hn : count.length = n) :
    ((exampleTMD sig count recs).drop 0x1DE).take n = count := by
  unfold exampleTMD
  rw [List.drop_left' (by simp only [List.length_append, List.length_replicate]; omega)]
  exact List.take_left' hn

theorem processTMD_zero_count (TMD : List Byte) (code : Nat)
    (hsig : hexToInt (TMD.take 4) 10 32 = (code, none))
    (hcode : code ∈ supportedSigTypes) (hlen : 0x1E0 ≤ TMD.length)
    (hcount : (TMD.drop 0x1DE).take 2 = [0, 0]) :
    processTMD TMD = .error .panic := by
  obtain ⟨sigSize, hsize, _⟩ := getSigSize_supported code hcode
  have hs0 : goSlice TMD 0 4 = .ok (TMD.take 4) := by
    rw [goSlice_ok TMD 0 4 (by decide) (by omega)]; rfl
  have h0 : hexToInt [0, 0] 10 4 = (0, none) := by decide
  have hoffs := getCOffsets_of_count TMD 0 hlen (by rw [hcount, h0])
  unfold processTMD
  simp only [hs0, hsig, hsize, hoffs]
  rfl

theorem processTMD_count_error (TMD : List Byte) (code : Nat) (e : GoError)
    (hsig : hexToInt (TMD.take 4) 10 32 = (code, none))
    (hcode : code ∈ supportedSigTypes) (hlen : 0x1E0 ≤ TMD.length)
    (hcount : hexToInt ((TMD.drop 0x1DE).take 2) 10 4 = (0, some e)) :
    processTMD TMD = .error (.err e) := by
  obtain ⟨sigSize, hsize, _⟩ := getSigSize_supported code hcode
  have hs0 : goSlice TMD 0 4 = .ok (TMD.take 4) := by
    rw [goSlice_ok TMD 0 4 (by decide) (by omega)]; rfl
  have hs := goSlice_ok TMD 0x1DE 0x1E0 (by decide) hlen
  unfold processTMD getCOffsets
  simp only [hs0, hsig, hsize, hs, hcount]

/-- C2, witness: a buffer of signature type `00 01 00 04` with count bytes
`00 02` and two descriptors. -/
theorem processTMD_descriptor_count_witness :
    getCOffsets (exampleTMD [0, 1, 0, 4] [0, 2] exampleRecs) = .ok [0xB04, 0xB34] ∧
      ∃ t, processTMD (exampleTMD [0, 1, 0, 4] [0, 2] exampleRecs) = .ok t ∧
        t.contentChunkRecs.length = 2 :=
  processTMD_descriptor_count (exampleTMD [0, 1, 0, 4] [0, 2] exampleRecs)
    sigTypeRSA2048SHA256 2
    (by rw [exampleTMD_take_sig [0, 1, 0, 4] [0, 2] exampleRecs rfl]; decide)
    (by decide)
    (by rw [exampleTMD_count [0, 1, 0, 4] [0, 2] exampleRecs 2 rfl rfl]; decide)
    (by decide)
    (by rw [exampleTMD_length [0, 1, 0, 4] [0, 2] exampleRecs rfl (by decide),
      exampleRecs_length])

/-- C2, counterexample: in a buffer of a supported signature type that is long
enough for two descriptors and holds the count 2 as the 4-byte big-endian
field `00 00 00 02` at `0x1DE`, `processTMD` reads the two bytes `00 00`,
finds no descriptor and panics on `offsets[len(offsets)-1]`; and with the
count 10 in the two bytes `00 0a` it returns the error of `strconv`. -/
theorem processTMD_count_field_counterexample :
    (hexToInt ((exampleTMD [0, 1, 0, 4] [0, 0, 0, 2] exampleRecs).take 4) 10 32 =
        (sigTypeRSA2048SHA256, none) ∧
      sigTypeRSA2048SHA256 ∈ supportedSigTypes ∧
      beVal (((exampleTMD [0, 1, 0, 4] [0, 0, 0, 2] exampleRecs).drop 0x1DE).take 4) = 2 ∧
      0xB04 + 0x30 * 2 + 768 ≤ (exampleTMD [0, 1, 0, 4] [0, 0, 0, 2] exampleRecs).length ∧
      processTMD (exampleTMD [0, 1, 0, 4] [0, 0, 0, 2] exampleRecs) = .error .panic) ∧
    (beVal (((exampleTMD [0, 1, 0, 4] [0, 0x0a] (List.replicate (0x30 * 10) 0)).drop
        0x1DE).take 2) = 10 ∧
      0xB04 + 0x30 * 10 + 768 ≤
        (exampleTMD [0, 1, 0, 4] [0, 0x0a] (List.replicate (0x30 * 10) 0)).length ∧
      processTMD (exampleTMD [0, 1, 0, 4] [0, 0x0a] (List.replicate (0x30 * 10) 0)) =
        .error (.err .parseInvalid)) := by
  have hsig : ∀ count recs, hexToInt ((exampleTMD [0, 1, 0, 4] count recs).take 4) 10 32 =
      (sigTypeRSA2048SHA256, none) := by
    intro count recs
    rw [exampleTMD_take_sig [0, 1, 0, 4] count recs rfl]; decide
  have h4 := exampleTMD_count [0, 1, 0, 4] [0, 0, 0, 2] exampleRecs 4 rfl rfl
  have h2z := exampleTMD_count [0, 1, 0, 4] [0, 0x0a] (List.replicate (0x30 * 10) 0) 2 rfl rfl
  have hl4 := exampleTMD_length [0, 1, 0, 4] [0, 0, 0, 2] exampleRecs rfl (by decide)
  have hl2 := exampleTMD_length [0, 1, 0, 4] [0, 0x0a] (List.replicate (0x30 * 10) 0) rfl
    (by decide)
  rw [exampleRecs_length] at hl4
  rw [List.length_replicate] at hl2
  refine ⟨⟨hsig _ _, by decide, ?_, by omega, ?_⟩, ?_, by omega, ?_⟩
  · rw [h4]; decide
  · apply processTMD_zero_count _ _ (hsig _ _) (by decide) (by omega)
    have : (List.drop 0x1DE (exampleTMD [0, 1, 0, 4] [0, 0, 0, 2] exampleRecs)).take 2 =
        ((List.drop 0x1DE (exampleTMD [0, 1, 0, 4] [0, 0, 0, 2] exampleRecs)).take 4).take 2 := by
      rw [List.take_take]; rfl
    rw [this, h4]
    rfl
  · rw [h2z]; decide
  · apply processTMD_count_error _ _ _ (hsig _ _) (by decide) (by omega)
    rw [h2z]; decide

/-! ## The archive header -/

theorem hexToInt_ContentSize (r : contentChunkRec) :
    hexToInt r.ContentSize.val 16 64 = (beVal r.ContentSize.val, none) := by
  have hl := r.ContentSize.property
  apply hexToInt_hex _ 64 _ (by decide) (by decide)
  · rw [hl]; norm_num
  · intro h; rw [h] at hl; simp at hl

theorem hexToInt_ContentIndex (r : contentChunkRec) :
    hexToInt r.ContentIndex.val 16 16 = (beVal r.ContentIndex.val, none) := by
  have hl := r.ContentIndex.property
  apply hexToInt_hex _ 16 _ (by decide) (by decide)
  · rw [hl]; norm_num
  · intro h; rw [h] at hl; simp at hl

theorem beVal_ContentIndex_lt (r : contentChunkRec) : beVal r.ContentIndex.val < 65536 := by
  have h := beVal_lt r.ContentIndex.val
  rw [r.ContentIndex.property] at h
  exact h

theorem genCiaHDR_sizeLoop_eq (recs : List contentChunkRec) :
    ∀ size, size < 2 ^ 64 →
      genCiaHDR_sizeLoop recs size = .ok ((size + contentSizeSum recs) % 2 ^ 64) := by
  induction recs with
  | nil =>
    intro size h
    simp only [genCiaHDR_sizeLoop, contentSizeSum, List.map_nil, List.sum_nil, Nat.add_zero,
      Nat.mod_eq_of_lt h]
  | cons r rest ih =>
    intro size _
    rw [genCiaHDR_sizeLoop]
    simp only [hexToInt_ContentSize]
    rw [ih _ (Nat.mod_lt _ (by norm_num))]
    have : contentSizeSum (r :: rest) = beVal r.ContentSize.val + contentSizeSum rest := by
      simp [contentSizeSum]
    rw [this, Nat.mod_add_mod, Nat.add_assoc]

theorem testBit_orShiftedBit (b : Byte) (k j : Nat) (hk : k < 8) (hj : j < 8) :
    (orShiftedBit b k).val.testBit (7 - j) = (b.val.testBit (7 - j) || decide (j = k)) := by
  have hm : (0x80 >>> k) % 256 = 2 ^ (7 - k) := by
    interval_cases k <;> rfl
  unfold orShiftedBit
  simp only [hm]
  change ((b.val ||| 2 ^ (7 - k)) % 2 ^ 8).testBit (7 - j) = _
  rw [Nat.testBit_mod_two_pow, Nat.testBit_lor, Nat.testBit_two_pow]
  have h1 : decide (7 - j < 8) = true := by simp; omega
  have h2 : decide (7 - k = 7 - j) = decide (j = k) := by
    apply decide_eq_decide.mpr
    omega
  rw [h1, h2, Bool.true_and]

theorem bitmapHas_zero (idx : Nat) : bitmapHas (List.replicate 8192 0) idx = false := by
  unfold bitmapHas
  rw [List.getD_eq_getElem?_getD, List.getElem?_replicate]
  split <;> simp

theorem bitmapHas_set (bitmap : List Byte) (hl : bitmap.length = 8192) (index idx : Nat)
    (hindex : index < 65536) :
    bitmapHas (bitmap.set (index >>> 3)
        (orShiftedBit (bitmap.getD (index >>> 3) 0) (index &&& 7))) idx =
      (bitmapHas bitmap idx || decide (idx = index)) := by
  have e3 : index >>> 3 = index / 8 := by rw [Nat.shiftRight_eq_div_pow]
  have e7 : index &&& 7 = index % 8 := Nat.and_pow_two_sub_one_eq_mod index 3
  rw [e3, e7]
  unfold bitmapHas
  by_cases hq : idx / 8 = index / 8
  · rw [hq, List.getD_eq_getElem?_getD, List.getElem?_set_self (by omega), Option.getD_some,
      testBit_orShiftedBit _ _ _ (Nat.mod_lt _ (by decide)) (Nat.mod_lt _ (by decide))]
    congr 1
    apply decide_eq_decide.mpr
    omega
  · rw [List.getD_eq_getElem?_getD, List.getElem?_set_ne (fun h => hq h.symm),
      ← List.getD_eq_getElem?_getD]
    have : decide (idx = index) = false := by
      apply decide_eq_false
      intro h; exact hq (by rw [h])
    rw [this, Bool.or_false]

theorem genCiaHDR_indexLoop_ok (recs : List contentChunkRec) :
    ∀ bitmap : ByteArr 8192, ∃ out : ByteArr 8192,
      genCiaHDR_indexLoop recs bitmap = .ok out ∧
      ∀ idx, bitmapHas out.val idx = true ↔
        (bitmapHas bitmap.val idx = true ∨ ∃ r ∈ recs, beVal r.ContentIndex.val = idx) := by
  induction recs with
  | nil => intro bitmap; exact ⟨bitmap, rfl, by simp⟩
  | cons r rest ih =>
    intro bitmap
    have hlt := beVal_ContentIndex_lt r
    have hb : beVal r.ContentIndex.val >>> 3 < 8192 := by
      rw [Nat.shiftRight_eq_div_pow]; omega
    obtain ⟨out, hout, hbits⟩ := ih
      ⟨bitmap.val.set (beVal r.ContentIndex.val >>> 3)
          (orShiftedBit (bitmap.val.getD (beVal r.ContentIndex.val >>> 3) 0)
            (beVal r.ContentIndex.val &&& 7)),
        by rw [List.length_set]; exact bitmap.property⟩
    refine ⟨out, ?_, ?_⟩
    · rw [genCiaHDR_indexLoop]
      simp only [hexToInt_ContentIndex, if_pos hb]
      exact hout
    · intro idx
      rw [hbits idx, bitmapHas_set bitmap.val bitmap.property _ idx hlt]
      simp only [Bool.or_eq_true, decide_eq_true_eq, List.mem_cons, exists_eq_or_imp]
      constructor
      · rintro ((h | h) | h)
        · exact Or.inl h
        · exact Or.inr (Or.inl h.symm)
        · exact Or.inr (Or.inr h)
      · rintro (h | h | h)
        · exact Or.inl (Or.inl h)
        · exact Or.inl (Or.inr h.symm)
        · exact Or.inr h

theorem genCiaHDR_eq (TMD : tmd) (CETK : tk) :
    ∃ bitmap : ByteArr 8192,
      genCiaHDR_indexLoop TMD.contentChunkRecs (ByteArr.zero 8192) = .ok bitmap ∧
      genCiaHDR TMD CETK = .ok
        { HdrSize := 0x2020
          Type_ := 0
          Ver := 0
          CertSize := (CETK.CertCA.length + CETK.CertXS.length + TMD.CertCP.length) % 2 ^ 32
          TikSize := CETK.HeaderChunk.length % 2 ^ 32
          TmdSize := TMD.HeaderChunk.length % 2 ^ 32
          MetaSize := 0
          ContentSize := contentSizeSum TMD.contentChunkRecs % 2 ^ 64
          ContentIndex := bitmap } := by
  obtain ⟨bitmap, hb, _⟩ := genCiaHDR_indexLoop_ok TMD.contentChunkRecs (ByteArr.zero 8192)
  have hs := genCiaHDR_sizeLoop_eq TMD.contentChunkRecs 0 (by norm_num)
  rw [Nat.zero_add] at hs
  refine ⟨bitmap, hb, ?_⟩
  unfold genCiaHDR
  simp only [hs, hb]

theorem genCiaHDR_indexLoop_single (r : contentChunkRec) :
    genCiaHDR_indexLoop [r] (ByteArr.zero 8192) = .ok
      ⟨(List.replicate 8192 0).set (beVal r.ContentIndex.val >>> 3)
          (orShiftedBit 0 (beVal r.ContentIndex.val &&& 7)),
        by rw [List.length_set, List.length_replicate]⟩ := by
  have hlt := beVal_ContentIndex_lt r
  have hb : beVal r.ContentIndex.val >>> 3 < 8192 := by
    rw [Nat.shiftRight_eq_div_pow]; omega
  have hz : (List.replicate 8192 (0 : Byte)).getD (beVal r.ContentIndex.val >>> 3) 0 = 0 := by
    rw [List.getD_eq_getElem?_getD, List.getElem?_replicate]
    split <;> rfl
  rw [genCiaHDR_indexLoop]
  simp only [hexToInt_ContentIndex, if_pos hb, ByteArr.zero, hz, genCiaHDR_indexLoop]

/-- C3: `genCiaHDR` always returns a header, whose `ContentIndex` bitmap has
8192 bytes; for every `idx` in `0 .. 65535`, bit `7 - idx mod 8` of byte
`idx / 8` is set exactly when some descriptor's 2-byte `ContentIndex`, read as
an unsigned big-endian integer, equals `idx`.  With a single descriptor of
index 0 the bitmap is zero except byte 0 = `0x80`; of index 8, except
byte 1 = `0x80`; of index 65535, except byte 8191 = `0x01`. -/
theorem genCiaHDR_bitmap (TMD : tmd) (CETK : tk) :
    ∃ hdr, genCiaHDR TMD CETK = .ok hdr ∧
      hdr.ContentIndex.val.length = 8192 ∧
      (∀ idx, idx < 65536 →
        ((hdr.ContentIndex.val.getD (idx / 8) 0).val.testBit (7 - idx % 8) = true ↔
          ∃ r ∈ TMD.contentChunkRecs, beVal r.ContentIndex.val = idx)) ∧
      (∀ r, TMD.contentChunkRecs = [r] →
        (beVal r.ContentIndex.val = 0 →
          hdr.ContentIndex.val = (List.replicate 8192 0).set 0 0x80) ∧
        (beVal r.ContentIndex.val = 8 →
          hdr.ContentIndex.val = (List.replicate 8192 0).set 1 0x80) ∧
        (beVal r.ContentIndex.val = 65535 →
          hdr.ContentIndex.val = (List.replicate 8192 0).set 8191 0x01)) := by
  obtain ⟨bitmap, hb, hhdr⟩ := genCiaHDR_eq TMD CETK
  obtain ⟨out, hout, hbits⟩ := genCiaHDR_indexLoop_ok TMD.contentChunkRecs (ByteArr.zero 8192)
  rw [hb] at hout
  cases hout
  refine ⟨_, hhdr, bitmap.property, ?_, ?_⟩
  · intro idx _
    have h := hbits idx
    rw [show (ByteArr.zero 8192).val = List.replicate 8192 0 from rfl, bitmapHas_zero] at h
    simpa [bitmapHas] using h
  · intro r hr
    rw [hr, genCiaHDR_indexLoop_single] at hb
    cases hb
    refine ⟨fun h => ?_, fun h => ?_, fun h => ?_⟩ <;> simp only [h] <;> rfl

/-- C4: `genCiaHDR` always returns a header, whose `ContentSize` is the sum of
the descriptors' 8-byte `ContentSize` fields read as unsigned big-endian
integers, taken modulo `2 ^ 64`; so it is the exact sum when that is below
`2 ^ 64`, and sizes 100 and 200 give 300. -/
theorem genCiaHDR_contentSize (TMD : tmd) (CETK : tk) :
    ∃ hdr, genCiaHDR TMD CETK = .ok hdr ∧
      hdr.ContentSize = contentSizeSum TMD.contentChunkRecs % 2 ^ 64 ∧
      (contentSizeSum TMD.contentChunkRecs < 2 ^ 64 →
        hdr.ContentSize = contentSizeSum TMD.contentChunkRecs) ∧
      (∀ r1 r2, TMD.contentChunkRecs = [r1, r2] → beVal r1.ContentSize.val = 100 →
        beVal r2.ContentSize.val = 200 → hdr.ContentSize = 300) := by
  obtain ⟨bitmap, _, hhdr⟩ := genCiaHDR_eq TMD CETK
  refine ⟨_, hhdr, rfl, fun h => Nat.mod_eq_of_lt h, ?_⟩
  intro r1 r2 hr h1 h2
  simp only [hr, contentSizeSum, List.map_cons, List.map_nil, List.sum_cons, List.sum_nil, h1,
    h2]
  norm_num

/-! ## Padding -/

theorem hexDecodeString_zeros (n : Nat) :
    hexDecodeString (stringsRepeat ['0', '0'] n) = (List.replicate n 0, none) := by
  induction n with
  | zero => rfl
  | succ k ih =>
    have h0 : fromHexChar '0' = some 0 := by decide
    rw [stringsRepeat, List.cons_append, List.cons_append, List.nil_append, hexDecodeString]
    simp only [h0, ih, List.replicate_succ]
    rfl

theorem getPadding_eq (L : Int) (hL : 0 ≤ L) :
    getPadding L = List.replicate ((64 - L % 64) % 64).toNat 0 := by
  unfold getPadding
  rw [Int.tmod_eq_emod hL (by decide)]
  by_cases h : L % 64 = 0
  · rw [if_neg (by simpa using h), h]
    rfl
  · rw [if_pos h]
    simp only [hexDecodeString_zeros]
    congr 1
    omega

theorem getPadding_length (n : Nat) : (getPadding (n : Int)).length = (64 - n % 64) % 64 := by
  rw [getPadding_eq _ (Int.ofNat_nonneg n), List.length_replicate]
  omega

/-- C10: for every length `L ≥ 0`, `getPadding L` is `(64 - L mod 64) mod 64`
zero bytes; it is empty when `L` is a multiple of 64, always shorter than 64
bytes, and `L + len(getPadding L)` is the least multiple of 64 that is `≥ L`. -/
theorem getPadding_spec (L : Int) (hL : 0 ≤ L) :
    getPadding L = List.replicate ((64 - L % 64) % 64).toNat 0 ∧
      (L % 64 = 0 → getPadding L = []) ∧
      (getPadding L).length < 64 ∧
      (L + ((getPadding L).length : Int)) % 64 = 0 ∧
      ∀ m : Int, L ≤ m → m % 64 = 0 → L + ((getPadding L).length : Int) ≤ m := by
  have h := getPadding_eq L hL
  have hlen : ((getPadding L).length : Int) = (64 - L % 64) % 64 := by
    rw [h, List.length_replicate]
    omega
  refine ⟨h, ?_, ?_, ?_, ?_⟩
  · intro h0
    rw [h, h0]
    rfl
  · omega
  · omega
  · intro m hm h64
    omega

/-- C10, witness: the length `0x2020` of the archive header gets 32 zero bytes. -/
theorem getPadding_spec_witness :
    (0 : Int) ≤ 0x2020 ∧ getPadding 0x2020 = List.replicate 32 0 ∧
      (getPadding 0x2020).length < 64 :=
  ⟨by decide, (getPadding_spec 0x2020 (by decide)).1, (getPadding_spec 0x2020 (by decide)).2.2.1⟩

/-! ## Assembling the archive -/

theorem toLE_eq (dat : List Byte) : toLE dat = dat := by
  unfold toLE
  induction dat with
  | nil => rfl
  | cons b rest ih =>
    rw [binaryWriteBytes, ih]
    have : leBytes 1 b.val = [b] := by
      simp only [leBytes, List.cons.injEq, and_true]
      exact Fin.ext (Nat.mod_eq_of_lt b.isLt)
    rw [this]
    rfl

theorem leBytes_length (w : Nat) : ∀ v, (leBytes w v).length = w := by
  induction w with
  | zero => intro v; rfl
  | succ k ih => intro v; rw [leBytes, List.length_cons, ih]

theorem binaryWriteHdr_length (h : ciaHdr) : (binaryWriteHdr h).length = 0x2020 := by
  unfold binaryWriteHdr
  simp only [List.length_append, leBytes_length, h.ContentIndex.property]

theorem genCia_loop_ok (fs : FS) (cdnDir : List Char) (recs : List contentChunkRec) :
    ∀ out, (∀ r ∈ recs, (fs.readFile (contentPath cdnDir r)).isSome = true) →
      genCia_loop fs cdnDir recs out = (out ++ (payloads fs cdnDir recs).flatten, none) := by
  induction recs with
  | nil => intro out _; simp [genCia_loop, payloads]
  | cons r rest ih =>
    intro out h
    obtain ⟨cnt, hcnt⟩ := Option.isSome_iff_exists.mp (h r (List.mem_cons_self _ _))
    rw [genCia_loop]
    simp only [hcnt]
    rw [ih _ (fun x hx => h x (List.mem_cons_of_mem _ hx))]
    simp only [payloads, List.map_cons, List.flatten_cons, hcnt, Option.getD_some,
      List.append_assoc]

theorem genCia_loop_prefix (fs : FS) (cdnDir : List Char) (recs : List contentChunkRec) :
    ∀ out, ∃ more, (genCia_loop fs cdnDir recs out).1 = out ++ more := by
  induction recs with
  | nil => intro out; exact ⟨[], by simp [genCia_loop]⟩
  | cons r rest ih =>
    intro out
    rw [genCia_loop]
    cases hcnt : fs.readFile (contentPath cdnDir r) with
    | none => exact ⟨[], by simp⟩
    | some cnt =>
      obtain ⟨more, hmore⟩ := ih (out ++ cnt)
      exact ⟨cnt ++ more, by simp only [hmore, List.append_assoc]⟩

theorem genCia_loop_missing (fs : FS) (cdnDir : List Char) (recs : List contentChunkRec) :
    ∀ out, (∃ r ∈ recs, fs.readFile (contentPath cdnDir r) = none) →
      ∃ path, (genCia_loop fs cdnDir recs out).2 = some (.err (.readFile path)) ∧
        fs.readFile path = none := by
  induction recs with
  | nil => intro out h; obtain ⟨r, hr, _⟩ := h; cases hr
  | cons r rest ih =>
    intro out h
    rw [genCia_loop]
    cases hcnt : fs.readFile (contentPath cdnDir r) with
    | none => exact ⟨_, rfl, hcnt⟩
    | some cnt =>
      apply ih
      obtain ⟨x, hx, hnone⟩ := h
      rcases List.mem_cons.mp hx with rfl | hx
      · rw [hcnt] at hnone; cases hnone
      · exact ⟨x, hx, hnone⟩

theorem genCia_eq_loop (fs : FS) (CETK : tk) (TMD : tmd) (cdnDir dir file : List Char)
    (hcreate : fs.create (ciaPath dir file) = true) :
    ∃ hdr, genCiaHDR TMD CETK = .ok hdr ∧
      genCia fs CETK TMD cdnDir dir file =
        genCia_loop fs cdnDir TMD.contentChunkRecs
          (binaryWriteHdr hdr ++ getPadding ((binaryWriteHdr hdr).length : Int) ++
            CETK.CertCA ++ CETK.CertXS ++ TMD.CertCP ++
            getPadding ((CETK.CertCA.length : Int) + (CETK.CertXS.length : Int) +
              (TMD.CertCP.length : Int)) ++
            CETK.HeaderChunk ++ getPadding (CETK.HeaderChunk.length : Int) ++
            TMD.HeaderChunk ++ getPadding (TMD.HeaderChunk.length : Int)) := by
  obtain ⟨bitmap, _, hhdr⟩ := genCiaHDR_eq TMD CETK
  refine ⟨_, hhdr, ?_⟩
  unfold ciaPath at hcreate
  unfold genCia
  simp only [hcreate, hhdr, toLE_eq]
  rfl

theorem genCia_written (fs : FS) (CETK : tk) (TMD : tmd) (cdnDir dir file : List Char)
    (hcreate : fs.create (ciaPath dir file) = true)
    (hpay : ∀ r ∈ TMD.contentChunkRecs, (fs.readFile (contentPath cdnDir r)).isSome = true) :
    ∃ hdr, genCiaHDR TMD CETK = .ok hdr ∧
      genCia fs CETK TMD cdnDir dir file =
        (binaryWriteHdr hdr ++ getPadding ((binaryWriteHdr hdr).length : Int) ++
          archiveBody fs CETK TMD cdnDir, none) := by
  obtain ⟨hdr, hhdr, hgen⟩ := genCia_eq_loop fs CETK TMD cdnDir dir file hcreate
  refine ⟨hdr, hhdr, ?_⟩
  rw [hgen, genCia_loop_ok fs cdnDir _ _ hpay]
  simp only [archiveBody, List.append_assoc]

theorem getPadding_hdr (h : ciaHdr) :
    getPadding ((binaryWriteHdr h).length : Int) = List.replicate 32 0 := by
  rw [binaryWriteHdr_length, getPadding_eq _ (by decide)]
  rfl

/-- C5 (amended): when the output file can be created, `genCia` writes the
serialised header, which is exactly `0x2020` bytes; that length is not a
multiple of 64, `getPadding` of it is 32 zero bytes, and the certificate block
`CertCA ++ CertXS ++ CertCP` begins at output offset `0x2040`. -/
theorem genCia_header_section (fs : FS) (CETK : tk) (TMD : tmd) (cdnDir dir file : List Char)
    (hcreate : fs.create (ciaPath dir file) = true) :
    ∃ hdr more, genCiaHDR TMD CETK = .ok hdr ∧
      (binaryWriteHdr hdr).length = 0x2020 ∧
      getPadding ((binaryWriteHdr hdr).length : Int) = List.replicate 32 0 ∧
      (genCia fs CETK TMD cdnDir dir file).1 =
        (binaryWriteHdr hdr ++ List.replicate 32 0) ++
          ((CETK.CertCA ++ CETK.CertXS ++ TMD.CertCP) ++ more) ∧
      (binaryWriteHdr hdr ++ List.replicate 32 0).length = 0x2040 := by
  obtain ⟨hdr, hhdr, hgen⟩ := genCia_eq_loop fs CETK TMD cdnDir dir file hcreate
  obtain ⟨more, hmore⟩ := genCia_loop_prefix fs cdnDir TMD.contentChunkRecs
    (binaryWriteHdr hdr ++ getPadding ((binaryWriteHdr hdr).length : Int) ++
      CETK.CertCA ++ CETK.CertXS ++ TMD.CertCP ++
      getPadding ((CETK.CertCA.length : Int) + (CETK.CertXS.length : Int) +
        (TMD.CertCP.length : Int)) ++
      CETK.HeaderChunk ++ getPadding (CETK.HeaderChunk.length : Int) ++
      TMD.HeaderChunk ++ getPadding (TMD.HeaderChunk.length : Int))
  refine ⟨hdr,
    getPadding ((CETK.CertCA.length : Int) + (CETK.CertXS.length : Int) +
        (TMD.CertCP.length : Int)) ++
      CETK.HeaderChunk ++ getPadding (CETK.HeaderChunk.length : Int) ++
      TMD.HeaderChunk ++ getPadding (TMD.HeaderChunk.length : Int) ++ more,
    hhdr, binaryWriteHdr_length hdr, getPadding_hdr hdr, ?_, ?_⟩
  · rw [hgen, hmore, getPadding_hdr]
    simp only [List.append_assoc]
  · rw [List.length_append, binaryWriteHdr_length, List.length_replicate]

theorem padded_eq (n : Nat) : n + (getPadding (n : Int)).length = padded n := by
  rw [getPadding_length]; rfl

/-- C6 (amended): when the output file can be created and every referenced
payload exists, `genCia` returns nil and the archive it wrote has length
`0x2040` (the `0x2020` header bytes and their 32 bytes of padding)
`+ padded(certificate block) + padded(ticket header) + padded(metadata header)`
`+` the sum of the payload lengths, with `padded L = L + (64 - L mod 64) mod 64`;
for two descriptors with payloads of 100 and 200 bytes the last term is
`100 + 200`. -/
theorem genCia_total_length (fs : FS) (CETK : tk) (TMD : tmd) (cdnDir dir file : List Char)
    (hcreate : fs.create (ciaPath dir file) = true)
    (hpay : ∀ r ∈ TMD.contentChunkRecs, (fs.readFile (contentPath cdnDir r)).isSome = true) :
    (genCia fs CETK TMD cdnDir dir file).2 = none ∧
      (genCia fs CETK TMD cdnDir dir file).1.length =
        0x2040 + padded (CETK.CertCA.length + CETK.CertXS.length + TMD.CertCP.length) +
          padded CETK.HeaderChunk.length + padded TMD.HeaderChunk.length +
          ((payloads fs cdnDir TMD.contentChunkRecs).map List.length).sum ∧
      (∀ r1 r2 p1 p2, TMD.contentChunkRecs = [r1, r2] →
        fs.readFile (contentPath cdnDir r1) = some p1 →
        fs.readFile (contentPath cdnDir r2) = some p2 → p1.length = 100 → p2.length = 200 →
        ((payloads fs cdnDir TMD.contentChunkRecs).map List.length).sum = 100 + 200) := by
  obtain ⟨hdr, _, hgen⟩ := genCia_written fs CETK TMD cdnDir dir file hcreate hpay
  refine ⟨by rw [hgen], ?_, ?_⟩
  · rw [hgen]
    have h1 := padded_eq (CETK.CertCA.length + CETK.CertXS.length + TMD.CertCP.length)
    have h2 := padded_eq CETK.HeaderChunk.length
    have h3 := padded_eq TMD.HeaderChunk.length
    rw [Nat.cast_add, Nat.cast_add] at h1
    rw [getPadding_hdr]
    simp only [archiveBody, List.length_append, binaryWriteHdr_length, List.length_replicate,
      List.length_flatten]
    omega
  · intro r1 r2 p1 p2 hr hp1 hp2 hl1 hl2
    simp only [hr, payloads, List.map_cons, List.map_nil, hp1, hp2, Option.getD_some, hl1, hl2,
      List.sum_cons, List.sum_nil, Nat.add_zero]

theorem hextable_getD_mem (d : Nat) : hextable.getD d '0' ∈ hextable := by
  rw [List.getD_eq_getElem?_getD]
  cases h : hextable[d]? with
  | none => decide
  | some c => exact List.getElem?_mem h

theorem hexEncodeToString_length (dat : List Byte) :
    (hexEncodeToString dat).length = 2 * dat.length := by
  induction dat with
  | nil => rfl
  | cons b rest ih => simp only [hexEncodeToString, List.length_cons, ih]; omega

theorem hexEncodeToString_mem (dat : List Byte) :
    ∀ c ∈ hexEncodeToString dat, c ∈ hextable := by
  induction dat with
  | nil => intro c hc; cases hc
  | cons b rest ih =>
    intro c hc
    simp only [hexEncodeToString, List.mem_cons] at hc
    rcases hc with rfl | rfl | hc
    · exact hextable_getD_mem _
    · exact hextable_getD_mem _
    · exact ih c hc

/-- C8: when the output file can be created and every referenced payload
exists, `genCia` returns nil and what it writes is the serialised header and
its padding followed by exactly
`CertCA ++ CertXS ++ CertCP ++ pad1 ++ tk.HeaderChunk ++ pad2 ++ tmd.HeaderChunk ++ pad3`
and the payloads in descriptor order with no padding between or after them;
each pad is `getPadding` of the length of the section before it, `toLE` is
the identity, and the payload of a descriptor is the source named
`cdnDir/` followed by the 8 lower-case hex digits of its `ContentID`. -/
theorem genCia_body (fs : FS) (CETK : tk) (TMD : tmd) (cdnDir dir file : List Char)
    (hcreate : fs.create (ciaPath dir file) = true)
    (hpay : ∀ r ∈ TMD.contentChunkRecs, (fs.readFile (contentPath cdnDir r)).isSome = true) :
    (∃ hdr, genCiaHDR TMD CETK = .ok hdr ∧
      genCia fs CETK TMD cdnDir dir file =
        ((binaryWriteHdr hdr ++ getPadding ((binaryWriteHdr hdr).length : Int)) ++
          (CETK.CertCA ++ CETK.CertXS ++ TMD.CertCP ++
            getPadding ((CETK.CertCA.length : Int) + (CETK.CertXS.length : Int) +
              (TMD.CertCP.length : Int)) ++
            CETK.HeaderChunk ++ getPadding (CETK.HeaderChunk.length : Int) ++
            TMD.HeaderChunk ++ getPadding (TMD.HeaderChunk.length : Int) ++
            (TMD.contentChunkRecs.map (fun r =>
              (fs.readFile (cdnDir ++ ['/'] ++ hexEncodeToString r.ContentID.val)).getD
                [])).flatten), none)) ∧
      (∀ dat, toLE dat = dat) ∧
      (∀ r : contentChunkRec, (hexEncodeToString r.ContentID.val).length = 8 ∧
        ∀ c ∈ hexEncodeToString r.ContentID.val, c ∈ hextable) := by
  obtain ⟨hdr, hhdr, hgen⟩ := genCia_written fs CETK TMD cdnDir dir file hcreate hpay
  refine ⟨⟨hdr, hhdr, ?_⟩, toLE_eq, fun r => ⟨?_, hexEncodeToString_mem _⟩⟩
  · rw [hgen]
    simp only [archiveBody, payloads, contentPath, List.append_assoc]
  · rw [hexEncodeToString_length, r.ContentID.property]

/-! ## Header layout -/

theorem leVal_leBytes (w : Nat) : ∀ v, leVal (leBytes w v) = v % 256 ^ w := by
  induction w with
  | zero => intro v; simp [leBytes, leVal, Nat.mod_one]
  | succ k ih =>
    intro v
    rw [leBytes, leVal, ih]
    simp only []
    rw [pow_succ, Nat.mul_comm (256 ^ k) 256, Nat.mod_mul]

theorem bytesAt_mid (pre mid post : List Byte) (lo k : Nat) (hlo : pre.length = lo)
    (hk : mid.length = k) : bytesAt (pre ++ (mid ++ post)) lo k = mid := by
  unfold bytesAt
  rw [List.drop_left' hlo, List.take_left' hk]

theorem bytesAt_append_left (l1 l2 : List Byte) (lo k : Nat) (h : lo + k ≤ l1.length) :
    bytesAt (l1 ++ l2) lo k = bytesAt l1 lo k := by
  unfold bytesAt
  rw [List.drop_append_of_le_length (by omega), List.take_append_of_le_length]
  rw [List.length_drop]
  omega

theorem genCiaHDR_inRange (TMD : tmd) (CETK : tk) (h : ciaHdr)
    (hh : genCiaHDR TMD CETK = .ok h) : h.InRange := by
  obtain ⟨bitmap, _, hhdr⟩ := genCiaHDR_eq TMD CETK
  rw [hhdr] at hh
  cases hh
  refine ⟨by norm_num, by norm_num, by norm_num, ?_, ?_, ?_, by norm_num, ?_⟩ <;>
    exact Nat.mod_lt _ (by norm_num)

theorem binaryWriteHdr_fields (h : ciaHdr) (hr : h.InRange) :
    leVal (bytesAt (binaryWriteHdr h) 0 4) = h.HdrSize ∧
      leVal (bytesAt (binaryWriteHdr h) 4 2) = h.Type_ ∧
      leVal (bytesAt (binaryWriteHdr h) 6 2) = h.Ver ∧
      leVal (bytesAt (binaryWriteHdr h) 8 4) = h.CertSize ∧
      leVal (bytesAt (binaryWriteHdr h) 0x0C 4) = h.TikSize ∧
      leVal (bytesAt (binaryWriteHdr h) 0x10 4) = h.TmdSize ∧
      leVal (bytesAt (binaryWriteHdr h) 0x14 4) = h.MetaSize ∧
      leVal (bytesAt (binaryWriteHdr h) 0x18 8) = h.ContentSize ∧
      bytesAt (binaryWriteHdr h) 0x20 8192 = h.ContentIndex.val := by
  obtain ⟨r1, r2, r3, r4, r5, r6, r7, r8⟩ := hr
  have p4 : (256 : Nat) ^ 4 = 2 ^ 32 := by norm_num
  have p2 : (256 : Nat) ^ 2 = 2 ^ 16 := by norm_num
  have p8 : (256 : Nat) ^ 8 = 2 ^ 64 := by norm_num
  refine ⟨?_, ?_, ?_, ?_, ?_, ?_, ?_, ?_, ?_⟩
  · have e : binaryWriteHdr h = [] ++ (leBytes 4 h.HdrSize ++ (leBytes 2 h.Type_ ++
        leBytes 2 h.Ver ++ leBytes 4 h.CertSize ++ leBytes 4 h.TikSize ++
        leBytes 4 h.TmdSize ++ leBytes 4 h.MetaSize ++ leBytes 8 h.ContentSize ++
        h.ContentIndex.val)) := by
      simp only [binaryWriteHdr, List.append_assoc, List.nil_append]
    rw [e, bytesAt_mid [] _ _ 0 4 rfl (leBytes_length _ _), leVal_leBytes, p4,
      Nat.mod_eq_of_lt r1]
  · have e : binaryWriteHdr h = leBytes 4 h.HdrSize ++ (leBytes 2 h.Type_ ++
        (leBytes 2 h.Ver ++ leBytes 4 h.CertSize ++ leBytes 4 h.TikSize ++
        leBytes 4 h.TmdSize ++ leBytes 4 h.MetaSize ++ leBytes 8 h.ContentSize ++
        h.ContentIndex.val)) := by
      simp only [binaryWriteHdr, List.append_assoc]
    rw [e, bytesAt_mid _ _ _ 4 2 (leBytes_length _ _) (leBytes_length _ _), leVal_leBytes, p2,
      Nat.mod_eq_of_lt r2]
  · have e : binaryWriteHdr h = (leBytes 4 h.HdrSize ++ leBytes 2 h.Type_) ++
        (leBytes 2 h.Ver ++ (leBytes 4 h.CertSize ++ leBytes 4 h.TikSize ++
        leBytes 4 h.TmdSize ++ leBytes 4 h.MetaSize ++ leBytes 8 h.ContentSize ++
        h.ContentIndex.val)) := by
      simp only [binaryWriteHdr, List.append_assoc]
    rw [e, bytesAt_mid _ _ _ 6 2 (by simp only [List.length_append, leBytes_length])
      (leBytes_length _ _), leVal_leBytes, p2, Nat.mod_eq_of_lt r3]
  · have e : binaryWriteHdr h = (leBytes 4 h.HdrSize ++ leBytes 2 h.Type_ ++
        leBytes 2 h.Ver) ++ (leBytes 4 h.CertSize ++ (leBytes 4 h.TikSize ++
        leBytes 4 h.TmdSize ++ leBytes 4 h.MetaSize ++ leBytes 8 h.ContentSize ++
        h.ContentIndex.val)) := by
      simp only [binaryWriteHdr, List.append_assoc]
    rw [e, bytesAt_mid _ _ _ 8 4 (by simp only [List.length_append, leBytes_length])
      (leBytes_length _ _), leVal_leBytes, p4, Nat.mod_eq_of_lt r4]
  · have e : binaryWriteHdr h = (leBytes 4 h.HdrSize ++ leBytes 2 h.Type_ ++
        leBytes 2 h.Ver ++ leBytes 4 h.CertSize) ++ (leBytes 4 h.TikSize ++
        (leBytes 4 h.TmdSize ++ leBytes 4 h.MetaSize ++ leBytes 8 h.ContentSize ++
        h.ContentIndex.val)) := by
      simp only [binaryWriteHdr, List.append_assoc]
    rw [e, bytesAt_mid _ _ _ 0x0C 4 (by simp only [List.length_append, leBytes_length])
      (leBytes_length _ _), leVal_leBytes, p4, Nat.mod_eq_of_lt r5]
  · have e : binaryWriteHdr h = (leBytes 4 h.HdrSize ++ leBytes 2 h.Type_ ++
        leBytes 2 h.Ver ++ leBytes 4 h.CertSize ++ leBytes 4 h.TikSize) ++
        (leBytes 4 h.TmdSize ++ (leBytes 4 h.MetaSize ++ leBytes 8 h.ContentSize ++
        h.ContentIndex.val)) := by
      simp only [binaryWriteHdr, List.append_assoc]
    rw [e, bytesAt_mid _ _ _ 0x10 4 (by simp only [List.length_append, leBytes_length])
      (leBytes_length _ _), leVal_leBytes, p4, Nat.mod_eq_of_lt r6]
  · have e : binaryWriteHdr h = (leBytes 4 h.HdrSize ++ leBytes 2 h.Type_ ++
        leBytes 2 h.Ver ++ leBytes 4 h.CertSize ++ leBytes 4 h.TikSize ++
        leBytes 4 h.TmdSize) ++ (leBytes 4 h.MetaSize ++ (leBytes 8 h.ContentSize ++
        h.ContentIndex.val)) := by
      simp only [binaryWriteHdr, List.append_assoc]
    rw [e, bytesAt_mid _ _ _ 0x14 4 (by simp only [List.length_append, leBytes_length])
      (leBytes_length _ _), leVal_leBytes, p4, Nat.mod_eq_of_lt r7]
  · have e : binaryWriteHdr h = (leBytes 4 h.HdrSize ++ leBytes 2 h.Type_ ++
        leBytes 2 h.Ver ++ leBytes 4 h.CertSize ++ leBytes 4 h.TikSize ++
        leBytes 4 h.TmdSize ++ leBytes 4 h.MetaSize) ++ (leBytes 8 h.ContentSize ++
        h.ContentIndex.val) := by
      simp only [binaryWriteHdr, List.append_assoc]
    rw [e, bytesAt_mid _ _ _ 0x18 8 (by simp only [List.length_append, leBytes_length])
      (leBytes_length _ _), leVal_leBytes, p8, Nat.mod_eq_of_lt r8]
  · have e : binaryWriteHdr h = (leBytes 4 h.HdrSize ++ leBytes 2 h.Type_ ++
        leBytes 2 h.Ver ++ leBytes 4 h.CertSize ++ leBytes 4 h.TikSize ++
        leBytes 4 h.TmdSize ++ leBytes 4 h.MetaSize ++ leBytes 8 h.ContentSize) ++
        (h.ContentIndex.val ++ []) := by
      simp only [binaryWriteHdr, List.append_nil]
    rw [e, bytesAt_mid _ _ _ 0x20 8192 (by simp only [List.length_append, leBytes_length])
      h.ContentIndex.property]

/-! ## Example archive -/

theorem exampleFS_payloads : ∀ r ∈ exampleTmdVal.contentChunkRecs,
    (exampleFS.readFile (contentPath cdn r)).isSome = true := by
  decide

/-- C5, witness: the example ticket and metadata. -/
theorem genCia_header_section_witness :
    exampleFS.create (ciaPath [] outName) = true ∧
    ∃ hdr more, genCiaHDR exampleTmdVal exampleTkVal = .ok hdr ∧
      (binaryWriteHdr hdr).length = 0x2020 ∧
      getPadding ((binaryWriteHdr hdr).length : Int) = List.replicate 32 0 ∧
      (genCia exampleFS exampleTkVal exampleTmdVal cdn [] outName).1 =
        (binaryWriteHdr hdr ++ List.replicate 32 0) ++
          ((exampleTkVal.CertCA ++ exampleTkVal.CertXS ++ exampleTmdVal.CertCP) ++ more) ∧
      (binaryWriteHdr hdr ++ List.replicate 32 0).length = 0x2040 :=
  ⟨rfl, genCia_header_section exampleFS exampleTkVal exampleTmdVal cdn [] outName rfl⟩

/-- C5, counterexample: for the example ticket and metadata the padding of the
header is not empty, bytes `0x2020 .. 0x203F` of the output are that padding,
and the certificate block stands at `0x2040`, not at `0x2020`. -/
theorem genCia_header_aligned_counterexample :
    ∃ hdr, genCiaHDR exampleTmdVal exampleTkVal = .ok hdr ∧
      getPadding ((binaryWriteHdr hdr).length : Int) ≠ [] ∧
      bytesAt (genCia exampleFS exampleTkVal exampleTmdVal cdn [] outName).1 0x2020 32 =
        List.replicate 32 0 ∧
      bytesAt (genCia exampleFS exampleTkVal exampleTmdVal cdn [] outName).1 0x2040 2560 =
        exampleTkVal.CertCA ++ exampleTkVal.CertXS ++ exampleTmdVal.CertCP := by
  obtain ⟨hdr, more, hhdr, hlen, hpad, hout, hlen2⟩ :=
    genCia_header_section exampleFS exampleTkVal exampleTmdVal cdn [] outName rfl
  refine ⟨hdr, hhdr, ?_, ?_, ?_⟩
  · rw [hpad]; exact List.cons_ne_nil _ _
  · rw [hout, List.append_assoc]
    exact bytesAt_mid _ _ _ 0x2020 32 hlen (List.length_replicate _ _)
  · rw [hout]
    apply bytesAt_mid _ _ _ 0x2040 2560 hlen2
    simp only [exampleTkVal, exampleTmdVal, List.length_append, List.length_replicate]

/-- C6, witness: the example ticket and metadata with both payloads present. -/
theorem genCia_total_length_witness :
    exampleFS.create (ciaPath [] outName) = true ∧
    (∀ r ∈ exampleTmdVal.contentChunkRecs,
      (exampleFS.readFile (contentPath cdn r)).isSome = true) ∧
    (genCia exampleFS exampleTkVal exampleTmdVal cdn [] outName).2 = none ∧
    (genCia exampleFS exampleTkVal exampleTmdVal cdn [] outName).1.length =
      0x2040 + padded (exampleTkVal.CertCA.length + exampleTkVal.CertXS.length +
          exampleTmdVal.CertCP.length) +
        padded exampleTkVal.HeaderChunk.length + padded exampleTmdVal.HeaderChunk.length +
        ((payloads exampleFS cdn exampleTmdVal.contentChunkRecs).map List.length).sum :=
  ⟨rfl, exampleFS_payloads,
    (genCia_total_length exampleFS exampleTkVal exampleTmdVal cdn [] outName rfl
      exampleFS_payloads).1,
    (genCia_total_length exampleFS exampleTkVal exampleTmdVal cdn [] outName rfl
      exampleFS_payloads).2.1⟩

/-- C6, counterexample: for the example ticket and metadata, with payloads of
100 and 200 bytes, the archive is 32 bytes longer than
`0x2020 + padded(certificates) + padded(ticket) + padded(metadata) + 100 + 200`. -/
theorem genCia_total_length_counterexample :
    exampleFS.create (ciaPath [] outName) = true ∧
    (∀ r ∈ exampleTmdVal.contentChunkRecs,
      (exampleFS.readFile (contentPath cdn r)).isSome = true) ∧
    (genCia exampleFS exampleTkVal exampleTmdVal cdn [] outName).1.length =
      (0x2020 + padded (exampleTkVal.CertCA.length + exampleTkVal.CertXS.length +
          exampleTmdVal.CertCP.length) +
        padded exampleTkVal.HeaderChunk.length + padded exampleTmdVal.HeaderChunk.length +
        (100 + 200)) + 32 ∧
    (genCia exampleFS exampleTkVal exampleTmdVal cdn [] outName).1.length ≠
      0x2020 + padded (exampleTkVal.CertCA.length + exampleTkVal.CertXS.length +
          exampleTmdVal.CertCP.length) +
        padded exampleTkVal.HeaderChunk.length + padded exampleTmdVal.HeaderChunk.length +
        (100 + 200) := by
  have h := genCia_total_length exampleFS exampleTkVal exampleTmdVal cdn [] outName rfl
    exampleFS_payloads
  have hsum := h.2.2 _ _ (List.replicate 100 0xAA) (List.replicate 200 0xBB) rfl rfl rfl
    (List.length_replicate _ _) (List.length_replicate _ _)
  refine ⟨rfl, exampleFS_payloads, ?_, ?_⟩ <;> rw [h.2.1, hsum] <;> omega

/-! ## Header round trip -/

/-- C8, witness: the example ticket and metadata with both payloads present. -/
theorem genCia_body_witness :
    exampleFS.create (ciaPath [] outName) = true ∧
    (∀ r ∈ exampleTmdVal.contentChunkRecs,
      (exampleFS.readFile (contentPath cdn r)).isSome = true) ∧
    ∃ hdr, genCiaHDR exampleTmdVal exampleTkVal = .ok hdr ∧
      genCia exampleFS exampleTkVal exampleTmdVal cdn [] outName =
        ((binaryWriteHdr hdr ++ getPadding ((binaryWriteHdr hdr).length : Int)) ++
          (exampleTkVal.CertCA ++ exampleTkVal.CertXS ++ exampleTmdVal.CertCP ++
            getPadding ((exampleTkVal.CertCA.length : Int) +
              (exampleTkVal.CertXS.length : Int) + (exampleTmdVal.CertCP.length : Int)) ++
            exampleTkVal.HeaderChunk ++ getPadding (exampleTkVal.HeaderChunk.length : Int) ++
            exampleTmdVal.HeaderChunk ++ getPadding (exampleTmdVal.HeaderChunk.length : Int) ++
            (exampleTmdVal.contentChunkRecs.map (fun r =>
              (exampleFS.readFile (cdn ++ ['/'] ++ hexEncodeToString r.ContentID.val)).getD
                [])).flatten), none) :=
  ⟨rfl, exampleFS_payloads,
    (genCia_body exampleFS exampleTkVal exampleTmdVal cdn [] outName rfl exampleFS_payloads).1⟩

/-- C9: the serialisation of a header whose fields fit their Go types is
`0x2020` bytes: `HdrSize` little-endian at offset 0 (4 bytes), `Type` at 4 (2),
`Ver` at 6 (2), `CertSize` at 8 (4), `TikSize` at `0x0C` (4), `TmdSize` at
`0x10` (4), `MetaSize` at `0x14` (4), `ContentSize` at `0x18` (8), then the
8192 bitmap bytes at `0x20 .. 0x201F`.  And whenever `genCia` can create its
output, the first `0x2020` bytes it writes are that serialisation of the
header `genCiaHDR` computed, so decoding offsets `0x18`, 8 and `0x20` of the
archive gives back its `ContentSize`, `CertSize` and bitmap. -/
theorem binaryWriteHdr_layout_roundtrip :
    (∀ h : ciaHdr, h.InRange →
      (binaryWriteHdr h).length = 0x2020 ∧
      leVal (bytesAt (binaryWriteHdr h) 0 4) = h.HdrSize ∧
      leVal (bytesAt (binaryWriteHdr h) 4 2) = h.Type_ ∧
      leVal (bytesAt (binaryWriteHdr h) 6 2) = h.Ver ∧
      leVal (bytesAt (binaryWriteHdr h) 8 4) = h.CertSize ∧
      leVal (bytesAt (binaryWriteHdr h) 0x0C 4) = h.TikSize ∧
      leVal (bytesAt (binaryWriteHdr h) 0x10 4) = h.TmdSize ∧
      leVal (bytesAt (binaryWriteHdr h) 0x14 4) = h.MetaSize ∧
      leVal (bytesAt (binaryWriteHdr h) 0x18 8) = h.ContentSize ∧
      bytesAt (binaryWriteHdr h) 0x20 8192 = h.ContentIndex.val) ∧
    (∀ (fs : FS) (CETK : tk) (TMD : tmd) (cdnDir dir file : List Char),
      fs.create (ciaPath dir file) = true →
      ∃ hdr, genCiaHDR TMD CETK = .ok hdr ∧
        bytesAt (genCia fs CETK TMD cdnDir dir file).1 0 0x2020 = binaryWriteHdr hdr ∧
        leVal (bytesAt (genCia fs CETK TMD cdnDir dir file).1 0x18 8) = hdr.ContentSize ∧
        leVal (bytesAt (genCia fs CETK TMD cdnDir dir file).1 8 4) = hdr.CertSize ∧
        bytesAt (genCia fs CETK TMD cdnDir dir file).1 0x20 8192 = hdr.ContentIndex.val) := by
  constructor
  · intro h hr
    exact ⟨binaryWriteHdr_length h, binaryWriteHdr_fields h hr⟩
  · intro fs CETK TMD cdnDir dir file hcreate
    obtain ⟨hdr, more, hhdr, hlen, _, hout, _⟩ :=
      genCia_header_section fs CETK TMD cdnDir dir file hcreate
    have hf := binaryWriteHdr_fields hdr (genCiaHDR_inRange TMD CETK hdr hhdr)
    rw [List.append_assoc] at hout
    refine ⟨hdr, hhdr, ?_, ?_, ?_, ?_⟩
    · rw [hout]
      have := bytesAt_mid [] (binaryWriteHdr hdr) (List.replicate 32 0 ++
        (CETK.CertCA ++ CETK.CertXS ++ TMD.CertCP ++ more)) 0 0x2020 rfl hlen
      simpa using this
    · rw [hout, bytesAt_append_left _ _ _ _ (by omega)]
      exact hf.2.2.2.2.2.2.2.1
    · rw [hout, bytesAt_append_left _ _ _ _ (by omega)]
      exact hf.2.2.2.1
    · rw [hout, bytesAt_append_left _ _ _ _ (by omega)]
      exact hf.2.2.2.2.2.2.2.2

/-- C9, witness: the example header and the example ticket and metadata. -/
theorem binaryWriteHdr_layout_roundtrip_witness :
    exampleHdr.InRange ∧ exampleFS.create (ciaPath [] outName) = true ∧
    (binaryWriteHdr exampleHdr).length = 0x2020 ∧
    leVal (bytesAt (binaryWriteHdr exampleHdr) 0x18 8) = 300 ∧
    ∃ hdr, genCiaHDR exampleTmdVal exampleTkVal = .ok hdr ∧
      bytesAt (genCia exampleFS exampleTkVal exampleTmdVal cdn [] outName).1 0 0x2020 =
        binaryWriteHdr hdr ∧
      leVal (bytesAt (genCia exampleFS exampleTkVal exampleTmdVal cdn [] outName).1 0x18 8) =
        hdr.ContentSize ∧
      leVal (bytesAt (genCia exampleFS exampleTkVal exampleTmdVal cdn [] outName).1 8 4) =
        hdr.CertSize ∧
      bytesAt (genCia exampleFS exampleTkVal exampleTmdVal cdn [] outName).1 0x20 8192 =
        hdr.ContentIndex.val :=
  ⟨by decide, rfl,
    (binaryWriteHdr_layout_roundtrip.1 exampleHdr (by decide)).1,
    (binaryWriteHdr_layout_roundtrip.1 exampleHdr (by decide)).2.2.2.2.2.2.2.2.1,
    binaryWriteHdr_layout_roundtrip.2 exampleFS exampleTkVal exampleTmdVal cdn [] outName rfl⟩

/-! ## Building from a directory -/

theorem processTk_ok (CETK : List Byte) (code sigSize : Nat)
    (hsig : hexToInt (CETK.take 4) 10 32 = (code, none))
    (hsize : getSigSize code = (sigSize, none))
    (hlen : sigSize + 2320 ≤ CETK.length) :
    processTk CETK = .ok
      { TitleID := ((CETK.take (sigSize + 528)).drop (sigSize + 156)).take 8
        HeaderChunk := CETK.take (sigSize + 528)
        CertCA := (CETK.drop (sigSize + 1296)).take 1024
        CertXS := (CETK.drop (sigSize + 528)).take 768 } := by
  have hs0 : goSlice CETK 0 4 = .ok (CETK.take 4) := by
    rw [goSlice_ok CETK 0 4 (by decide) (by omega)]; rfl
  have hx := goSlice_ok CETK (sigSize + 528) (sigSize + 1296) (by omega) (by omega)
  have ha := goSlice_ok CETK (sigSize + 1296) (sigSize + 2320) (by omega) hlen
  have hh := goSlice_ok CETK 0 (sigSize + 528) (by omega) (by omega)
  have ht := goSlice_ok (CETK.take (sigSize + 528)) (sigSize + 156) (sigSize + 164) (by omega)
    (by rw [List.length_take]; omega)
  have e1 : sigSize + 1296 - (sigSize + 528) = 768 := by omega
  have e2 : sigSize + 2320 - (sigSize + 1296) = 1024 := by omega
  have e3 : sigSize + 164 - (sigSize + 156) = 8 := by omega
  rw [e1] at hx
  rw [e2] at ha
  rw [e3] at ht
  rw [Nat.sub_zero, List.drop_zero] at hh
  unfold processTk
  simp only [hs0, hsig, hsize, hx, ha, hh, ht]

theorem BuildCia_eq (fs : FS) (CDNDir CiaDir CiaName : List Char) (tmdBuf cetk : List Byte)
    (t : tmd) (k : tk)
    (h1 : fs.readFile (CDNDir ++ ['/', 'T', 'M', 'D']) = some tmdBuf)
    (h2 : fs.readFile (CDNDir ++ ['/', 'C', 'E', 'T', 'K']) = some cetk)
    (h3 : processTMD tmdBuf = .ok t) (h4 : processTk cetk = .ok k) :
    BuildCia fs CDNDir CiaDir CiaName = ((genCia fs k t CDNDir CiaDir CiaName).1, none) := by
  unfold BuildCia
  simp only [h1, h2, h3, h4]

theorem exampleTMD_recs (sig count recs : List Byte) (k : Nat) (hs : sig.length = 4)
    (hc : count.length ≤ 4) (hk : k ≤ recs.length) :
    ((exampleTMD sig count recs).drop 0xB04).take k = recs.take k := by
  have e : exampleTMD sig count recs =
      (sig ++ List.replicate (0x1DE - 4) 0 ++ count ++
        List.replicate (0xB04 - 0x1DE - count.length) 0) ++ (recs ++ List.replicate 768 0) := by
    simp only [exampleTMD, List.append_assoc]
  rw [e, List.drop_left' (by
    simp only [List.length_append, List.length_replicate]; omega)]
  exact List.take_append_of_le_length hk

theorem missingTMD_parsed :
    ∃ t, processTMD missingTMD = .ok t ∧
      ∃ r, t.contentChunkRecs = [r] ∧ r.ContentID.val = [0, 0, 0, 0x0c] := by
  have hl : missingTMD.length = 0xB04 + 0x30 + 768 := by
    unfold missingTMD
    rw [exampleTMD_length _ _ _ (by rfl) (by decide)]
    rfl
  obtain ⟨recs, hok, hall⟩ := processTMD_ok missingTMD sigTypeRSA2048SHA256 320 1
    (by unfold missingTMD; rw [exampleTMD_take_sig _ _ _ (by rfl)]; decide)
    (by decide)
    (by unfold missingTMD; rw [exampleTMD_count _ _ _ 2 (by rfl) (by rfl)]; decide)
    (by decide) (by rw [hl]) (by rw [hl]; decide)
  refine ⟨_, hok, ?_⟩
  have hr : (List.range 1).map (fun i => 0xB04 + 0x30 * i) = [0xB04] := rfl
  rw [hr] at hall
  cases hall with
  | cons h1 hrest =>
    cases hrest
    rename_i r
    refine ⟨r, rfl, ?_⟩
    have hd : (missingTMD.drop 0xB04).take 0x30 = exampleRec [0, 0, 0, 0x0c] [0, 0] 100 := by
      unfold missingTMD
      rw [exampleTMD_recs _ _ _ 0x30 (by rfl) (by decide) (by decide)]
      rfl
    rw [hd] at h1
    have : binaryReadRec (exampleRec [0, 0, 0, 0x0c] [0, 0] 100) = .ok
        (exampleRecVal ⟨[0, 0, 0, 0x0c], rfl⟩ ⟨[0, 0], rfl⟩ ⟨[0, 0, 0, 0, 0, 0, 0, 100], rfl⟩) := by
      rfl
    rw [this] at h1
    cases h1
    rfl

theorem exampleCETK_parsed : ∃ k, processTk exampleCETK = .ok k :=
  ⟨_, processTk_ok exampleCETK sigTypeRSA2048SHA256 320 (by decide) (by decide) (by
    simp only [exampleCETK, List.length_append, List.length_replicate, List.length_cons,
      List.length_nil]
    decide)⟩

/-- C7: a source directory whose `TMD` names the payload `0000000c`, which is
absent.  The metadata and the ticket parse, `genCia` returns the error of
reading `cdn/0000000c`, and `BuildCia` returns nil. -/
theorem BuildCia_missing_payload_returns_nil :
    missingFS.readFile ['c', 'd', 'n', '/', '0', '0', '0', '0', '0', '0', '0', 'c'] = none ∧
    (∃ t k, processTMD missingTMD = .ok t ∧ processTk exampleCETK = .ok k ∧
      (genCia missingFS k t cdn [] outName).2 =
        some (.err (.readFile ['c', 'd', 'n', '/', '0', '0', '0', '0', '0', '0', '0', 'c']))) ∧
    (BuildCia missingFS cdn [] outName).2 = none := by
  obtain ⟨t, ht, r, hrecs, hid⟩ := missingTMD_parsed
  obtain ⟨k, hk⟩ := exampleCETK_parsed
  have hpath : contentPath cdn r =
      ['c', 'd', 'n', '/', '0', '0', '0', '0', '0', '0', '0', 'c'] := by
    unfold contentPath
    rw [hid]
    rfl
  have hnone : missingFS.readFile
      ['c', 'd', 'n', '/', '0', '0', '0', '0', '0', '0', '0', 'c'] = none := by
    rfl
  refine ⟨hnone, ⟨t, k, ht, hk, ?_⟩, ?_⟩
  · obtain ⟨hdr, _, hgen⟩ := genCia_eq_loop missingFS k t cdn [] outName rfl
    rw [hgen, hrecs, genCia_loop]
    simp only [hpath, hnone]
  · rw [BuildCia_eq missingFS cdn [] outName missingTMD exampleCETK t k rfl rfl ht hk]

/-! ## Header examples -/

/-- C3, witness: the example metadata (indices 0 and 1) sets bits 7 and 6 of
byte 0 and not bit 5; single descriptors of index 0, 8 and 65535 give the
bitmaps with only byte 0 = `0x80`, byte 1 = `0x80` and byte 8191 = `0x01`. -/
theorem genCiaHDR_bitmap_witness :
    (∃ hdr, genCiaHDR exampleTmdVal exampleTkVal = .ok hdr ∧
      (hdr.ContentIndex.val.getD 0 0).val.testBit 7 = true ∧
      (hdr.ContentIndex.val.getD 0 0).val.testBit 6 = true ∧
      ¬ (hdr.ContentIndex.val.getD 0 0).val.testBit 5 = true) ∧
    (∃ hdr, genCiaHDR (singleIndexTmd ⟨[0, 0], rfl⟩) exampleTkVal = .ok hdr ∧
      hdr.ContentIndex.val = (List.replicate 8192 0).set 0 0x80) ∧
    (∃ hdr, genCiaHDR (singleIndexTmd ⟨[0, 8], rfl⟩) exampleTkVal = .ok hdr ∧
      hdr.ContentIndex.val = (List.replicate 8192 0).set 1 0x80) ∧
    (∃ hdr, genCiaHDR (singleIndexTmd ⟨[0xff, 0xff], rfl⟩) exampleTkVal = .ok hdr ∧
      hdr.ContentIndex.val = (List.replicate 8192 0).set 8191 0x01) := by
  refine ⟨?_, ?_, ?_, ?_⟩
  · obtain ⟨hdr, hh, _, hbits, _⟩ := genCiaHDR_bitmap exampleTmdVal exampleTkVal
    exact ⟨hdr, hh, (hbits 0 (by decide)).mpr (by decide), (hbits 1 (by decide)).mpr (by decide),
      fun h => absurd ((hbits 2 (by decide)).mp h) (by decide)⟩
  · obtain ⟨hdr, hh, _, _, hone⟩ := genCiaHDR_bitmap (singleIndexTmd ⟨[0, 0], rfl⟩) exampleTkVal
    exact ⟨hdr, hh, (hone _ rfl).1 (by decide)⟩
  · obtain ⟨hdr, hh, _, _, hone⟩ := genCiaHDR_bitmap (singleIndexTmd ⟨[0, 8], rfl⟩) exampleTkVal
    exact ⟨hdr, hh, (hone _ rfl).2.1 (by decide)⟩
  · obtain ⟨hdr, hh, _, _, hone⟩ :=
      genCiaHDR_bitmap (singleIndexTmd ⟨[0xff, 0xff], rfl⟩) exampleTkVal
    exact ⟨hdr, hh, (hone _ rfl).2.2 (by decide)⟩

/-- C4, witness: the example metadata, with sizes 100 and 200, gives 300. -/
theorem genCiaHDR_contentSize_witness :
    ∃ hdr, genCiaHDR exampleTmdVal exampleTkVal = .ok hdr ∧ hdr.ContentSize = 300 := by
  obtain ⟨hdr, hh, _, _, hex⟩ := genCiaHDR_contentSize exampleTmdVal exampleTkVal
  exact ⟨hdr, hh, hex _ _ rfl (by decide) (by decide)⟩

/-! ## Failure paths of the metadata parser -/

theorem goSlice_panic (s : List Byte) (lo hi : Nat) (h : ¬ (lo ≤ hi ∧ hi ≤ s.length)) :
    goSlice s lo hi = .error .panic := by
  unfold goSlice
  rw [if_neg h]

theorem goSlice_take4 (s : List Byte) (h : 4 ≤ s.length) : goSlice s 0 4 = .ok (s.take 4) := by
  rw [goSlice_ok s 0 4 (by decide) h]; rfl

theorem hexToInt_result (dat : List Byte) (base size : Nat) :
    (∃ v, hexToInt dat base size = (v, none)) ∨ ∃ e, hexToInt dat base size = (0, some e) := by
  unfold hexToInt
  rcases strconvParseUint (hexEncodeToString dat) base size with ⟨v, _ | e⟩
  · exact Or.inl ⟨v, rfl⟩
  · exact Or.inr ⟨e, rfl⟩

theorem getSigSize_result (code : Nat) :
    (code ∈ supportedSigTypes ∧ ∃ size, getSigSize code = (size, none) ∧ size ≤ 576) ∨
      (code ∉ supportedSigTypes ∧ getSigSize code = (0, some .badSignatureType)) := by
  by_cases h : code ∈ supportedSigTypes
  · exact Or.inl ⟨h, getSigSize_supported code h⟩
  · refine Or.inr ⟨h, ?_⟩
    simp only [supportedSigTypes, List.mem_cons, List.mem_singleton, List.not_mem_nil,
      or_false, not_or] at h
    obtain ⟨h1, h2, h3, h4, h5, h6⟩ := h
    unfold getSigSize
    rw [if_neg h1, if_neg h4, if_neg h2, if_neg h5, if_neg h3, if_neg h6]

theorem getSigSize_ok_bound (code size : Nat) (h : getSigSize code = (size, none)) :
    code ∈ supportedSigTypes ∧ size ≤ 576 := by
  rcases getSigSize_result code with ⟨hm, s, hs, hle⟩ | ⟨_, he⟩
  · rw [hs] at h
    cases h
    exact ⟨hm, hle⟩
  · rw [he] at h
    cases h

theorem processTMD_short (TMD : List Byte) (h : TMD.length < 4) :
    processTMD TMD = .error .panic := by
  unfold processTMD
  rw [goSlice_panic TMD 0 4 (by omega)]

theorem processTMD_sig_error (TMD : List Byte) (e : GoError) (h4 : 4 ≤ TMD.length)
    (hsig : hexToInt (TMD.take 4) 10 32 = (0, some e)) :
    processTMD TMD = .error (.err e) := by
  unfold processTMD
  simp only [goSlice_take4 TMD h4, hsig]

theorem processTMD_size_error (TMD : List Byte) (code : Nat) (e : GoError)
    (h4 : 4 ≤ TMD.length) (hsig : hexToInt (TMD.take 4) 10 32 = (code, none))
    (hsize : getSigSize code = (0, some e)) :
    processTMD TMD = .error (.err e) := by
  unfold processTMD
  simp only [goSlice_take4 TMD h4, hsig, hsize]

theorem processTMD_no_count (TMD : List Byte) (code sigSize : Nat)
    (h4 : 4 ≤ TMD.length) (hsig : hexToInt (TMD.take 4) 10 32 = (code, none))
    (hsize : getSigSize code = (sigSize, none)) (hlen : TMD.length < 0x1E0) :
    processTMD TMD = .error .panic := by
  unfold processTMD getCOffsets
  simp only [goSlice_take4 TMD h4, hsig, hsize, goSlice_panic TMD 0x1DE 0x1E0 (by omega)]

theorem processTMD_count_err (TMD : List Byte) (code sigSize : Nat) (e : GoError)
    (hsig : hexToInt (TMD.take 4) 10 32 = (code, none))
    (hsize : getSigSize code = (sigSize, none)) (hlen : 0x1E0 ≤ TMD.length)
    (hcount : hexToInt ((TMD.drop 0x1DE).take 2) 10 4 = (0, some e)) :
    processTMD TMD = .error (.err e) := by
  have hs := goSlice_ok TMD 0x1DE 0x1E0 (by decide) hlen
  unfold processTMD getCOffsets
  simp only [goSlice_take4 TMD (by omega), hsig, hsize, hs, hcount]

theorem processTMD_count_zero (TMD : List Byte) (code sigSize : Nat)
    (hsig : hexToInt (TMD.take 4) 10 32 = (code, none))
    (hsize : getSigSize code = (sigSize, none)) (hlen : 0x1E0 ≤ TMD.length)
    (hcount : hexToInt ((TMD.drop 0x1DE).take 2) 10 4 = (0, none)) :
    processTMD TMD = .error .panic := by
  have hoffs := getCOffsets_of_count TMD 0 hlen hcount
  unfold processTMD
  simp only [goSlice_take4 TMD (by omega), hsig, hsize, hoffs]
  rfl

theorem processTMD_loop_total (TMD : List Byte) (offs : List Nat) :
    ∀ recs, (∀ off ∈ offs, off + 0x30 ≤ TMD.length) ∨
      processTMD_loop TMD offs recs = .error .panic := by
  induction offs with
  | nil => intro recs; exact Or.inl (fun off h => absurd h (List.not_mem_nil off))
  | cons off rest ih =>
    intro recs
    by_cases hoff : off + 0x30 ≤ TMD.length
    · have hs := goSlice_ok TMD off (off + 0x30) (by omega) hoff
      rw [Nat.add_sub_cancel_left] at hs
      obtain ⟨r, hr⟩ := binaryReadRec_ok ((TMD.drop off).take 0x30)
        (by rw [length_drop_take TMD off 0x30 hoff])
      rcases ih (recs ++ [r]) with hall | hp
      · left
        intro o ho
        rcases List.mem_cons.mp ho with rfl | ho
        · exact hoff
        · exact hall o ho
      · right
        rw [processTMD_loop]
        simp only [hs, hr]
        exact hp
    · right
      rw [processTMD_loop, goSlice_panic TMD off (off + 0x30) (by omega)]

theorem processTMD_truncated (TMD : List Byte) (code sigSize C : Nat)
    (hsig : hexToInt (TMD.take 4) 10 32 = (code, none))
    (hsize : getSigSize code = (sigSize, none)) (hlen : 0x1E0 ≤ TMD.length)
    (hcount : hexToInt ((TMD.drop 0x1DE).take 2) 10 4 = (C, none))
    (hshort : TMD.length < 0xB04 + 0x30 * C + 768) :
    processTMD TMD = .error .panic := by
  by_cases hC : C = 0
  · subst hC
    exact processTMD_count_zero TMD code sigSize hsig hsize hlen hcount
  have hoffs := getCOffsets_of_count TMD C hlen hcount
  obtain ⟨_, hle⟩ := getSigSize_ok_bound code sigSize hsize
  rcases processTMD_loop_total TMD ((List.range C).map (fun i => 0xB04 + 0x30 * i)) [] with
    hall | hp
  · obtain ⟨recs, hloop, _⟩ := processTMD_loop_ok TMD _ [] hall
    rw [List.nil_append] at hloop
    have hlast := hall (0xB04 + 0x30 * (C - 1)) (by
      rw [List.mem_map]
      exact ⟨C - 1, List.mem_range.mpr (by omega), rfl⟩)
    have hidx := goIndex_last_offset C (by omega)
    have hcert : 0xB04 + 0x30 * (C - 1) + 0x30 = 0xB04 + 0x30 * C := by omega
    have ht := goSlice_ok TMD (sigSize + 76) (sigSize + 84) (by omega) (by omega)
    have hh := goSlice_ok TMD 0 (0xB04 + 0x30 * C) (by omega) (by omega)
    have hc := goSlice_panic TMD (0xB04 + 0x30 * C) (0xB04 + 0x30 * C + 768) (by omega)
    unfold processTMD
    simp only [goSlice_take4 TMD (by omega), hsig, hsize, hoffs, hloop, hidx, hcert, ht, hh, hc]
  · unfold processTMD
    simp only [goSlice_take4 TMD (by omega), hsig, hsize, hoffs, hp]

/-! ## What a successful parse says about the buffer -/

theorem processTMD_inv (TMD : List Byte) (t : tmd) (h : processTMD TMD = .ok t) :
    ∃ code sigSize C recs,
      hexToInt (TMD.take 4) 10 32 = (code, none) ∧
      getSigSize code = (sigSize, none) ∧
      hexToInt ((TMD.drop 0x1DE).take 2) 10 4 = (C, none) ∧
      1 ≤ C ∧ 0xB04 + 0x30 * C + 768 ≤ TMD.length ∧
      t = { TitleID := (TMD.drop (sigSize + 76)).take 8
            HeaderChunk := TMD.take (0xB04 + 0x30 * C)
            contentChunkRecs := recs
            CertCP := (TMD.drop (0xB04 + 0x30 * C)).take 768 } ∧
      List.Forall₂ (fun off r => binaryReadRec ((TMD.drop off).take 0x30) = .ok r)
        ((List.range C).map (fun i => 0xB04 + 0x30 * i)) recs := by
  by_cases h4 : 4 ≤ TMD.length
  swap
  · rw [processTMD_short TMD (by omega)] at h; cases h
  rcases hexToInt_result (TMD.take 4) 10 32 with ⟨code, hsig⟩ | ⟨e, hsig⟩
  swap
  · rw [processTMD_sig_error TMD e h4 hsig] at h; cases h
  rcases getSigSize_result code with ⟨_, sigSize, hsize, hle⟩ | ⟨_, hsize⟩
  swap
  · rw [processTMD_size_error TMD code _ h4 hsig hsize] at h; cases h
  by_cases hlen : 0x1E0 ≤ TMD.length
  swap
  · rw [processTMD_no_count TMD code sigSize h4 hsig hsize (by omega)] at h; cases h
  rcases hexToInt_result ((TMD.drop 0x1DE).take 2) 10 4 with ⟨C, hcount⟩ | ⟨e, hcount⟩
  swap
  · rw [processTMD_count_err TMD code sigSize e hsig hsize hlen hcount] at h; cases h
  by_cases hfit : 0xB04 + 0x30 * C + 768 ≤ TMD.length
  swap
  · rw [processTMD_truncated TMD code sigSize C hsig hsize hlen hcount (by omega)] at h
    cases h
  by_cases hC : 1 ≤ C
  swap
  · have h0 : C = 0 := by omega
    subst h0
    rw [processTMD_count_zero TMD code sigSize hsig hsize hlen hcount] at h; cases h
  obtain ⟨recs, hok, hall⟩ := processTMD_ok TMD code sigSize C hsig hsize hcount hC hfit
    (by omega)
  rw [hok] at h
  cases h
  exact ⟨code, sigSize, C, recs, hsig, hsize, hcount, hC, hfit, rfl, hall⟩

theorem processTk_short (CETK : List Byte) (h : CETK.length < 4) :
    processTk CETK = .error .panic := by
  unfold processTk
  rw [goSlice_panic CETK 0 4 (by omega)]

theorem processTk_sig_error (CETK : List Byte) (e : GoError) (h4 : 4 ≤ CETK.length)
    (hsig : hexToInt (CETK.take 4) 10 32 = (0, some e)) :
    processTk CETK = .error (.err e) := by
  unfold processTk
  simp only [goSlice_take4 CETK h4, hsig]

theorem processTk_size_error (CETK : List Byte) (code : Nat) (e : GoError)
    (h4 : 4 ≤ CETK.length) (hsig : hexToInt (CETK.take 4) 10 32 = (code, none))
    (hsize : getSigSize code = (0, some e)) :
    processTk CETK = .error (.err e) := by
  unfold processTk
  simp only [goSlice_take4 CETK h4, hsig, hsize]

theorem processTk_truncated (CETK : List Byte) (code sigSize : Nat) (h4 : 4 ≤ CETK.length)
    (hsig : hexToInt (CETK.take 4) 10 32 = (code, none))
    (hsize : getSigSize code = (sigSize, none))
    (hshort : CETK.length < sigSize + 2320) :
    processTk CETK = .error .panic := by
  unfold processTk
  by_cases hx : sigSize + 1296 ≤ CETK.length
  · have h1 := goSlice_ok CETK (sigSize + 528) (sigSize + 1296) (by omega) hx
    simp only [goSlice_take4 CETK h4, hsig, hsize, h1,
      goSlice_panic CETK (sigSize + 1296) (sigSize + 2320) (by omega)]
  · simp only [goSlice_take4 CETK h4, hsig, hsize,
      goSlice_panic CETK (sigSize + 528) (sigSize + 1296) (by omega)]

theorem processTk_inv (CETK : List Byte) (k : tk) (h : processTk CETK = .ok k) :
    ∃ code sigSize,
      hexToInt (CETK.take 4) 10 32 = (code, none) ∧
      getSigSize code = (sigSize, none) ∧
      sigSize + 2320 ≤ CETK.length ∧
      k = { TitleID := ((CETK.take (sigSize + 528)).drop (sigSize + 156)).take 8
            HeaderChunk := CETK.take (sigSize + 528)
            CertCA := (CETK.drop (sigSize + 1296)).take 1024
            CertXS := (CETK.drop (sigSize + 528)).take 768 } := by
  by_cases h4 : 4 ≤ CETK.length
  swap
  · rw [processTk_short CETK (by omega)] at h; cases h
  rcases hexToInt_result (CETK.take 4) 10 32 with ⟨code, hsig⟩ | ⟨e, hsig⟩
  swap
  · rw [processTk_sig_error CETK e h4 hsig] at h; cases h
  rcases getSigSize_result code with ⟨_, sigSize, hsize, hle⟩ | ⟨_, hsize⟩
  swap
  · rw [processTk_size_error CETK code _ h4 hsig hsize] at h; cases h
  by_cases hfit : sigSize + 2320 ≤ CETK.length
  swap
  · rw [processTk_truncated CETK code sigSize h4 hsig hsize (by omega)] at h; cases h
  rw [processTk_ok CETK code sigSize hsig hsize hfit] at h
  cases h
  exact ⟨code, sigSize, hsig, hsize, hfit, rfl⟩

/-! ## Hex digits read as a decimal number -/

theorem nibbles_lt (dat : List Byte) : ∀ d ∈ nibbles dat, d < 16 := by
  induction dat with
  | nil => intro d hd; cases hd
  | cons b rest ih =>
    intro d hd
    have hb := b.isLt
    simp only [nibbles, List.mem_cons] at hd
    rcases hd with rfl | rfl | hd
    · omega
    · omega
    · exact ih d hd

theorem hexEncodeToString_eq_map (dat : List Byte) :
    hexEncodeToString dat = (nibbles dat).map (fun d => hextable.getD d '0') := by
  induction dat with
  | nil => rfl
  | cons b rest ih =>
    have h1 : b.val >>> 4 = b.val / 16 := by rw [Nat.shiftRight_eq_div_pow]
    have h2 : b.val &&& 0x0f = b.val % 16 := Nat.and_pow_two_sub_one_eq_mod b.val 4
    simp only [hexEncodeToString, nibbles, List.map_cons, ih, h1, h2]

theorem parseUintLoop_dec_inv (maxVal : Nat) (ds : List Nat) :
    (∀ d ∈ ds, d < 16) → ∀ n v,
      parseUintLoop 10 maxVal (ds.map (fun d => hextable.getD d '0')) n = (v, none) →
      (∀ d ∈ ds, d < 10) ∧ v = decAcc n ds ∧ (ds ≠ [] → v ≤ maxVal) := by
  induction ds with
  | nil =>
    intro _ n v h
    simp only [List.map_nil, parseUintLoop, Prod.mk.injEq, and_true] at h
    exact ⟨fun d hd => absurd hd (List.not_mem_nil d), h.symm, fun hne => absurd rfl hne⟩
  | cons d rest ih =>
    intro hlt n v h
    have hd16 : d < 16 := hlt d (List.mem_cons_self _ _)
    have hcut : maxUint64 / 10 + 1 = 1844674407370955162 := by decide
    have h64 : (2 : Nat) ^ 64 = 18446744073709551616 := by norm_num
    rw [List.map_cons, parseUintLoop] at h
    simp only [digitVal_hextable d hd16, hcut, h64] at h
    by_cases c1 : d ≥ 10
    · rw [if_pos c1] at h; cases h
    rw [if_neg c1] at h
    by_cases c2 : n ≥ 1844674407370955162
    · rw [if_pos c2] at h; cases h
    rw [if_neg c2] at h
    by_cases c3 : (n * 10 + d) % 18446744073709551616 < n * 10 ∨
        (n * 10 + d) % 18446744073709551616 > maxVal
    · rw [if_pos c3] at h; cases h
    rw [if_neg c3] at h
    have hn1 : (n * 10 + d) % 18446744073709551616 = n * 10 + d := by omega
    rw [hn1] at h c3
    obtain ⟨hall, hv, hmax⟩ := ih (fun x hx => hlt x (List.mem_cons_of_mem _ hx)) _ v h
    refine ⟨?_, ?_, ?_⟩
    · intro x hx
      rcases List.mem_cons.mp hx with rfl | hx
      · omega
      · exact hall x hx
    · rw [hv]; rfl
    · intro _
      by_cases hr : rest = []
      · subst hr
        have : v = n * 10 + d := hv
        omega
      · exact hmax hr

theorem hexToInt_dec_inv (dat : List Byte) (size v : Nat)
    (h : hexToInt dat 10 size = (v, none)) :
    (∀ d ∈ nibbles dat, d < 10) ∧ v = decReading dat ∧ v ≤ 2 ^ size - 1 := by
  unfold hexToInt at h
  have hp : strconvParseUint (hexEncodeToString dat) 10 size = (v, none) := by
    rcases hs : strconvParseUint (hexEncodeToString dat) 10 size with ⟨w, _ | e⟩
    · rw [hs] at h
      simp only [Prod.mk.injEq, and_true] at h
      rw [h]
    · rw [hs] at h; cases h
  unfold strconvParseUint at hp
  by_cases c0 : hexEncodeToString dat = []
  · rw [if_pos c0] at hp; cases hp
  rw [if_neg c0, if_neg (by decide)] at hp
  by_cases c2 : ¬ (1 ≤ size ∧ size ≤ 64)
  · rw [if_pos c2] at hp; cases hp
  rw [if_neg c2, hexEncodeToString_eq_map] at hp
  obtain ⟨hall, hv, hmax⟩ := parseUintLoop_dec_inv _ _ (nibbles_lt dat) 0 v hp
  refine ⟨hall, hv, hmax ?_⟩
  intro hn
  apply c0
  rw [hexEncodeToString_eq_map, hn]
  rfl

/-! ## Descriptor records -/

theorem bytesAt_sub (s : List Byte) (lo n a k : Nat) (h : a + k ≤ n) :
    bytesAt (bytesAt s lo n) a k = bytesAt s (lo + a) k := by
  unfold bytesAt
  rw [List.drop_take, List.take_take, List.drop_drop, Nat.min_eq_left (by omega)]

theorem bytesAt_add (s : List Byte) (lo a b : Nat) :
    bytesAt s lo (a + b) = bytesAt s lo a ++ bytesAt s (lo + a) b := by
  unfold bytesAt
  rw [List.take_add, List.drop_drop]

theorem goSlice_eq_bytesAt (s : List Byte) (lo k : Nat) (h : lo + k ≤ s.length) :
    goSlice s lo (lo + k) = .ok (bytesAt s lo k) := by
  rw [goSlice_ok s lo (lo + k) (by omega) h, Nat.add_sub_cancel_left]
  rfl

theorem binaryReadRec_fields (data : List Byte) (r : contentChunkRec)
    (h : binaryReadRec data = .ok r) :
    r.ContentID.val = bytesAt data 0 4 ∧ r.ContentIndex.val = bytesAt data 4 2 ∧
      r.ContentType.val = bytesAt data 6 2 ∧ r.ContentSize.val = bytesAt data 8 8 ∧
      r.SHA256Hash.val = bytesAt data 16 32 ∧ recBytes r = data.take 0x30 := by
  unfold binaryReadRec at h
  by_cases hl : 0x30 ≤ data.length
  · rw [dif_pos hl] at h
    cases h
    refine ⟨rfl, rfl, rfl, rfl, rfl, ?_⟩
    simp only [recBytes]
    have e1 : data.take 0x30 = data.take 16 ++ (data.drop 16).take 32 := List.take_add data 16 32
    have e2 : data.take 16 = data.take 8 ++ (data.drop 8).take 8 := List.take_add data 8 8
    have e3 : data.take 8 = data.take 6 ++ (data.drop 6).take 2 := List.take_add data 6 2
    have e4 : data.take 6 = data.take 4 ++ (data.drop 4).take 2 := List.take_add data 4 2
    rw [e1, e2, e3, e4]
  · rw [dif_neg hl] at h
    cases h

theorem recs_flatten (TMD : List Byte) (C : Nat) :
    ∀ (base : Nat) (recs : List contentChunkRec),
      List.Forall₂ (fun off r => binaryReadRec ((TMD.drop off).take 0x30) = .ok r)
        ((List.range C).map (fun i => base + 0x30 * i)) recs →
      (recs.map recBytes).flatten = bytesAt TMD base (0x30 * C) := by
  induction C with
  | zero =>
    intro base recs h
    cases h
    simp [bytesAt]
  | succ n ih =>
    intro base recs h
    rw [List.range_succ_eq_map, List.map_cons, List.map_map] at h
    cases h with
    | cons hr hrest =>
      rename_i r rest
      have hfun : ((fun i => base + 0x30 * i) ∘ Nat.succ) = fun i => (base + 0x30) + 0x30 * i := by
        funext i
        simp only [Function.comp, Nat.succ_eq_add_one]
        omega
      rw [hfun] at hrest
      have hb := (binaryReadRec_fields _ r hr).2.2.2.2.2
      rw [Nat.mul_zero, Nat.add_zero, List.take_take, Nat.min_self] at hb
      rw [List.map_cons, List.flatten_cons, ih (base + 0x30) rest hrest, hb,
        show 0x30 * (n + 1) = 0x30 + 0x30 * n from by omega, bytesAt_add]
      rfl

theorem recs_get (TMD : List Byte) (C : Nat) (recs : List contentChunkRec)
    (h : List.Forall₂ (fun off r => binaryReadRec ((TMD.drop off).take 0x30) = .ok r)
      ((List.range C).map (fun i => 0xB04 + 0x30 * i)) recs)
    (i : Nat) (hi : i < recs.length) :
    binaryReadRec (bytesAt TMD (0xB04 + 0x30 * i) 0x30) = .ok (recs.get ⟨i, hi⟩) := by
  have hlen := h.length_eq
  simp only [List.length_map, List.length_range] at hlen
  have hg := List.Forall₂.get h (i := i)
    (by simp only [List.length_map, List.length_range]; omega) hi
  simp only [List.get_eq_getElem, List.getElem_map, List.getElem_range] at hg
  exact hg

/-! ## Ranges of the parsed structures -/

theorem exampleTMD_parsed :
    ∃ t, processTMD (exampleTMD [0, 1, 0, 4] [0, 2] exampleRecs) = .ok t := by
  obtain ⟨recs, hok, _⟩ := processTMD_ok (exampleTMD [0, 1, 0, 4] [0, 2] exampleRecs)
    sigTypeRSA2048SHA256 320 2
    (by rw [exampleTMD_take_sig [0, 1, 0, 4] [0, 2] exampleRecs (by rfl)]; decide)
    (by decide)
    (by rw [exampleTMD_count [0, 1, 0, 4] [0, 2] exampleRecs 2 (by rfl) (by rfl)]; decide)
    (by decide)
    (by rw [exampleTMD_length [0, 1, 0, 4] [0, 2] exampleRecs (by rfl) (by decide),
      exampleRecs_length])
    (by rw [exampleTMD_length [0, 1, 0, 4] [0, 2] exampleRecs (by rfl) (by decide),
      exampleRecs_length]; decide)
  exact ⟨_, hok⟩

/-- C11: when `processTMD` succeeds, descriptor `i` of the result is decoded
from the `0x30` bytes of the buffer at `0xB04 + 0x30 * i`: `ContentID` is the
first 4 of them, `ContentIndex` the next 2, `ContentType` the next 2,
`ContentSize` the next 8 and `SHA256Hash` the last 32, copied verbatim; and the
fields of all `n` descriptors, concatenated in order, are the bytes
`0xB04 .. 0xB04 + 0x30 * n - 1` of the buffer. -/
theorem processTMD_descriptors (TMD : List Byte) (t : tmd) (h : processTMD TMD = .ok t) :
    (∀ (i : Nat) (hi : i < t.contentChunkRecs.length),
      0xB04 + 0x30 * (i + 1) ≤ TMD.length ∧
      binaryReadRec (bytesAt TMD (0xB04 + 0x30 * i) 0x30) =
        .ok (t.contentChunkRecs.get ⟨i, hi⟩) ∧
      (t.contentChunkRecs.get ⟨i, hi⟩).ContentID.val = bytesAt TMD (0xB04 + 0x30 * i) 4 ∧
      (t.contentChunkRecs.get ⟨i, hi⟩).ContentIndex.val =
        bytesAt TMD (0xB04 + 0x30 * i + 4) 2 ∧
      (t.contentChunkRecs.get ⟨i, hi⟩).ContentType.val =
        bytesAt TMD (0xB04 + 0x30 * i + 6) 2 ∧
      (t.contentChunkRecs.get ⟨i, hi⟩).ContentSize.val =
        bytesAt TMD (0xB04 + 0x30 * i + 8) 8 ∧
      (t.contentChunkRecs.get ⟨i, hi⟩).SHA256Hash.val =
        bytesAt TMD (0xB04 + 0x30 * i + 16) 32) ∧
    (t.contentChunkRecs.map recBytes).flatten =
      bytesAt TMD 0xB04 (0x30 * t.contentChunkRecs.length) := by
  obtain ⟨code, sigSize, C, recs, _, _, _, _, hfit, ht, hall⟩ := processTMD_inv TMD t h
  subst ht
  have hlen := hall.length_eq
  simp only [List.length_map, List.length_range] at hlen
  refine ⟨?_, ?_⟩
  · intro i hi
    have hi' : i < recs.length := hi
    have hr := recs_get TMD C recs hall i hi'
    obtain ⟨f1, f2, f3, f4, f5, _⟩ := binaryReadRec_fields _ _ hr
    rw [bytesAt_sub _ _ _ _ _ (by decide)] at f1 f2 f3 f4 f5
    exact ⟨by omega, hr, f1, f2, f3, f4, f5⟩
  · show (recs.map recBytes).flatten = bytesAt TMD 0xB04 (0x30 * recs.length)
    rw [← hlen]
    exact recs_flatten TMD C 0xB04 recs hall

/-- C11, witness: the example buffer with two descriptors. -/
theorem processTMD_descriptors_witness :
    ∃ t, processTMD (exampleTMD [0, 1, 0, 4] [0, 2] exampleRecs) = .ok t ∧
      (t.contentChunkRecs.map recBytes).flatten =
        bytesAt (exampleTMD [0, 1, 0, 4] [0, 2] exampleRecs) 0xB04
          (0x30 * t.contentChunkRecs.length) := by
  obtain ⟨t, ht⟩ := exampleTMD_parsed
  exact ⟨t, ht, (processTMD_descriptors _ t ht).2⟩

/-- C12: when `processTMD` succeeds with `n` descriptors, for the signature
size `s` that `getSigSize` returned for the buffer's code, `TitleID` is the 8
bytes `TMD[s+76 : s+84]`, `HeaderChunk` is `TMD[0 : certOffset]` with
`certOffset = 0xB04 + 0x30 * (n - 1) + 0x30`, and `CertCP` is the 768 bytes
`TMD[certOffset : certOffset + 768]`. -/
theorem processTMD_ranges (TMD : List Byte) (t : tmd) (h : processTMD TMD = .ok t) :
    ∃ code s, hexToInt (TMD.take 4) 10 32 = (code, none) ∧ getSigSize code = (s, none) ∧
      goSlice TMD (s + 76) (s + 84) = .ok t.TitleID ∧ t.TitleID.length = 8 ∧
      goSlice TMD 0 (0xB04 + 0x30 * (t.contentChunkRecs.length - 1) + 0x30) =
        .ok t.HeaderChunk ∧
      goSlice TMD (0xB04 + 0x30 * (t.contentChunkRecs.length - 1) + 0x30)
          (0xB04 + 0x30 * (t.contentChunkRecs.length - 1) + 0x30 + 768) = .ok t.CertCP ∧
      t.CertCP.length = 768 := by
  obtain ⟨code, sigSize, C, recs, hsig, hsize, _, hC, hfit, ht, hall⟩ := processTMD_inv TMD t h
  subst ht
  have hlen := hall.length_eq
  simp only [List.length_map, List.length_range] at hlen
  obtain ⟨_, hle⟩ := getSigSize_ok_bound code sigSize hsize
  have hcert : 0xB04 + 0x30 * (recs.length - 1) + 0x30 = 0xB04 + 0x30 * C := by omega
  refine ⟨code, sigSize, hsig, hsize, ?_, ?_, ?_, ?_, ?_⟩
  · exact goSlice_eq_bytesAt TMD (sigSize + 76) 8 (by omega)
  · exact length_drop_take TMD (sigSize + 76) 8 (by omega)
  · show goSlice TMD 0 (0xB04 + 0x30 * (recs.length - 1) + 0x30) = _
    rw [hcert, goSlice_ok TMD 0 _ (by omega) (by omega)]
    rfl
  · show goSlice TMD (0xB04 + 0x30 * (recs.length - 1) + 0x30) _ = _
    rw [hcert]
    exact goSlice_eq_bytesAt TMD (0xB04 + 0x30 * C) 768 hfit
  · exact length_drop_take TMD (0xB04 + 0x30 * C) 768 hfit

/-- C12, witness: the example buffer with two descriptors. -/
theorem processTMD_ranges_witness :
    ∃ t, processTMD (exampleTMD [0, 1, 0, 4] [0, 2] exampleRecs) = .ok t ∧
      t.TitleID.length = 8 ∧ t.CertCP.length = 768 := by
  obtain ⟨t, ht⟩ := exampleTMD_parsed
  obtain ⟨_, _, _, _, _, h8, _, _, h768⟩ := processTMD_ranges _ t ht
  exact ⟨t, ht, h8, h768⟩

/-- C13: when `processTk` succeeds, for the signature size `s` that
`getSigSize` returned for the buffer's code, `HeaderChunk` is `CETK[0 : s+528]`,
`CertXS` is the 768 bytes `CETK[s+528 : s+1296]`, `CertCA` is the 1024 bytes
`CETK[s+1296 : s+2320]`, and `TitleID` is the 8 bytes `CETK[s+156 : s+164]`,
taken from inside the header range. -/
theorem processTk_ranges (CETK : List Byte) (k : tk) (h : processTk CETK = .ok k) :
    ∃ code s, hexToInt (CETK.take 4) 10 32 = (code, none) ∧ getSigSize code = (s, none) ∧
      goSlice CETK 0 (s + 528) = .ok k.HeaderChunk ∧ k.HeaderChunk.length = s + 528 ∧
      goSlice CETK (s + 528) (s + 1296) = .ok k.CertXS ∧ k.CertXS.length = 768 ∧
      goSlice CETK (s + 1296) (s + 2320) = .ok k.CertCA ∧ k.CertCA.length = 1024 ∧
      goSlice CETK (s + 156) (s + 164) = .ok k.TitleID ∧ k.TitleID.length = 8 ∧
      goSlice k.HeaderChunk (s + 156) (s + 164) = .ok k.TitleID ∧
      s + 164 ≤ s + 528 := by
  obtain ⟨code, s, hsig, hsize, hfit, hk⟩ := processTk_inv CETK k h
  subst hk
  have hh : (CETK.take (s + 528)).length = s + 528 := by
    rw [List.length_take]; omega
  have ht : ((CETK.take (s + 528)).drop (s + 156)).take 8 = bytesAt CETK (s + 156) 8 := by
    unfold bytesAt
    rw [List.drop_take, List.take_take, Nat.min_eq_left (by omega)]
  refine ⟨code, s, hsig, hsize, ?_, hh, ?_, ?_, ?_, ?_, ?_, ?_, ?_, by omega⟩
  · rw [goSlice_ok CETK 0 (s + 528) (by omega) (by omega)]; rfl
  · exact goSlice_eq_bytesAt CETK (s + 528) 768 (by omega)
  · exact length_drop_take CETK (s + 528) 768 (by omega)
  · exact goSlice_eq_bytesAt CETK (s + 1296) 1024 (by omega)
  · exact length_drop_take CETK (s + 1296) 1024 (by omega)
  · show goSlice CETK (s + 156) (s + 164) = .ok (((CETK.take (s + 528)).drop (s + 156)).take 8)
    rw [ht]
    exact goSlice_eq_bytesAt CETK (s + 156) 8 (by omega)
  · show (((CETK.take (s + 528)).drop (s + 156)).take 8).length = 8
    rw [ht]
    exact length_drop_take CETK (s + 156) 8 (by omega)
  · exact goSlice_eq_bytesAt (CETK.take (s + 528)) (s + 156) 8 (by omega)

/-- C13, witness: the example ticket buffer. -/
theorem processTk_ranges_witness :
    ∃ k, processTk exampleCETK = .ok k ∧ k.HeaderChunk.length = 320 + 528 ∧
      k.CertXS.length = 768 ∧ k.CertCA.length = 1024 ∧ k.TitleID.length = 8 := by
  obtain ⟨k, hk⟩ := exampleCETK_parsed
  obtain ⟨code, s, hsig, hsize, _, hh, _, hx, _, ha, _, ht, _⟩ := processTk_ranges _ k hk
  have hc : hexToInt (exampleCETK.take 4) 10 32 = (sigTypeRSA2048SHA256, none) := by decide
  rw [hc] at hsig
  cases hsig
  have hs : getSigSize sigTypeRSA2048SHA256 = (320, none) := by decide
  rw [hs] at hsize
  cases hsize
  exact ⟨k, hk, hh, hx, ha, ht⟩

/-! ## Header sizes -/

/-- C14 (amended): `genCiaHDR` always returns a header with `HdrSize = 0x2020`,
`Type = 0`, `Ver = 0`, `MetaSize = 0`, and with `CertSize`, `TikSize` and
`TmdSize` the values of `len(CertCA) + len(CertXS) + len(CertCP)`,
`len(tk.HeaderChunk)` and `len(tmd.HeaderChunk)` converted to `uint32`, that
is modulo `2 ^ 32` (the lengths themselves when they are below `2 ^ 32`); for
values produced by `processTk` with signature size `s` and by `processTMD`
with `n` descriptors this is 2560, `s + 528` and `0xB04 + 0x30 * n`. -/
theorem genCiaHDR_sizes (TMD : tmd) (CETK : tk) :
    ∃ hdr, genCiaHDR TMD CETK = .ok hdr ∧
      hdr.HdrSize = 0x2020 ∧ hdr.Type_ = 0 ∧ hdr.Ver = 0 ∧ hdr.MetaSize = 0 ∧
      hdr.CertSize = (CETK.CertCA.length + CETK.CertXS.length + TMD.CertCP.length) % 2 ^ 32 ∧
      hdr.TikSize = CETK.HeaderChunk.length % 2 ^ 32 ∧
      hdr.TmdSize = TMD.HeaderChunk.length % 2 ^ 32 ∧
      (CETK.CertCA.length + CETK.CertXS.length + TMD.CertCP.length < 2 ^ 32 →
        hdr.CertSize = CETK.CertCA.length + CETK.CertXS.length + TMD.CertCP.length) ∧
      (CETK.HeaderChunk.length < 2 ^ 32 → hdr.TikSize = CETK.HeaderChunk.length) ∧
      (TMD.HeaderChunk.length < 2 ^ 32 → hdr.TmdSize = TMD.HeaderChunk.length) ∧
      (∀ tmdBuf cetkBuf, processTMD tmdBuf = .ok TMD → processTk cetkBuf = .ok CETK →
        ∃ code s, hexToInt (cetkBuf.take 4) 10 32 = (code, none) ∧
          getSigSize code = (s, none) ∧
          hdr.CertSize = 2560 ∧ hdr.TikSize = s + 528 ∧
          hdr.TmdSize = 0xB04 + 0x30 * TMD.contentChunkRecs.length) := by
  obtain ⟨bitmap, _, hhdr⟩ := genCiaHDR_eq TMD CETK
  refine ⟨_, hhdr, rfl, rfl, rfl, rfl, rfl, rfl, rfl, fun h => Nat.mod_eq_of_lt h,
    fun h => Nat.mod_eq_of_lt h, fun h => Nat.mod_eq_of_lt h, ?_⟩
  intro tmdBuf cetkBuf ht hk
  obtain ⟨_, _, C, recs, _, _, hcount, hC, hfit, hT, hall⟩ := processTMD_inv tmdBuf TMD ht
  obtain ⟨code, s, hsig, hsize, hkfit, hK⟩ := processTk_inv cetkBuf CETK hk
  obtain ⟨_, hle⟩ := getSigSize_ok_bound code s hsize
  obtain ⟨_, _, hC15⟩ := hexToInt_dec_inv _ 4 C hcount
  have hlen := hall.length_eq
  simp only [List.length_map, List.length_range] at hlen
  have l1 : CETK.CertCA.length = 1024 := by
    rw [hK]; exact length_drop_take cetkBuf (s + 1296) 1024 (by omega)
  have l2 : CETK.CertXS.length = 768 := by
    rw [hK]; exact length_drop_take cetkBuf (s + 528) 768 (by omega)
  have l3 : TMD.CertCP.length = 768 := by
    rw [hT]; exact length_drop_take tmdBuf (0xB04 + 0x30 * C) 768 hfit
  have l4 : CETK.HeaderChunk.length = s + 528 := by
    rw [hK]; simp only [List.length_take]; omega
  have l5 : TMD.HeaderChunk.length = 0xB04 + 0x30 * C := by
    rw [hT]; simp only [List.length_take]; omega
  have l6 : TMD.contentChunkRecs.length = C := by
    rw [hT]; exact hlen.symm
  have p32 : (2 : Nat) ^ 32 = 4294967296 := by norm_num
  have p4 : (2 : Nat) ^ 4 - 1 = 15 := by norm_num
  rw [p4] at hC15
  refine ⟨code, s, hsig, hsize, ?_, ?_, ?_⟩
  · show (CETK.CertCA.length + CETK.CertXS.length + TMD.CertCP.length) % 2 ^ 32 = 2560
    rw [l1, l2, l3]
    norm_num
  · show CETK.HeaderChunk.length % 2 ^ 32 = s + 528
    rw [l4, p32]; omega
  · show TMD.HeaderChunk.length % 2 ^ 32 = 0xB04 + 0x30 * TMD.contentChunkRecs.length
    rw [l5, l6, p32]; omega

/-- C14, witness: the example ticket and metadata values. -/
theorem genCiaHDR_sizes_witness :
    ∃ hdr, genCiaHDR exampleTmdVal exampleTkVal = .ok hdr ∧ hdr.HdrSize = 0x2020 ∧
      hdr.CertSize = 2560 ∧ hdr.TikSize = 848 ∧ hdr.TmdSize = 2916 := by
  obtain ⟨hdr, hh, h1, _, _, _, _, _, _, hc, htk, htm, _⟩ :=
    genCiaHDR_sizes exampleTmdVal exampleTkVal
  refine ⟨hdr, hh, h1, ?_, ?_, ?_⟩
  · rw [hc (by
      simp only [exampleTkVal, exampleTmdVal, List.length_replicate]; norm_num)]
    simp only [exampleTkVal, exampleTmdVal, List.length_replicate]
  · rw [htk (by simp only [exampleTkVal, List.length_replicate]; norm_num)]
    simp only [exampleTkVal, List.length_replicate]
  · rw [htm (by simp only [exampleTmdVal, List.length_replicate]; norm_num)]
    simp only [exampleTmdVal, List.length_replicate]

theorem genCiaHDR_TikSize (TMD : tmd) (CETK : tk) (hdr : ciaHdr)
    (h : genCiaHDR TMD CETK = .ok hdr) : hdr.TikSize = CETK.HeaderChunk.length % 2 ^ 32 := by
  obtain ⟨bitmap, _, hhdr⟩ := genCiaHDR_eq TMD CETK
  rw [hhdr] at h
  cases h
  rfl

theorem hugeTk_length : hugeTk.HeaderChunk.length = 2 ^ 32 :=
  List.length_replicate _ _

/-- C14, counterexample: for a ticket value whose header range has `2 ^ 32`
bytes, `TikSize` is 0 and not the length of the header range. -/
theorem genCiaHDR_tikSize_counterexample :
    ∃ hdr, genCiaHDR exampleTmdVal hugeTk = .ok hdr ∧ hdr.TikSize = 0 ∧
      hugeTk.HeaderChunk.length = 2 ^ 32 ∧ hdr.TikSize ≠ hugeTk.HeaderChunk.length := by
  obtain ⟨hdr, hh⟩ : ∃ hdr, genCiaHDR exampleTmdVal hugeTk = .ok hdr := by
    obtain ⟨_, _, h⟩ := genCiaHDR_eq exampleTmdVal hugeTk
    exact ⟨_, h⟩
  have ht := genCiaHDR_TikSize exampleTmdVal hugeTk hdr hh
  rw [hugeTk_length, Nat.mod_self] at ht
  refine ⟨hdr, hh, ht, hugeTk_length, ?_⟩
  rw [ht, hugeTk_length]
  norm_num

/-! ## Truncated input and unknown signature types -/

theorem shortCETK_length : shortCETK.length = 2004 := by
  simp only [shortCETK, List.length_append, List.length_replicate, List.length_cons,
    List.length_nil]

theorem shortTMD_length : shortTMD.length = 0x1E0 + 100 := by
  simp only [shortTMD, List.length_append, List.length_replicate, List.length_cons,
    List.length_nil]

theorem shortTMD_sig : hexToInt (shortTMD.take 4) 10 32 = (sigTypeRSA2048SHA256, none) := by
  have : shortTMD.take 4 = [0, 1, 0, 4] := by
    unfold shortTMD
    rw [List.append_assoc]
    exact List.take_left' (by rfl)
  rw [this]
  decide

theorem shortTMD_count : hexToInt ((shortTMD.drop 0x1DE).take 2) 10 4 = (2, none) := by
  have : (shortTMD.drop 0x1DE).take 2 = [0, 2] := by
    unfold shortTMD
    rw [List.drop_left' (by
      simp only [List.length_append, List.length_replicate, List.length_cons,
        List.length_nil])]
    exact List.take_left' (by rfl)
  rw [this]
  decide

/-- C16: for every code outside the six supported ones, `getSigSize` returns
size 0 with the error "Bad Signature Type", and `processTMD` and `processTk`
on a buffer whose first four bytes read as that code return that error and no
parsed structure. -/
theorem getSigSize_rejects_other_codes (code : Nat) (h : code ∉ supportedSigTypes) :
    getSigSize code = (0, some .badSignatureType) ∧
    (∀ TMD : List Byte, 4 ≤ TMD.length → hexToInt (TMD.take 4) 10 32 = (code, none) →
      processTMD TMD = .error (.err .badSignatureType)) ∧
    (∀ CETK : List Byte, 4 ≤ CETK.length → hexToInt (CETK.take 4) 10 32 = (code, none) →
      processTk CETK = .error (.err .badSignatureType)) := by
  have hs : getSigSize code = (0, some .badSignatureType) := by
    rcases getSigSize_result code with ⟨hm, _⟩ | ⟨_, he⟩
    · exact absurd hm h
    · exact he
  exact ⟨hs, fun TMD h4 hsig => processTMD_size_error TMD code _ h4 hsig hs,
    fun CETK h4 hsig => processTk_size_error CETK code _ h4 hsig hs⟩

/-- C16, witness: the code 10006, read from the bytes `00 01 00 06`. -/
theorem getSigSize_rejects_other_codes_witness :
    10006 ∉ supportedSigTypes ∧ getSigSize 10006 = (0, some .badSignatureType) ∧
      processTMD [0, 1, 0, 6] = .error (.err .badSignatureType) ∧
      processTk [0, 1, 0, 6] = .error (.err .badSignatureType) :=
  ⟨by decide, (getSigSize_rejects_other_codes 10006 (by decide)).1,
    (getSigSize_rejects_other_codes 10006 (by decide)).2.1 [0, 1, 0, 6] (by decide) (by decide),
    (getSigSize_rejects_other_codes 10006 (by decide)).2.2 [0, 1, 0, 6] (by decide) (by decide)⟩

/-! ## Resolving the signature type -/

theorem list_length_four (l : List Byte) (h : l.length = 4) :
    ∃ b0 b1 b2 b3, l = [b0, b1, b2, b3] := by
  match l, h with
  | [b0, b1, b2, b3], _ => exact ⟨b0, b1, b2, b3, rfl⟩

theorem list_length_two (l : List Byte) (h : l.length = 2) : ∃ b0 b1, l = [b0, b1] := by
  match l, h with
  | [b0, b1], _ => exact ⟨b0, b1, rfl⟩

theorem decReading_four (b0 b1 b2 b3 : Byte) :
    decReading [b0, b1, b2, b3] =
      ((((((b0.val / 16 * 10 + b0.val % 16) * 10 + b1.val / 16) * 10 + b1.val % 16) * 10 +
        b2.val / 16) * 10 + b2.val % 16) * 10 + b3.val / 16) * 10 + b3.val % 16 := by
  simp only [decReading, nibbles, decAcc, List.foldl_cons, List.foldl_nil, Nat.zero_mul,
    Nat.zero_add]

theorem decReading_two (b0 b1 : Byte) :
    decReading [b0, b1] =
      ((b0.val / 16 * 10 + b0.val % 16) * 10 + b1.val / 16) * 10 + b1.val % 16 := by
  simp only [decReading, nibbles, decAcc, List.foldl_cons, List.foldl_nil, Nat.zero_mul,
    Nat.zero_add]

theorem supportedSigTypes_range (code : Nat) (h : code ∈ supportedSigTypes) :
    10000 ≤ code ∧ code ≤ 10005 := by
  simp only [supportedSigTypes, List.mem_cons, List.mem_singleton, List.not_mem_nil,
    or_false, sigTypeRSA4096SHA1, sigTypeRSA2048SHA1, sigTypeECDSASHA1, sigTypeRSA4096SHA256,
    sigTypeRSA2048SHA256, sigTypeECDSASHA256] at h
  omega

theorem supportedSigTypes_of_range (code : Nat) (h1 : 10000 ≤ code) (h2 : code ≤ 10005) :
    code ∈ supportedSigTypes := by
  simp only [supportedSigTypes, List.mem_cons, List.mem_singleton, List.not_mem_nil,
    or_false, sigTypeRSA4096SHA1, sigTypeRSA2048SHA1, sigTypeECDSASHA1, sigTypeRSA4096SHA256,
    sigTypeRSA2048SHA256, sigTypeECDSASHA256]
  omega

theorem sig_resolution_iff (sig : List Byte) (hl : sig.length = 4) :
    (∃ code size, hexToInt sig 10 32 = (code, none) ∧ getSigSize code = (size, none)) ↔
      ∃ k : Byte, k.val ≤ 5 ∧ sig = [0, 1, 0, k] := by
  constructor
  · rintro ⟨code, size, hsig, hsize⟩
    obtain ⟨hm, _⟩ := getSigSize_ok_bound code size hsize
    obtain ⟨hlo, hhi⟩ := supportedSigTypes_range code hm
    obtain ⟨hall, hv, _⟩ := hexToInt_dec_inv sig 32 code hsig
    obtain ⟨b0, b1, b2, b3, rfl⟩ := list_length_four sig hl
    rw [decReading_four] at hv
    simp only [nibbles, List.mem_cons, List.not_mem_nil, or_false, forall_eq_or_imp,
      forall_eq] at hall
    obtain ⟨d1, d2, d3, d4, d5, d6, d7, d8⟩ := hall
    have h0 := b0.isLt
    have h1 := b1.isLt
    have h2 := b2.isLt
    have h3 := b3.isLt
    have e0 : b0 = 0 := Fin.ext (by simp only [Fin.val_zero]; omega)
    have e1 : b1 = 1 := Fin.ext (by simp only [Fin.val_one]; omega)
    have e2 : b2 = 0 := Fin.ext (by simp only [Fin.val_zero]; omega)
    exact ⟨b3, by omega, by rw [e0, e1, e2]⟩
  · rintro ⟨k, hk, rfl⟩
    refine ⟨10000 + k.val, _, hexToInt_sig k hk,
      (getSigSize_supported _ (supportedSigTypes_of_range _ (by omega) (by omega))).choose_spec.1⟩

/-- C17: for every buffer of at least 4 bytes, reading the signature type
(`hexToInt(buf[0:4], 10, 32)`, then `getSigSize`) succeeds exactly when the
first four bytes are `00 01 00 k` with `k ≤ 5`.  The code is the decimal
reading of the 8 hex digits of those bytes, so a hex digit `a .. f` makes
`hexToInt` fail, and for every other prefix `processTMD` and `processTk` both
return an error. -/
theorem signature_resolution (buf : List Byte) (h4 : 4 ≤ buf.length) :
    ((∃ code size, hexToInt (buf.take 4) 10 32 = (code, none) ∧
        getSigSize code = (size, none)) ↔
      ∃ k : Byte, k.val ≤ 5 ∧ buf.take 4 = [0, 1, 0, k]) ∧
    (∀ code, hexToInt (buf.take 4) 10 32 = (code, none) →
      code = decReading (buf.take 4) ∧ ∀ d ∈ nibbles (buf.take 4), d < 10) ∧
    ((∃ d ∈ nibbles (buf.take 4), 10 ≤ d) → ∃ e, hexToInt (buf.take 4) 10 32 = (0, some e)) ∧
    ((¬ ∃ k : Byte, k.val ≤ 5 ∧ buf.take 4 = [0, 1, 0, k]) →
      ∃ e, processTMD buf = .error (.err e) ∧ processTk buf = .error (.err e)) := by
  have hl : (buf.take 4).length = 4 := by rw [List.length_take]; omega
  have hiff := sig_resolution_iff (buf.take 4) hl
  refine ⟨hiff, ?_, ?_, ?_⟩
  · intro code hsig
    obtain ⟨hall, hv, _⟩ := hexToInt_dec_inv _ 32 code hsig
    exact ⟨hv, hall⟩
  · rintro ⟨d, hd, hd10⟩
    rcases hexToInt_result (buf.take 4) 10 32 with ⟨v, hv⟩ | he
    · obtain ⟨hall, _, _⟩ := hexToInt_dec_inv _ 32 v hv
      have := hall d hd
      omega
    · exact he
  · intro hnot
    rcases hexToInt_result (buf.take 4) 10 32 with ⟨code, hsig⟩ | ⟨e, hsig⟩
    · rcases getSigSize_result code with ⟨_, size, hsize, _⟩ | ⟨_, hsize⟩
      · exact absurd (hiff.mp ⟨code, size, hsig, hsize⟩) hnot
      · exact ⟨_, processTMD_size_error buf code _ h4 hsig hsize,
          processTk_size_error buf code _ h4 hsig hsize⟩
    · exact ⟨e, processTMD_sig_error buf e h4 hsig, processTk_sig_error buf e h4 hsig⟩

/-- C17, witness: the four bytes `00 01 00 04` resolve, `00 01 00 0a` do not. -/
theorem signature_resolution_witness :
    (∃ code size, hexToInt [0, 1, 0, 4] 10 32 = (code, none) ∧
      getSigSize code = (size, none)) ∧
    ∃ e, processTMD [0, 1, 0, 0x0a] = .error (.err e) ∧
      processTk [0, 1, 0, 0x0a] = .error (.err e) :=
  ⟨((signature_resolution [0, 1, 0, 4] (by decide)).1).mpr ⟨4, by decide, by decide⟩,
    (signature_resolution [0, 1, 0, 0x0a] (by decide)).2.2.2 (by
      rintro ⟨k, hk, he⟩
      have : (0x0a : Byte) = k := by
        simpa using he
      rw [← this] at hk
      exact absurd hk (by decide))⟩

/-! ## The count field -/

theorem count_field_of_ok (field : List Byte) (hl : field.length = 2) (C : Nat)
    (h : hexToInt field 10 4 = (C, none)) :
    C ≤ 15 ∧ C = decReading field ∧ (∀ d ∈ nibbles field, d < 10) ∧
      ∃ b : Byte, field = [0, b] ∧
        (C = 0 ∧ b.val = 0 ∨ 1 ≤ b.val ∧ b.val ≤ 9 ∨ 0x10 ≤ b.val ∧ b.val ≤ 0x15) := by
  obtain ⟨hall, hv, hmax⟩ := hexToInt_dec_inv field 4 C h
  have p4 : (2 : Nat) ^ 4 - 1 = 15 := by norm_num
  rw [p4] at hmax
  refine ⟨hmax, hv, hall, ?_⟩
  obtain ⟨b0, b1, rfl⟩ := list_length_two field hl
  rw [decReading_two] at hv
  simp only [nibbles, List.mem_cons, List.not_mem_nil, or_false, forall_eq_or_imp,
    forall_eq] at hall
  obtain ⟨d1, d2, d3, d4⟩ := hall
  have h0 := b0.isLt
  have h1 := b1.isLt
  have e0 : b0 = 0 := Fin.ext (by simp only [Fin.val_zero]; omega)
  exact ⟨b1, by rw [e0], by omega⟩

theorem count_field_bad (field : List Byte)
    (h : (∃ d ∈ nibbles field, 10 ≤ d) ∨ 15 < decReading field) :
    ∃ e, hexToInt field 10 4 = (0, some e) := by
  rcases hexToInt_result field 10 4 with ⟨v, hv⟩ | he
  · obtain ⟨hall, hr, hmax⟩ := hexToInt_dec_inv field 4 v hv
    have p4 : (2 : Nat) ^ 4 - 1 = 15 := by norm_num
    rw [p4] at hmax
    rcases h with ⟨d, hd, hd10⟩ | hbig
    · have := hall d hd
      omega
    · omega
  · exact he

theorem processTMD_error_of_count (TMD : List Byte) (e : GoError) (hlen : 0x1E0 ≤ TMD.length)
    (hcount : hexToInt ((TMD.drop 0x1DE).take 2) 10 4 = (0, some e)) :
    ∃ e', processTMD TMD = .error (.err e') := by
  rcases hexToInt_result (TMD.take 4) 10 32 with ⟨code, hsig⟩ | ⟨e1, hsig⟩
  · rcases getSigSize_result code with ⟨_, s, hsize, _⟩ | ⟨_, hsize⟩
    · exact ⟨e, processTMD_count_err TMD code s e hsig hsize hlen hcount⟩
    · exact ⟨_, processTMD_size_error TMD code _ (by omega) hsig hsize⟩
  · exact ⟨e1, processTMD_sig_error TMD e1 (by omega) hsig⟩

/-- C18: when `processTMD` succeeds, the number `n` of descriptors is between
1 and 15 and is the decimal reading of the four hex digits of the two bytes at
`0x1DE` and `0x1DF`, which are `00` followed by `01 .. 09` or `10 .. 15`.  A
count field reading 0 gives no result: once the signature type is resolved,
`processTMD` panics.  A count field with a hex digit `a .. f` or a reading
above 15 makes `processTMD` return an error. -/
theorem processTMD_count_field :
    (∀ (TMD : List Byte) (t : tmd), processTMD TMD = .ok t →
      1 ≤ t.contentChunkRecs.length ∧ t.contentChunkRecs.length ≤ 15 ∧
      t.contentChunkRecs.length = decReading (bytesAt TMD 0x1DE 2) ∧
      (∀ d ∈ nibbles (bytesAt TMD 0x1DE 2), d < 10) ∧
      ∃ b : Byte, bytesAt TMD 0x1DE 2 = [0, b] ∧
        (1 ≤ b.val ∧ b.val ≤ 9 ∨ 0x10 ≤ b.val ∧ b.val ≤ 0x15)) ∧
    (∀ TMD : List Byte, 0x1E0 ≤ TMD.length → bytesAt TMD 0x1DE 2 = [0, 0] →
      (∀ t, processTMD TMD ≠ .ok t) ∧
      ∀ code s, hexToInt (TMD.take 4) 10 32 = (code, none) → getSigSize code = (s, none) →
        processTMD TMD = .error .panic) ∧
    (∀ TMD : List Byte, 0x1E0 ≤ TMD.length →
      ((∃ d ∈ nibbles (bytesAt TMD 0x1DE 2), 10 ≤ d) ∨ 15 < decReading (bytesAt TMD 0x1DE 2)) →
      ∃ e, processTMD TMD = .error (.err e)) := by
  have h00 : hexToInt [0, 0] 10 4 = (0, none) := by decide
  refine ⟨?_, ?_, ?_⟩
  · intro TMD t h
    obtain ⟨code, sigSize, C, recs, _, _, hcount, hC, hfit, ht, hall⟩ := processTMD_inv TMD t h
    subst ht
    have hlen := hall.length_eq
    simp only [List.length_map, List.length_range] at hlen
    have hl2 : (bytesAt TMD 0x1DE 2).length = 2 := length_drop_take TMD 0x1DE 2 (by omega)
    obtain ⟨h15, hr, hdig, b, hb, hcases⟩ := count_field_of_ok _ hl2 C hcount
    have hn : recs.length = C := hlen.symm
    refine ⟨?_, ?_, ?_, hdig, b, hb, ?_⟩
    · show 1 ≤ recs.length
      omega
    · show recs.length ≤ 15
      omega
    · show recs.length = _
      rw [hn]; exact hr
    · rcases hcases with ⟨h0, _⟩ | h | h
      · omega
      · exact Or.inl h
      · exact Or.inr h
  · intro TMD hlen hf
    have hf' : (TMD.drop 0x1DE).take 2 = [0, 0] := hf
    refine ⟨?_, ?_⟩
    · intro t h
      obtain ⟨_, _, C, _, _, _, hcount, hC, _⟩ := processTMD_inv TMD t h
      rw [hf', h00] at hcount
      cases hcount
      omega
    · intro code s hsig hsize
      exact processTMD_count_zero TMD code s hsig hsize hlen (by rw [hf', h00])
  · intro TMD hlen hbad
    obtain ⟨e, he⟩ := count_field_bad _ hbad
    exact processTMD_error_of_count TMD e hlen he

/-- C18, witness: the example buffer with count bytes `00 02` has two
descriptors, and with count bytes `00 0a` `processTMD` returns an error. -/
theorem processTMD_count_field_witness :
    (∃ t, processTMD (exampleTMD [0, 1, 0, 4] [0, 2] exampleRecs) = .ok t ∧
      1 ≤ t.contentChunkRecs.length ∧ t.contentChunkRecs.length ≤ 15) ∧
    ∃ e, processTMD (exampleTMD [0, 1, 0, 4] [0, 0x0a] exampleRecs) = .error (.err e) := by
  obtain ⟨t, ht⟩ := exampleTMD_parsed
  refine ⟨⟨t, ht, (processTMD_count_field.1 _ t ht).1, (processTMD_count_field.1 _ t ht).2.1⟩,
    processTMD_count_field.2.2 _ ?_ ?_⟩
  · rw [exampleTMD_length [0, 1, 0, 4] [0, 0x0a] exampleRecs (by rfl) (by decide)]
    omega
  · left
    have hf : bytesAt (exampleTMD [0, 1, 0, 4] [0, 0x0a] exampleRecs) 0x1DE 2 = [0, 0x0a] :=
      exampleTMD_count [0, 1, 0, 4] [0, 0x0a] exampleRecs 2 (by rfl) (by rfl)
    rw [hf]
    exact ⟨10, by decide, by decide⟩

/-- C19: `genCiaHDR` returns a header with a nil error for every `tmd` and
`tk` value: `hexToInt` on any 8-byte field in base 16 with bit size 64, and on
any 2-byte field in base 16 with bit size 16, returns the field's big-endian
value without error, and for a 2-byte field `index >> 3` is below 8192. -/
theorem genCiaHDR_total (TMD : tmd) (CETK : tk) :
    (∃ hdr, genCiaHDR TMD CETK = .ok hdr) ∧
    (∀ f : ByteArr 8, hexToInt f.val 16 64 = (beVal f.val, none)) ∧
    (∀ f : ByteArr 2, hexToInt f.val 16 16 = (beVal f.val, none) ∧
      beVal f.val >>> 3 < 8192) := by
  obtain ⟨_, _, hhdr⟩ := genCiaHDR_eq TMD CETK
  refine ⟨⟨_, hhdr⟩, ?_, ?_⟩
  · intro f
    have hl := f.property
    apply hexToInt_hex _ 64 _ (by decide) (by decide)
    · rw [hl]; norm_num
    · intro h; rw [h] at hl; simp at hl
  · intro f
    have hl := f.property
    have hlt := beVal_lt f.val
    rw [hl] at hlt
    refine ⟨?_, ?_⟩
    · apply hexToInt_hex _ 16 _ (by decide) (by decide)
      · rw [hl]; norm_num
      · intro h; rw [h] at hl; simp at hl
    · rw [Nat.shiftRight_eq_div_pow]
      omega

/-! ## Section offsets -/

theorem padded_mod (n : Nat) : padded n % 64 = 0 := by
  unfold padded
  omega

theorem section_length (s : List Byte) :
    (s ++ getPadding (s.length : Int)).length = padded s.length := by
  rw [List.length_append, padded_eq]

/-- C20: when the output file can be created, what `genCia` writes is the
header with its padding (`0x2040` bytes), the certificate block with its
padding, the ticket header with its padding, the metadata header with its
padding, and then the payload bytes; so the certificate block starts at offset
`0x2040`, the ticket header at `0x2040 + padded(certificates)`, the metadata
header `padded(ticket header)` later and the first payload
`padded(metadata header)` later, and each of these offsets is a multiple of 64. -/
theorem genCia_section_offsets (fs : FS) (CETK : tk) (TMD : tmd) (cdnDir dir file : List Char)
    (hcreate : fs.create (ciaPath dir file) = true) :
    ∃ hdr more, genCiaHDR TMD CETK = .ok hdr ∧
      (genCia fs CETK TMD cdnDir dir file).1 =
        (binaryWriteHdr hdr ++ getPadding ((binaryWriteHdr hdr).length : Int)) ++
          (((CETK.CertCA ++ CETK.CertXS ++ TMD.CertCP) ++
              getPadding ((CETK.CertCA ++ CETK.CertXS ++ TMD.CertCP).length : Int)) ++
            ((CETK.HeaderChunk ++ getPadding (CETK.HeaderChunk.length : Int)) ++
              ((TMD.HeaderChunk ++ getPadding (TMD.HeaderChunk.length : Int)) ++ more))) ∧
      (binaryWriteHdr hdr ++ getPadding ((binaryWriteHdr hdr).length : Int)).length = 0x2040 ∧
      ((CETK.CertCA ++ CETK.CertXS ++ TMD.CertCP) ++
          getPadding ((CETK.CertCA ++ CETK.CertXS ++ TMD.CertCP).length : Int)).length =
        padded (CETK.CertCA ++ CETK.CertXS ++ TMD.CertCP).length ∧
      (CETK.HeaderChunk ++ getPadding (CETK.HeaderChunk.length : Int)).length =
        padded CETK.HeaderChunk.length ∧
      (TMD.HeaderChunk ++ getPadding (TMD.HeaderChunk.length : Int)).length =
        padded TMD.HeaderChunk.length ∧
      0x2040 % 64 = 0 ∧
      (0x2040 + padded (CETK.CertCA ++ CETK.CertXS ++ TMD.CertCP).length) % 64 = 0 ∧
      (0x2040 + padded (CETK.CertCA ++ CETK.CertXS ++ TMD.CertCP).length +
        padded CETK.HeaderChunk.length) % 64 = 0 ∧
      (0x2040 + padded (CETK.CertCA ++ CETK.CertXS ++ TMD.CertCP).length +
        padded CETK.HeaderChunk.length + padded TMD.HeaderChunk.length) % 64 = 0 ∧
      ((∀ r ∈ TMD.contentChunkRecs, (fs.readFile (contentPath cdnDir r)).isSome = true) →
        more = (payloads fs cdnDir TMD.contentChunkRecs).flatten) := by
  obtain ⟨hdr, hhdr, hgen⟩ := genCia_eq_loop fs CETK TMD cdnDir dir file hcreate
  obtain ⟨more, hmore⟩ := genCia_loop_prefix fs cdnDir TMD.contentChunkRecs
    (binaryWriteHdr hdr ++ getPadding ((binaryWriteHdr hdr).length : Int) ++
      CETK.CertCA ++ CETK.CertXS ++ TMD.CertCP ++
      getPadding ((CETK.CertCA.length : Int) + (CETK.CertXS.length : Int) +
        (TMD.CertCP.length : Int)) ++
      CETK.HeaderChunk ++ getPadding (CETK.HeaderChunk.length : Int) ++
      TMD.HeaderChunk ++ getPadding (TMD.HeaderChunk.length : Int))
  have hc : ((CETK.CertCA ++ CETK.CertXS ++ TMD.CertCP).length : Int) =
      (CETK.CertCA.length : Int) + (CETK.CertXS.length : Int) + (TMD.CertCP.length : Int) := by
    simp only [List.length_append, Nat.cast_add]
  have m1 := padded_mod (CETK.CertCA ++ CETK.CertXS ++ TMD.CertCP).length
  have m2 := padded_mod CETK.HeaderChunk.length
  have m3 := padded_mod TMD.HeaderChunk.length
  refine ⟨hdr, more, hhdr, ?_, ?_, section_length _, section_length _, section_length _,
    by decide, by omega, by omega, by omega, ?_⟩
  · rw [hgen, hmore, hc]
    simp only [List.append_assoc]
  · rw [getPadding_hdr, List.length_append, binaryWriteHdr_length, List.length_replicate]
  · intro hpay
    have hok := genCia_loop_ok fs cdnDir TMD.contentChunkRecs
      (binaryWriteHdr hdr ++ getPadding ((binaryWriteHdr hdr).length : Int) ++
        CETK.CertCA ++ CETK.CertXS ++ TMD.CertCP ++
        getPadding ((CETK.CertCA.length : Int) + (CETK.CertXS.length : Int) +
          (TMD.CertCP.length : Int)) ++
        CETK.HeaderChunk ++ getPadding (CETK.HeaderChunk.length : Int) ++
        TMD.HeaderChunk ++ getPadding (TMD.HeaderChunk.length : Int)) hpay
    rw [hok] at hmore
    exact (List.append_cancel_left hmore).symm

/-- C20, witness: the example ticket and metadata values. -/
theorem genCia_section_offsets_witness :
    exampleFS.create (ciaPath [] outName) = true ∧
    (0x2040 + padded (exampleTkVal.CertCA ++ exampleTkVal.CertXS ++
      exampleTmdVal.CertCP).length) % 64 = 0 ∧
    (0x2040 + padded (exampleTkVal.CertCA ++ exampleTkVal.CertXS ++
      exampleTmdVal.CertCP).length + padded exampleTkVal.HeaderChunk.length +
      padded exampleTmdVal.HeaderChunk.length) % 64 = 0 := by
  obtain ⟨_, _, _, _, _, _, _, _, _, h1, _, h3, _⟩ :=
    genCia_section_offsets exampleFS exampleTkVal exampleTmdVal cdn [] outName rfl
  exact ⟨rfl, h1, h3⟩

/-! ## Buffers with spare capacity -/

theorem goSliceCap_ok (b : GoSlice) (lo hi : Nat) (h1 : lo ≤ hi) (h2 : hi ≤ b.backing.length) :
    ∃ r, goSliceCap b lo hi = .ok r ∧ r.backing = b.backing.drop lo ∧ r.len = hi - lo ∧
      r.bytes = (b.backing.drop lo).take (hi - lo) := by
  unfold goSliceCap
  rw [dif_pos ⟨h1, h2⟩]
  exact ⟨_, rfl, rfl, rfl, rfl⟩

theorem goSliceCap_panic (b : GoSlice) (lo hi : Nat) (h : ¬ (lo ≤ hi ∧ hi ≤ b.backing.length)) :
    goSliceCap b lo hi = .error .panic := by
  unfold goSliceCap
  rw [dif_neg h]

theorem getCOffsetsCap_eq (b : GoSlice) : getCOffsetsCap b = getCOffsets b.backing := by
  unfold getCOffsetsCap getCOffsets
  by_cases h : 0x1E0 ≤ b.backing.length
  · obtain ⟨r, hr, _, _, hb⟩ := goSliceCap_ok b 0x1DE 0x1E0 (by decide) h
    rw [hr, goSlice_ok b.backing 0x1DE 0x1E0 (by decide) h]
    simp only [hb]
  · rw [goSliceCap_panic b _ _ (by omega), goSlice_panic b.backing _ _ (by omega)]

theorem processTMDCap_loop_eq (b : GoSlice) (offs : List Nat) :
    ∀ recs, processTMDCap_loop b offs recs = processTMD_loop b.backing offs recs := by
  induction offs with
  | nil => intro recs; rfl
  | cons off rest ih =>
    intro recs
    rw [processTMDCap_loop, processTMD_loop]
    by_cases h : off + 0x30 ≤ b.backing.length
    · obtain ⟨r, hr, _, _, hb⟩ := goSliceCap_ok b off (off + 0x30) (by omega) h
      rw [hr, goSlice_ok b.backing off (off + 0x30) (by omega) h]
      simp only [hb, ih]
    · rw [goSliceCap_panic b _ _ (by omega), goSlice_panic b.backing _ _ (by omega)]

theorem processTkCap_eq (b : GoSlice) : processTkCap b = processTk b.backing := by
  unfold processTkCap processTk
  by_cases h4 : 4 ≤ b.backing.length
  swap
  · rw [goSliceCap_panic b _ _ (by omega), goSlice_panic b.backing _ _ (by omega)]
  obtain ⟨r0, hr0, _, _, hb0⟩ := goSliceCap_ok b 0 4 (by decide) h4
  rw [hr0, goSlice_ok b.backing 0 4 (by decide) h4]
  simp only [hb0]
  rcases hexToInt ((b.backing.drop 0).take (4 - 0)) 10 32 with ⟨sigType, _ | e⟩
  swap
  · rfl
  simp only []
  rcases getSigSize sigType with ⟨s, _ | e⟩
  swap
  · rfl
  simp only []
  by_cases hx : s + 1296 ≤ b.backing.length
  swap
  · rw [goSliceCap_panic b _ _ (by omega), goSlice_panic b.backing _ _ (by omega)]
  obtain ⟨r1, hr1, _, _, hb1⟩ := goSliceCap_ok b (s + 528) (s + 1296) (by omega) hx
  rw [hr1, goSlice_ok b.backing (s + 528) (s + 1296) (by omega) hx]
  simp only []
  by_cases ha : s + 2320 ≤ b.backing.length
  swap
  · rw [goSliceCap_panic b _ _ (by omega), goSlice_panic b.backing _ _ (by omega)]
  obtain ⟨r2, hr2, _, _, hb2⟩ := goSliceCap_ok b (s + 1296) (s + 2320) (by omega) ha
  rw [hr2, goSlice_ok b.backing (s + 1296) (s + 2320) (by omega) ha]
  simp only []
  obtain ⟨r3, hr3, hk3, hl3, hb3⟩ := goSliceCap_ok b 0 (s + 528) (by omega) (by omega)
  rw [hr3, goSlice_ok b.backing 0 (s + 528) (by omega) (by omega)]
  simp only []
  have hlen3 : r3.backing.length = b.backing.length := by
    rw [hk3, List.drop_zero]
  obtain ⟨r4, hr4, _, _, hb4⟩ := goSliceCap_ok r3 (s + 156) (s + 164) (by omega) (by omega)
  have hm : ((b.backing.drop 0).take (s + 528 - 0)).length = s + 528 := by
    rw [List.length_take, List.length_drop]; omega
  rw [hr4, goSlice_ok _ (s + 156) (s + 164) (by omega) (by omega)]
  simp only [hb1, hb2, hb3, hb4, hk3]
  have e8 : s + 164 - (s + 156) = 8 := by omega
  rw [e8, List.drop_take, List.take_take, Nat.min_eq_left (by omega)]

theorem processTMDCap_eq (b : GoSlice) : processTMDCap b = processTMD b.backing := by
  unfold processTMDCap processTMD
  by_cases h4 : 4 ≤ b.backing.length
  swap
  · rw [goSliceCap_panic b _ _ (by omega), goSlice_panic b.backing _ _ (by omega)]
  obtain ⟨r0, hr0, _, _, hb0⟩ := goSliceCap_ok b 0 4 (by decide) h4
  rw [hr0, goSlice_ok b.backing 0 4 (by decide) h4]
  simp only [hb0]
  rcases hexToInt ((b.backing.drop 0).take (4 - 0)) 10 32 with ⟨sigType, _ | e⟩
  swap
  · rfl
  simp only []
  rcases getSigSize sigType with ⟨s, _ | e⟩
  swap
  · rfl
  simp only [getCOffsetsCap_eq]
  rcases getCOffsets b.backing with f | offsets
  · rfl
  simp only [processTMDCap_loop_eq]
  rcases processTMD_loop b.backing offsets [] with f | recs
  · rfl
  simp only []
  rcases goIndex offsets ((offsets.length : Int) - 1) with f | last
  · rfl
  simp only []
  by_cases ht : s + 84 ≤ b.backing.length
  swap
  · rw [goSliceCap_panic b _ _ (by omega), goSlice_panic b.backing _ _ (by omega)]
  obtain ⟨r1, hr1, _, _, hb1⟩ := goSliceCap_ok b (s + 76) (s + 84) (by omega) ht
  rw [hr1, goSlice_ok b.backing (s + 76) (s + 84) (by omega) ht]
  simp only []
  by_cases hh : last + 0x30 ≤ b.backing.length
  swap
  · rw [goSliceCap_panic b _ _ (by omega), goSlice_panic b.backing _ _ (by omega)]
  obtain ⟨r2, hr2, _, _, hb2⟩ := goSliceCap_ok b 0 (last + 0x30) (by omega) hh
  rw [hr2, goSlice_ok b.backing 0 (last + 0x30) (by omega) hh]
  simp only []
  by_cases hc : last + 0x30 + 768 ≤ b.backing.length
  swap
  · rw [goSliceCap_panic b _ _ (by omega), goSlice_panic b.backing _ _ (by omega)]
  obtain ⟨r3, hr3, _, _, hb3⟩ := goSliceCap_ok b (last + 0x30) (last + 0x30 + 768) (by omega) hc
  rw [hr3, goSlice_ok b.backing (last + 0x30) (last + 0x30 + 768) (by omega) hc]
  simp only [hb1, hb2, hb3]

/-! ## Truncated input -/

theorem bytesAt_bytes (b : GoSlice) (lo k : Nat) (h : lo + k ≤ b.len) :
    bytesAt b.bytes lo k = bytesAt b.backing lo k := by
  unfold bytesAt GoSlice.bytes
  rw [List.drop_take, List.take_take, Nat.min_eq_left (by omega)]

theorem bytes_take (b : GoSlice) (k : Nat) (h : k ≤ b.len) :
    b.bytes.take k = b.backing.take k := by
  unfold GoSlice.bytes
  rw [List.take_take, Nat.min_eq_left h]

/-- C15 (amended): `processTk` and `processTMD` have no bounds checks and
never return an error for a buffer that is too short; each slice expression is
bounded only by the buffer's capacity.  For a ticket buffer whose code
`getSigSize` accepts with size `s` and whose length is below `s + 2320`:
if the capacity reaches `s + 2320`, `processTk` succeeds and its ranges run
past the length into the spare capacity; otherwise it panics.  For a metadata
buffer whose code `getSigSize` accepts, whose count field reads `n` and whose
length is below `0xB04 + 0x30 * n + 768`: if `n ≥ 1` and the capacity reaches
that bound, `processTMD` succeeds with `n` descriptors; otherwise it panics. -/
theorem parsers_never_report_truncation :
    (∀ (b : GoSlice) (code s : Nat), 4 ≤ b.len →
      hexToInt (b.bytes.take 4) 10 32 = (code, none) → getSigSize code = (s, none) →
      b.len < s + 2320 →
      (s + 2320 ≤ b.backing.length →
        ∃ k, processTkCap b = .ok k ∧ k.HeaderChunk = b.backing.take (s + 528) ∧
          k.CertXS = bytesAt b.backing (s + 528) 768 ∧
          k.CertCA = bytesAt b.backing (s + 1296) 1024) ∧
      (b.backing.length < s + 2320 → processTkCap b = .error .panic) ∧
      ∀ e, processTkCap b ≠ .error (.err e)) ∧
    (∀ (b : GoSlice) (code s n : Nat), 0x1E0 ≤ b.len →
      hexToInt (b.bytes.take 4) 10 32 = (code, none) → getSigSize code = (s, none) →
      hexToInt (bytesAt b.bytes 0x1DE 2) 10 4 = (n, none) →
      b.len < 0xB04 + 0x30 * n + 768 →
      (1 ≤ n → 0xB04 + 0x30 * n + 768 ≤ b.backing.length →
        ∃ t, processTMDCap b = .ok t ∧ t.contentChunkRecs.length = n ∧
          t.HeaderChunk = b.backing.take (0xB04 + 0x30 * n) ∧
          t.CertCP = bytesAt b.backing (0xB04 + 0x30 * n) 768) ∧
      (n = 0 ∨ b.backing.length < 0xB04 + 0x30 * n + 768 →
        processTMDCap b = .error .panic) ∧
      ∀ e, processTMDCap b ≠ .error (.err e)) := by
  constructor
  · intro b code s h4 hsig hsize hshort
    have hcap := b.len_le
    rw [bytes_take b 4 h4] at hsig
    have hok : s + 2320 ≤ b.backing.length →
        ∃ k, processTkCap b = .ok k ∧ k.HeaderChunk = b.backing.take (s + 528) ∧
          k.CertXS = bytesAt b.backing (s + 528) 768 ∧
          k.CertCA = bytesAt b.backing (s + 1296) 1024 := by
      intro hfit
      exact ⟨_, by rw [processTkCap_eq, processTk_ok b.backing code s hsig hsize hfit],
        rfl, rfl, rfl⟩
    have hpanic : b.backing.length < s + 2320 → processTkCap b = .error .panic := by
      intro hlt
      rw [processTkCap_eq]
      exact processTk_truncated b.backing code s (by omega) hsig hsize hlt
    refine ⟨hok, hpanic, ?_⟩
    intro e he
    by_cases hfit : s + 2320 ≤ b.backing.length
    · obtain ⟨k, hk, _⟩ := hok hfit
      rw [hk] at he
      cases he
    · rw [hpanic (by omega)] at he
      cases he
  · intro b code s n hlen hsig hsize hcount hshort
    have hcap := b.len_le
    rw [bytes_take b 4 (by omega)] at hsig
    rw [bytesAt_bytes b 0x1DE 2 (by omega)] at hcount
    have hcount' : hexToInt ((b.backing.drop 0x1DE).take 2) 10 4 = (n, none) := hcount
    obtain ⟨_, hle⟩ := getSigSize_ok_bound code s hsize
    have hok : 1 ≤ n → 0xB04 + 0x30 * n + 768 ≤ b.backing.length →
        ∃ t, processTMDCap b = .ok t ∧ t.contentChunkRecs.length = n ∧
          t.HeaderChunk = b.backing.take (0xB04 + 0x30 * n) ∧
          t.CertCP = bytesAt b.backing (0xB04 + 0x30 * n) 768 := by
      intro hn hfit
      obtain ⟨recs, hp, hall⟩ := processTMD_ok b.backing code s n hsig hsize hcount' hn hfit
        (by omega)
      have hl := hall.length_eq
      simp only [List.length_map, List.length_range] at hl
      exact ⟨_, by rw [processTMDCap_eq, hp], hl.symm, rfl, rfl⟩
    have hpanic : n = 0 ∨ b.backing.length < 0xB04 + 0x30 * n + 768 →
        processTMDCap b = .error .panic := by
      intro hor
      rw [processTMDCap_eq]
      rcases hor with h0 | hlt
      · subst h0
        exact processTMD_count_zero b.backing code s hsig hsize (by omega) hcount'
      · exact processTMD_truncated b.backing code s n hsig hsize (by omega) hcount' hlt
    refine ⟨hok, hpanic, ?_⟩
    intro e he
    by_cases hc : n = 0 ∨ b.backing.length < 0xB04 + 0x30 * n + 768
    · rw [hpanic hc] at he
      cases he
    · obtain ⟨t, ht, _⟩ := hok (by omega) (by omega)
      rw [ht] at he
      cases he

/-! ## Truncated example buffers -/

theorem exampleCETK_length : exampleCETK.length = 2640 := by
  simp only [exampleCETK, List.length_append, List.length_replicate, List.length_cons,
    List.length_nil]

theorem oneShortCETK_sig :
    hexToInt (oneShortCETK.bytes.take 4) 10 32 = (sigTypeRSA2048SHA256, none) := by
  rw [bytes_take oneShortCETK 4 (by decide)]
  show hexToInt (exampleCETK.take 4) 10 32 = _
  decide

theorem cutCETK_sig :
    hexToInt (cutCETK.bytes.take 4) 10 32 = (sigTypeRSA2048SHA256, none) := by
  rw [bytes_take cutCETK 4 (by decide)]
  show hexToInt (shortCETK.take 4) 10 32 = _
  decide

theorem oneShortTMD_sig :
    hexToInt (oneShortTMD.bytes.take 4) 10 32 = (sigTypeRSA2048SHA256, none) := by
  rw [bytes_take oneShortTMD 4 (by decide)]
  show hexToInt ((exampleTMD [0, 1, 0, 4] [0, 2] exampleRecs).take 4) 10 32 = _
  rw [exampleTMD_take_sig [0, 1, 0, 4] [0, 2] exampleRecs (by rfl)]
  decide

theorem oneShortTMD_count : hexToInt (bytesAt oneShortTMD.bytes 0x1DE 2) 10 4 = (2, none) := by
  rw [bytesAt_bytes oneShortTMD 0x1DE 2 (by decide)]
  show hexToInt (((exampleTMD [0, 1, 0, 4] [0, 2] exampleRecs).drop 0x1DE).take 2) 10 4 = _
  rw [exampleTMD_count [0, 1, 0, 4] [0, 2] exampleRecs 2 (by rfl) (by rfl)]
  decide

theorem oneShortTMD_cap : oneShortTMD.backing.length = 0xB04 + 0x30 * 2 + 768 := by
  show (exampleTMD [0, 1, 0, 4] [0, 2] exampleRecs).length = _
  rw [exampleTMD_length [0, 1, 0, 4] [0, 2] exampleRecs (by rfl) (by decide), exampleRecs_length]

theorem cutTMD_sig :
    hexToInt (cutTMD.bytes.take 4) 10 32 = (sigTypeRSA2048SHA256, none) := by
  rw [bytes_take cutTMD 4 (by decide)]
  exact shortTMD_sig

theorem cutTMD_count : hexToInt (bytesAt cutTMD.bytes 0x1DE 2) 10 4 = (2, none) := by
  rw [bytesAt_bytes cutTMD 0x1DE 2 (by decide)]
  exact shortTMD_count

/-- C15, witness: the example ticket and metadata buffers read one byte short
but with that byte of spare capacity are parsed; the buffers of 2004 and 580
bytes with no spare capacity make the parsers panic. -/
theorem parsers_never_report_truncation_witness :
    (∃ k, processTkCap oneShortCETK = .ok k ∧
      k.CertCA = bytesAt oneShortCETK.backing (320 + 1296) 1024) ∧
    processTkCap cutCETK = .error .panic ∧
    (∃ t, processTMDCap oneShortTMD = .ok t ∧ t.contentChunkRecs.length = 2) ∧
    processTMDCap cutTMD = .error .panic := by
  refine ⟨?_, ?_, ?_, ?_⟩
  · obtain ⟨k, hk, _, _, hca⟩ :=
      (parsers_never_report_truncation.1 oneShortCETK sigTypeRSA2048SHA256 320 (by decide)
        oneShortCETK_sig (by decide) (by decide)).1
        (by show 320 + 2320 ≤ exampleCETK.length; rw [exampleCETK_length])
    exact ⟨k, hk, hca⟩
  · exact (parsers_never_report_truncation.1 cutCETK sigTypeRSA2048SHA256 320 (by decide)
      cutCETK_sig (by decide) (by decide)).2.1
      (by show shortCETK.length < 320 + 2320; rw [shortCETK_length]; decide)
  · obtain ⟨t, ht, hn, _⟩ :=
      (parsers_never_report_truncation.2 oneShortTMD sigTypeRSA2048SHA256 320 2 (by decide)
        oneShortTMD_sig (by decide) oneShortTMD_count (by decide)).1 (by decide)
        (by rw [oneShortTMD_cap])
    exact ⟨t, ht, hn⟩
  · exact (parsers_never_report_truncation.2 cutTMD sigTypeRSA2048SHA256 320 2 (by decide)
      cutTMD_sig (by decide) cutTMD_count (by decide)).2.1
      (Or.inr (by show shortTMD.length < _; rw [shortTMD_length]; decide))

/-- C15, counterexample: a ticket buffer of signature type `00 01 00 04`
(size 320) holding 2639 bytes, one below `320 + 2320`, with one byte of spare
capacity: `processTk` returns a ticket and no error.  A metadata buffer of the
same type with count 2 holding 3683 bytes, one below `0xB04 + 0x30 * 2 + 768`,
with one byte of spare capacity: `processTMD` returns a structure and no
error.  With no spare capacity (2004 and 580 bytes) both panic, which is no
error value either. -/
theorem truncated_buffers_counterexample :
    (oneShortCETK.len < 320 + 2320 ∧
      hexToInt (oneShortCETK.bytes.take 4) 10 32 = (sigTypeRSA2048SHA256, none) ∧
      getSigSize sigTypeRSA2048SHA256 = (320, none) ∧
      ∃ k, processTkCap oneShortCETK = .ok k) ∧
    (oneShortTMD.len < 0xB04 + 0x30 * 2 + 768 ∧
      hexToInt (oneShortTMD.bytes.take 4) 10 32 = (sigTypeRSA2048SHA256, none) ∧
      hexToInt (bytesAt oneShortTMD.bytes 0x1DE 2) 10 4 = (2, none) ∧
      ∃ t, processTMDCap oneShortTMD = .ok t) ∧
    (cutCETK.len = cutCETK.backing.length ∧ cutCETK.len < 320 + 2320 ∧
      processTkCap cutCETK = .error .panic) ∧
    (cutTMD.len = cutTMD.backing.length ∧ cutTMD.len < 0xB04 + 0x30 * 2 + 768 ∧
      processTMDCap cutTMD = .error .panic) := by
  refine ⟨⟨by decide, oneShortCETK_sig, by decide, ?_⟩,
    ⟨by decide, oneShortTMD_sig, oneShortTMD_count, ?_⟩,
    ⟨?_, by decide, ?_⟩, ⟨?_, by decide, ?_⟩⟩
  · obtain ⟨k, hk⟩ := exampleCETK_parsed
    exact ⟨k, by rw [processTkCap_eq]; exact hk⟩
  · obtain ⟨t, ht⟩ := exampleTMD_parsed
    exact ⟨t, by rw [processTMDCap_eq]; exact ht⟩
  · show 2004 = shortCETK.length
    rw [shortCETK_length]
  · rw [processTkCap_eq]
    exact processTk_truncated shortCETK sigTypeRSA2048SHA256 320
      (by rw [shortCETK_length]; decide) (by decide) (by decide)
      (by rw [shortCETK_length]; decide)
  · show 580 = shortTMD.length
    rw [shortTMD_length]
  · rw [processTMDCap_eq]
    exact processTMD_truncated shortTMD sigTypeRSA2048SHA256 320 2 shortTMD_sig (by decide)
      (by rw [shortTMD_length]; decide) shortTMD_count (by rw [shortTMD_length]; decide)

end MakeCdnCia
